import Mathlib

/-!
# pewpew-watcher: the reconciliation engine

A shallow embedding of `utils/database.go` and `platforms/*.go`.

* Go `map[string]string` values are association lists; the order of the list is
  the order in which `range` visits the entries, which the Go runtime leaves
  unspecified.  Statements about the results of `range` loops are therefore
  made up to permutation (as multisets) and hold for every list order.
* Go slices are lists (`nil` and the empty slice are both `[]`; the code only
  ever reads their length and elements).
* A `*Reward` is an `Option Reward`.
* Go strings are Lean strings, that is, sequences of Unicode code points; byte
  strings that are not valid UTF-8 have no counterpart.
* A function that can panic returns an `Option`; `none` is the panic.
* Database calls can fail: the environment (`Env`) says which ones do.
-/

namespace PewPew

/-! ## Data model (`utils/database.go`, lines 31-81) -/

/-- The `Notifications` struct of `utils/database.go`. -/
structure Notifications where
  NewProgram : Bool
  RemovedProgram : Bool
  NewScope : Bool
  RemovedScope : Bool
  ChangedScope : Bool
  NewType : Bool
  deriving DecidableEq, Repr

/-- The `Platform` struct: one entry of `Config.Platforms`. -/
structure Platform where
  URL : String
  Monitor : Bool
  Notifications : Notifications
  deriving DecidableEq, Repr

/-- The `Program` struct; `Scope` and `Reward` hold serialized JSON text.  The Go
field `Type` is written `Type_` (a reserved word in Lean). -/
structure Program where
  ID : Nat
  Name : String
  URL : String
  Type_ : String
  Key : String
  Platform : String
  Logo : String
  Scope : String
  InScope : String
  OutOfScope : String
  Reward : String
  CreatedAt : String
  UpdatedAt : String
  deriving DecidableEq, Repr

/-- The `Reward` struct. -/
structure Reward where
  Min : String
  Max : String
  deriving DecidableEq, Repr

/-- The `ScopeChange` struct. -/
structure ScopeChange where
  Old : String
  New : String
  deriving DecidableEq, Repr

/-- The `Alert` struct.  `Program` is a pointer that is non-nil at every place
an alert is built. -/
structure Alert where
  Program : Program
  IsNew : Bool
  IsRemoved : Bool
  NewScope : List String
  RemovedScope : List String
  ChangedScope : List ScopeChange
  NewType : String
  Reward : Option Reward
  deriving DecidableEq, Repr

/-! ## Go maps -/

/-- A Go `map[string]string`: its entries in iteration order.  A map built by
the program has pairwise distinct keys (`ScopeMap.WF`). -/
abbrev ScopeMap := List (String × String)

namespace ScopeMap

/-- The keys of the map, in iteration order. -/
def keys (m : ScopeMap) : List String := m.map Prod.fst

/-- Well-formedness of a Go map: no key occurs twice. -/
def WF (m : ScopeMap) : Prop := (keys m).Nodup

instance (m : ScopeMap) : Decidable (WF m) := by unfold WF; infer_instance

/-- The comma-ok lookup `v, exists := m[id]`. -/
def get? (m : ScopeMap) (id : String) : Option String := List.lookup id m

/-- The plain lookup `m[id]`, the zero value `""` when the key is absent. -/
def get (m : ScopeMap) (id : String) : String := (get? m id).getD ""

/-- The assignment `m[id] = v`. -/
def set : ScopeMap → String → String → ScopeMap
  | [], id, v => [(id, v)]
  | (k, w) :: rest, id, v => if k = id then (k, v) :: rest else (k, w) :: set rest id v

/-- Two maps are equal as Go maps when every lookup agrees. -/
def Equiv (a b : ScopeMap) : Prop := ∀ id, get? a id = get? b id

end ScopeMap

/-! ## Identity keyer (`utils/database.go`, lines 217-220)

`crypto/md5` and `encoding/hex` are modelled after RFC 1321; 32-bit words are
natural numbers reduced modulo `2^32`. -/

/-- The UTF-8 bytes of one code point. -/
def utf8Char (c : Char) : List Nat :=
  let n := c.toNat
  if n < 0x80 then [n]
  else if n < 0x800 then [0xC0 + n / 64, 0x80 + n % 64]
  else if n < 0x10000 then [0xE0 + n / 4096, 0x80 + (n / 64) % 64, 0x80 + n % 64]
  else [0xF0 + n / 262144, 0x80 + (n / 4096) % 64, 0x80 + (n / 64) % 64, 0x80 + n % 64]

/-- The conversion `[]byte(s)`. -/
def bytesOf (s : String) : List Nat := s.data.flatMap utf8Char

namespace md5

/-- Per-round left-rotation amounts. -/
def shifts : List Nat :=
  [7, 12, 17, 22, 7, 12, 17, 22, 7, 12, 17, 22, 7, 12, 17, 22,
   5, 9, 14, 20, 5, 9, 14, 20, 5, 9, 14, 20, 5, 9, 14, 20,
   4, 11, 16, 23, 4, 11, 16, 23, 4, 11, 16, 23, 4, 11, 16, 23,
   6, 10, 15, 21, 6, 10, 15, 21, 6, 10, 15, 21, 6, 10, 15, 21]

/-- The sine-derived round constants. -/
def K : List Nat :=
  [0xd76aa478, 0xe8c7b756, 0x242070db, 0xc1bdceee, 0xf57c0faf, 0x4787c62a, 0xa8304613, 0xfd469501,
   0x698098d8, 0x8b44f7af, 0xffff5bb1, 0x895cd7be, 0x6b901122, 0xfd987193, 0xa679438e, 0x49b40821,
   0xf61e2562, 0xc040b340, 0x265e5a51, 0xe9b6c7aa, 0xd62f105d, 0x02441453, 0xd8a1e681, 0xe7d3fbc8,
   0x21e1cde6, 0xc33707d6, 0xf4d50d87, 0x455a14ed, 0xa9e3e905, 0xfcefa3f8, 0x676f02d9, 0x8d2a4c8a,
   0xfffa3942, 0x8771f681, 0x6d9d6122, 0xfde5380c, 0xa4beea44, 0x4bdecfa9, 0xf6bb4b60, 0xbebfbc70,
   0x289b7ec6, 0xeaa127fa, 0xd4ef3085, 0x04881d05, 0xd9d4d039, 0xe6db99e5, 0x1fa27cf8, 0xc4ac5665,
   0xf4292244, 0x432aff97, 0xab9423a7, 0xfc93a039, 0x655b59c3, 0x8f0ccc92, 0xffeff47d, 0x85845dd1,
   0x6fa87e4f, 0xfe2ce6e0, 0xa3014314, 0x4e0811a1, 0xf7537e82, 0xbd3af235, 0x2ad7d2bb, 0xeb86d391]

/-- The modulus `2^32` of word arithmetic. -/
def W : Nat := 4294967296

/-- Left rotation of a 32-bit word. -/
def rotl (x c : Nat) : Nat := ((x <<< c) ||| (x >>> (32 - c))) % W

/-- Bitwise complement of a 32-bit word. -/
def not32 (x : Nat) : Nat := W - 1 - x

/-- The `n` low bytes of `x`, least significant first. -/
def leBytes : Nat → Nat → List Nat
  | 0, _ => []
  | n + 1, x => (x % 256) :: leBytes n (x / 256)

/-- The number whose little-endian bytes are `bs`. -/
def leWord (bs : List Nat) : Nat :=
  bs.foldr (fun b acc => b + 256 * acc) 0

/-- Message padding: a `0x80` byte, zeros up to 56 modulo 64, the bit length. -/
def pad (msg : List Nat) : List Nat :=
  let l := msg.length
  let z := (119 - l % 64) % 64
  msg ++ [0x80] ++ List.replicate z 0 ++ leBytes 8 ((8 * l) % 18446744073709551616)

/-- Consecutive chunks of `n` elements; `fuel` bounds the number of chunks. -/
def chunks (n : Nat) : Nat → List Nat → List (List Nat)
  | 0, _ => []
  | fuel + 1, xs => if xs.isEmpty then [] else xs.take n :: chunks n fuel (xs.drop n)

/-- The four chaining words. -/
structure State where
  a : Nat
  b : Nat
  c : Nat
  d : Nat

/-- One of the 64 operations on a block with message words `M`. -/
def round (M : List Nat) (st : State) (i : Nat) : State :=
  let (f, g) :=
    if i < 16 then ((st.b &&& st.c) ||| (not32 st.b &&& st.d), i)
    else if i < 32 then ((st.d &&& st.b) ||| (not32 st.d &&& st.c), (5 * i + 1) % 16)
    else if i < 48 then (st.b ^^^ st.c ^^^ st.d, (3 * i + 5) % 16)
    else (st.c ^^^ (st.b ||| not32 st.d), (7 * i) % 16)
  let f2 := (f + st.a + K.getD i 0 + M.getD g 0) % W
  { a := st.d, d := st.c, c := st.b, b := (st.b + rotl f2 (shifts.getD i 0)) % W }

/-- The compression of one 64-byte block into the chaining state. -/
def block (st : State) (blk : List Nat) : State :=
  let M := (chunks 4 16 blk).map leWord
  let r := (List.range 64).foldl (round M) st
  { a := (st.a + r.a) % W, b := (st.b + r.b) % W, c := (st.c + r.c) % W, d := (st.d + r.d) % W }

/-- The digest `md5.Sum(msg)`: 16 bytes. -/
def Sum (msg : List Nat) : List Nat :=
  let p := pad msg
  let st := (chunks 64 (p.length / 64) p).foldl block
    { a := 0x67452301, b := 0xefcdab89, c := 0x98badcfe, d := 0x10325476 }
  leBytes 4 st.a ++ leBytes 4 st.b ++ leBytes 4 st.c ++ leBytes 4 st.d

end md5

/-- The lower-case hexadecimal digit of `n < 16`. -/
def hexDigit (n : Nat) : Char := "0123456789abcdef".data.getD n '0'

/-- The call `hex.EncodeToString(bs)`. -/
def hexEncodeToString (bs : List Nat) : String :=
  String.mk (bs.flatMap fun b => [hexDigit (b / 16), hexDigit (b % 16)])

/-- `GenerateProgramKey(name, url)`; `fmt.Sprintf("%s|%s", name, url)` is the
concatenation `name ++ "|" ++ url`. -/
def GenerateProgramKey (name url : String) : String :=
  let hash := md5.Sum (bytesOf (name ++ "|" ++ url))
  hexEncodeToString hash

/-! ## What the program takes from outside the repository -/

/-- The outside world of one run.

* `saveErr n`, `getErr n`, `deleteErr n`, `keysErr n`: whether the statement
  issued as the `n`-th database call fails, if it is a call of `SaveProgram`,
  `GetProgram`, `DeleteProgram`, `GetAllProgramKeys`.
* `now n`: the value of `CURRENT_TIMESTAMP` during the `n`-th database call.
* `MarshalScope`, `UnmarshalScope`, `MarshalReward`, `UnmarshalReward`:
  `json.Marshal` and `json.Unmarshal` of `encoding/json` at the two types the
  program uses them at.  No law is built in; a theorem that needs
  `Unmarshal (Marshal x)` to give back `x` says so. -/
structure Env where
  saveErr : Nat → Bool
  getErr : Nat → Bool
  deleteErr : Nat → Bool
  keysErr : Nat → Bool
  now : Nat → String
  MarshalScope : ScopeMap → String
  UnmarshalScope : String → ScopeMap
  MarshalReward : Reward → String
  UnmarshalReward : String → Reward

/-! ## Serialization (`utils/database.go`, lines 222-268)

Every caller discards the `error` result with `_`, so only the value is kept. -/

/-- `SerializeScope(scope)`.  The monitors always pass a map made by `make`; the
`nil` branch (which returns the text of the empty object) is never taken. -/
def SerializeScope (env : Env) (scope : ScopeMap) : String :=
  env.MarshalScope scope

/-- `DeserializeScope(scopeStr)`. -/
def DeserializeScope (env : Env) (scopeStr : String) : ScopeMap :=
  if scopeStr = "" then [] else env.UnmarshalScope scopeStr

/-- `SerializeReward(reward)`. -/
def SerializeReward (env : Env) (reward : Reward) : String :=
  env.MarshalReward reward

/-- `DeserializeReward(rewardStr)`. -/
def DeserializeReward (env : Env) (rewardStr : String) : Reward :=
  if rewardStr = "" then { Min := "", Max := "" } else env.UnmarshalReward rewardStr

/-! ## Scope differ (`utils/database.go`, lines 270-296) -/

/-- The first loop of `CompareScopes` (lines 274-278). -/
def CompareScopes.added (oldScope newScope : ScopeMap) : List String :=
  newScope.foldl
    (fun newScopes e =>
      match ScopeMap.get? oldScope e.1 with
      | none => newScopes ++ [e.2]
      | some _ => newScopes)
    []

/-- The second loop of `CompareScopes` (lines 280-284). -/
def CompareScopes.removed (oldScope newScope : ScopeMap) : List String :=
  oldScope.foldl
    (fun removedScopes e =>
      match ScopeMap.get? newScope e.1 with
      | none => removedScopes ++ [e.2]
      | some _ => removedScopes)
    []

/-- The third loop of `CompareScopes` (lines 286-293). -/
def CompareScopes.changed (oldScope newScope : ScopeMap) : List ScopeChange :=
  newScope.foldl
    (fun changedScopes e =>
      match ScopeMap.get? oldScope e.1 with
      | some oldValue =>
          if oldValue ≠ e.2 then changedScopes ++ [{ Old := oldValue, New := e.2 }]
          else changedScopes
      | none => changedScopes)
    []

/-- `CompareScopes(oldScope, newScope)`: the three result slices. -/
def CompareScopes (oldScope newScope : ScopeMap) :
    List String × List String × List ScopeChange :=
  (CompareScopes.added oldScope newScope,
   CompareScopes.removed oldScope newScope,
   CompareScopes.changed oldScope newScope)

/-! ## Notification policy (`utils/database.go`, lines 327-344) -/

/-- `ShouldSendNotification(isNew, alert, platformConfig, firstRun)`. -/
def ShouldSendNotification (isNew : Bool) (alert : Alert) (platformConfig : Platform)
    (firstRun : Bool) : Bool :=
  if firstRun then
    isNew && platformConfig.Notifications.NewProgram
  else if alert.IsRemoved then
    platformConfig.Notifications.RemovedProgram
  else if isNew then
    platformConfig.Notifications.NewProgram
  else
    let hasChanges :=
      decide (alert.NewScope.length > 0) || decide (alert.RemovedScope.length > 0) ||
        decide (alert.ChangedScope.length > 0) || decide (alert.NewType ≠ "") ||
        alert.Reward.isSome
    hasChanges

/-! ## The store (`utils/database.go`, lines 83-179)

The table `programs` as the list of its rows in rowid order.  The column `key`
is `UNIQUE` (line 90): a store is well formed when no key occurs twice. -/

/-- The database behind the `*sql.DB` handle. -/
structure DB where
  /-- rows of `programs` -/
  rows : List Program
  /-- the `AUTOINCREMENT` sequence: the largest rowid handed out so far -/
  seq : Nat
  /-- the number of database calls made so far -/
  ops : Nat

/-- The keys of the stored rows. -/
def DB.keys (db : DB) : List String := db.rows.map (fun r => r.Key)

/-- The `UNIQUE` constraint on `key`. -/
def DB.WF (db : DB) : Prop := db.keys.Nodup

instance (db : DB) : Decidable db.WF := by unfold DB.WF; infer_instance

/-- The `error` values the callers tell apart: `sql.ErrNoRows` and any other. -/
inductive SqlError where
  | ErrNoRows
  | Other
  deriving DecidableEq, Repr

/-- `SaveProgram(db, program)`: `INSERT OR REPLACE` removes the row with the same
key, if any, and appends a row with a fresh rowid and fresh timestamps.  The
second component is `true` when the call returns an error. -/
def SaveProgram (env : Env) (db : DB) (program : Program) : DB × Bool :=
  if env.saveErr db.ops then
    ({ db with ops := db.ops + 1 }, true)
  else
    ({ rows := db.rows.filter (fun r => r.Key ≠ program.Key) ++
          [{ program with
              ID := db.seq + 1, CreatedAt := env.now db.ops, UpdatedAt := env.now db.ops }],
       seq := db.seq + 1,
       ops := db.ops + 1 }, false)

/-- `GetProgram(db, key)`: the row with that key, `sql.ErrNoRows` when there is
none, another error when the query fails. -/
def GetProgram (env : Env) (db : DB) (key : String) : DB × Except SqlError Program :=
  ({ db with ops := db.ops + 1 },
    if env.getErr db.ops then .error .Other
    else
      match db.rows.find? (fun r => r.Key = key) with
      | some program => .ok program
      | none => .error .ErrNoRows)

/-- `DeleteProgram(db, key)`.  The second component is `true` when the call
returns an error. -/
def DeleteProgram (env : Env) (db : DB) (key : String) : DB × Bool :=
  if env.deleteErr db.ops then
    ({ db with ops := db.ops + 1 }, true)
  else
    ({ db with rows := db.rows.filter (fun r => r.Key ≠ key), ops := db.ops + 1 }, false)

/-- `GetAllProgramKeys(db, platform)`.  The monitors pass a non-empty literal, for
which the query has the clause `WHERE platform = ?`; for the empty string the
query has no `WHERE` clause and all keys are selected. -/
def GetAllProgramKeys (env : Env) (db : DB) (platform : String) :
    DB × Except SqlError (List String) :=
  ({ db with ops := db.ops + 1 },
    if env.keysErr db.ops then .error .Other
    else if platform ≠ "" then
      .ok ((db.rows.filter (fun r => r.Platform = platform)).map (fun r => r.Key))
    else .ok (db.rows.map (fun r => r.Key)))

/-! ## Effects

The world a monitor acts on: the database, and the log of the calls it made to
`SaveProgram`, `DeleteProgram`, `ShouldSendNotification` and `SendAlert`, in
order.  `SendAlert` (`utils/helpers.go`, line 62) is the notification sink. -/

/-- One logged call. -/
inductive Call where
  /-- `SaveProgram(db, program)`; `err` tells whether it returned an error -/
  | SaveProgram (program : Program) (err : Bool)
  /-- `DeleteProgram(db, key)`; `err` tells whether it returned an error -/
  | DeleteProgram (key : String) (err : Bool)
  /-- `ShouldSendNotification(isNew, alert, platformConfig, firstRun)` -/
  | ShouldSendNotification (isNew : Bool) (alert : Alert)
  /-- `SendAlert(alert, config)` -/
  | SendAlert (alert : Alert)
  deriving DecidableEq, Repr

/-- Whether the call is a `SaveProgram`. -/
def Call.isSave : Call → Bool
  | .SaveProgram _ _ => true
  | _ => false

/-- Whether the call is a `DeleteProgram`. -/
def Call.isDelete : Call → Bool
  | .DeleteProgram _ _ => true
  | _ => false

/-- Whether the call is a `SendAlert`. -/
def Call.isSend : Call → Bool
  | .SendAlert _ => true
  | _ => false

/-- Whether the call is a `ShouldSendNotification`. -/
def Call.isPolicy : Call → Bool
  | .ShouldSendNotification _ _ => true
  | _ => false

/-- The database and the call log. -/
structure World where
  db : DB
  calls : List Call

/-- The alerts handed to `SendAlert`, in order. -/
def World.sent (w : World) : List Alert :=
  w.calls.filterMap fun c => match c with
    | .SendAlert a => some a
    | _ => none

/-- The programs handed to `SaveProgram`, in order, failed calls included. -/
def World.saved (w : World) : List Program :=
  w.calls.filterMap fun c => match c with
    | .SaveProgram p _ => some p
    | _ => none

/-- The keys handed to `DeleteProgram`, in order, failed calls included. -/
def World.deleted (w : World) : List String :=
  w.calls.filterMap fun c => match c with
    | .DeleteProgram k _ => some k
    | _ => none

/-- The alerts on which `ShouldSendNotification` was consulted, in order. -/
def World.alerts (w : World) : List Alert :=
  w.calls.filterMap fun c => match c with
    | .ShouldSendNotification _ a => some a
    | _ => none

/-! ## Configuration (`utils/database.go`, lines 15-29) -/

/-- The `TelegramConfig` struct. -/
structure TelegramConfig where
  BotToken : String
  ChatID : String

/-- The `DatabaseConfig` struct. -/
structure DatabaseConfig where
  Path : String

/-- The `Config` struct; `Platforms` is a Go map. -/
structure Config where
  DiscordWebhook : String
  Telegram : TelegramConfig
  Database : DatabaseConfig
  Platforms : List (String × Platform)

/-- The index expression `config.Platforms[name]`: the zero `Platform` when the
key is absent. -/
def Config.platform (config : Config) (name : String) : Platform :=
  (config.Platforms.lookup name).getD
    { URL := "", Monitor := false,
      Notifications :=
        { NewProgram := false, RemovedProgram := false, NewScope := false,
          RemovedScope := false, ChangedScope := false, NewType := false } }

/-! ## Raw records (`github.com/tidwall/gjson`)

A `gjson.Result` as the monitors observe it.  `Get` is modelled for the plain
keys the monitors use (no array index, wildcard or modifier). -/

/-- A `gjson.Result`.  `missing` is the result of a path that matches nothing.
A number carries what `String()` prints for it and whether it is non-zero; an
array or object carries its raw JSON text. -/
inductive Result where
  | missing
  | null
  | bool (b : Bool)
  | num (text : String) (nonzero : Bool)
  | str (s : String)
  | arr (raw : String) (items : List Result)
  | obj (raw : String) (members : List (String × Result))

namespace Result

/-- `r.Get(key)` for a plain key: the first member of an object with that key. -/
def Get (r : Result) (key : String) : Result :=
  match r with
  | .obj _ members =>
      match members.find? (fun m => m.1 = key) with
      | some m => m.2
      | none => .missing
  | _ => .missing

/-- `r.Get("k1.k2")`: the scan of the object goes on past a member `k1` under
which `k2` matches nothing. -/
def Get2 (r : Result) (k1 k2 : String) : Result :=
  match r with
  | .obj _ members =>
      let hit := members.findSome? fun m =>
        if m.1 = k1 then
          match m.2.Get k2 with
          | .missing => none
          | v => some v
        else none
      hit.getD .missing
  | _ => .missing

/-- `r.String()`. -/
def String_ : Result → String
  | .missing => ""
  | .null => ""
  | .bool true => "true"
  | .bool false => "false"
  | .num text _ => text
  | .str s => s
  | .arr raw _ => raw
  | .obj raw _ => raw

/-- `r.Bool()`; a string goes through `strconv.ParseBool(strings.ToLower(s))`,
which is true on `1`, `t` and `true` in any letter case. -/
def Bool_ : Result → Bool
  | .bool b => b
  | .num _ nonzero => nonzero
  | .str s =>
      let l := String.mk (s.data.map Char.toLower)
      l = "1" || l = "t" || l = "true"
  | _ => false

/-- `r.Array()`: nothing for a missing or null result, the elements of an array,
and the value itself as the only element otherwise. -/
def Array : Result → List Result
  | .missing => []
  | .null => []
  | .arr _ items => items
  | r => [r]

/-- `v, exists := r.Map()[key]`: `Map()` enters a member only when its key is
not in the map yet, so the lookup gives the first member of an object with
that key; the map of a result that is not an object is empty. -/
def MapIndex (r : Result) (key : String) : Option Result :=
  match r with
  | .obj _ members => (members.find? (fun m => m.1 = key)).map (fun m => m.2)
  | _ => none

/-- `r.Exists()`. -/
def Exists : Result → Bool
  | .missing => false
  | _ => true

end Result

/-- Whether `s` begins with the characters `p`. -/
def startsWith : List Char → List Char → Bool
  | _, [] => true
  | [], _ :: _ => false
  | c :: s, d :: p => c = d && startsWith s p

/-- `strings.Contains(s, substr)` on character lists. -/
def containsChars : List Char → List Char → Bool
  | [], p => p.isEmpty
  | c :: s, p => startsWith (c :: s) p || containsChars s p

/-- `strings.Contains(s, substr)`. -/
def stringsContains (s substr : String) : Bool := containsChars s.data substr.data

/-! ## Canonicalizers

What a monitor has computed for one record when it reaches the test
`err == sql.ErrNoRows`. -/

/-- The locals of the loop body of a monitor.  `reward` is `none` in the monitors
that have no such variable (HackerOne, Intigriti). -/
structure Locals where
  name : String
  url : String
  logo : String
  key : String
  programType : String
  scope : ScopeMap
  reward : Option Reward

/-- One scope entry of `MonitorHackerOne` (lines 69-79 and 85-94). -/
def MonitorHackerOne.target (handle : String) (scope : ScopeMap) (j : Nat) (target : Result) :
    ScopeMap :=
  let targetType := (target.Get "type").String_
  let assetID := (target.Get "asset_identifier").String_
  let assetID := if assetID = "" then (target.Get "asset").String_ else assetID
  let scopeValue := assetID ++ " (" ++ targetType ++ ")"
  let targetID := handle ++ "-" ++ toString j
  ScopeMap.set scope targetID scopeValue

/-- The scope map of `MonitorHackerOne` (lines 65-97). -/
def MonitorHackerOne.scope (program : Result) (handle : String) : ScopeMap :=
  let scopeData := (program.Get2 "targets" "in_scope").Array
  let scope := scopeData.enum.foldl
    (fun scope jt => MonitorHackerOne.target handle scope jt.1 jt.2) []
  if scope.length = 0 then
    let allTargets := (program.Get "targets").Array
    allTargets.enum.foldl
      (fun scope jt =>
        if (jt.2.Get "eligible_for_submission").Bool_ then
          MonitorHackerOne.target handle scope jt.1 jt.2
        else scope)
      scope
  else scope

/-- The record part of the loop body of `MonitorHackerOne` (lines 37-99);
`none` is the `continue` of line 47. -/
def MonitorHackerOne.locals (program : Result) : Option Locals :=
  let name := (program.Get "name").String_
  let handle := (program.Get "handle").String_
  let url := (program.Get "url").String_
  let url := if url = "" ∧ handle ≠ "" then "https://hackerone.com/" ++ handle else url
  if name = "" ∨ url = "" then none
  else
    let logo := "https://asset.brandfetch.io/idhUp0l1vN/id7Vk4WqZc.png"
    let profilePic := (program.Get "profile_picture").String_
    let logo :=
      if profilePic ≠ "" ∧ ¬ stringsContains profilePic "hackerone-us-west-2-p" then profilePic
      else logo
    let key := GenerateProgramKey name url
    let programType := if (program.Get "offers_bounties").Bool_ then "rdp" else "vdp"
    some { name := name, url := url, logo := logo, key := key, programType := programType,
           scope := MonitorHackerOne.scope program handle, reward := none }

/-- The scope map of `MonitorBugcrowd` (lines 64-101). -/
def MonitorBugcrowd.scope (program : Result) : ScopeMap :=
  let targets := (program.Get "targets").Array
  let scope := targets.enum.foldl
    (fun scope jt =>
      let targetName := (jt.2.Get "name").String_
      let targetName := if targetName = "" then jt.2.String_ else targetName
      if targetName ≠ "" then ScopeMap.set scope ("target-" ++ toString jt.1) targetName else scope)
    []
  if scope.length = 0 then
    let targetGroups := (program.Get "target_groups").Array
    (targetGroups.foldl
      (fun acc group =>
        (group.Get "targets").Array.foldl
          (fun acc target =>
            let targetName := (target.Get "name").String_
            if targetName ≠ "" then
              (ScopeMap.set acc.1 ("target-" ++ toString acc.2) targetName, acc.2 + 1)
            else acc)
          acc)
      (scope, 0)).1
  else scope

/-- The record part of the loop body of `MonitorBugcrowd` (lines 31-104);
`none` is the `continue` of line 36. -/
def MonitorBugcrowd.locals (program : Result) : Option Locals :=
  let name := (program.Get "name").String_
  let programURL := (program.Get "url").String_
  if name = "" ∨ programURL = "" then none
  else
    let url := programURL
    let url :=
      if url = "" then
        let briefUrl := (program.Get "briefUrl").String_
        if briefUrl ≠ "" then "https://bugcrowd.com" ++ briefUrl else url
      else url
    let logo := "https://asset.brandfetch.io/idZPL+3f8a/idw6hFgY3p.png"
    let logoUrl := (program.Get "logo").String_
    let logoUrl := if logoUrl = "" then (program.Get "logoUrl").String_ else logoUrl
    let logo := if logoUrl ≠ "" then logoUrl else logo
    let key := GenerateProgramKey name url
    let rdp := (program.Get "offers_bounties").Bool_ || (program.Get "bounty").Bool_
    let programType := if rdp then "rdp" else "vdp"
    let reward : Reward :=
      if rdp then
        { Min := (program.Get "min_bounty").String_, Max := (program.Get "max_bounty").String_ }
      else { Min := "", Max := "" }
    some { name := name, url := url, logo := logo, key := key, programType := programType,
           scope := MonitorBugcrowd.scope program, reward := some reward }

/-- One scope entry of the first two strategies of `MonitorIntigriti` (lines
59-73 and 79-93); `last` is the final fallback for the target name. -/
def MonitorIntigriti.target (last : Result → String) (scope : ScopeMap) (i : Nat)
    (target : Result) : ScopeMap :=
  let targetName := (target.Get "name").String_
  let targetType := (target.Get "type").String_
  let targetName := if targetName = "" then (target.Get "endpoint").String_ else targetName
  let targetName := if targetName = "" then last target else targetName
  let targetType := if targetType = "" then "unknown" else targetType
  ScopeMap.set scope ("inscope-" ++ toString i) (targetName ++ " (" ++ targetType ++ ")")

/-- The scope map of `MonitorIntigriti` (lines 53-105). -/
def MonitorIntigriti.scope (program : Result) : ScopeMap :=
  let scope : ScopeMap :=
    match (program.Get "targets").MapIndex "in_scope" with
    | some inScope =>
        inScope.Array.enum.foldl
          (fun scope it =>
            MonitorIntigriti.target (fun t => (t.Get "target").String_) scope it.1 it.2)
          []
    | none => []
  let scope :=
    if scope.length = 0 then
      (program.Get "in_scope").Array.enum.foldl
        (fun scope it => MonitorIntigriti.target (fun t => t.String_) scope it.1 it.2)
        scope
    else scope
  if scope.length = 0 then
    (program.Get "domains").Array.enum.foldl
      (fun scope it =>
        let domainStr := it.2.String_
        if domainStr ≠ "" then
          ScopeMap.set scope ("domain-" ++ toString it.1) (domainStr ++ " (domain)")
        else scope)
      scope
  else scope

/-- The record part of the loop body of `MonitorIntigriti` (lines 31-107);
`none` is the `continue` of line 36. -/
def MonitorIntigriti.locals (program : Result) : Option Locals :=
  let name := (program.Get "name").String_
  let url := (program.Get "url").String_
  if name = "" ∨ url = "" then none
  else
    let logo := "https://api.intigriti.com/file/api/file/public_bucket_d23a1f29-c2fe-4d03-8daf-df24d1e076ea-c2449aa2-3a08-4bf5-a430-441a11020851"
    let programLogo := (program.Get "logo").String_
    let logo := if programLogo ≠ "" then programLogo else logo
    let key := GenerateProgramKey name url
    let programType :=
      if (program.Get "maxBounty").Exists || (program.Get "bounty").Bool_ then "rdp" else "vdp"
    some { name := name, url := url, logo := logo, key := key, programType := programType,
           scope := MonitorIntigriti.scope program, reward := none }

/-! ## Reconciler (`platforms/hackerone.go`, `platforms/bugcrowd.go`,
`platforms/intigriti.go`)

The three monitors repeat the same text after the record part of the loop
body; it is embedded once, with the platform name and the optional `reward`
local as parameters. -/

/-- `getScopeValuesHackerOne`, `getScopeValuesBugcrowd`, `getScopeValuesIntigriti`
(the same body three times). -/
def getScopeValues (scope : ScopeMap) : List String :=
  scope.foldl (fun values e => values ++ [e.2]) []

/-- `containsHackerOne`, `containsBugcrowd`, `containsIntigriti` and `contains` of
`utils/database.go` (the same body four times). -/
def contains : List String → String → Bool
  | [], _ => false
  | s :: rest, item => if s = item then true else contains rest item

/-- The variables of a monitor that live across loop iterations. -/
structure MonitorState where
  world : World
  currentKeys : List String
  programsCount : Nat
  newPrograms : Nat
  updatedPrograms : Nat

/-- The loop variables of a monitor before its first iteration. -/
def MonitorState.start (w : World) : MonitorState :=
  { world := w, currentKeys := [], programsCount := 0, newPrograms := 0, updatedPrograms := 0 }

/-- The `newProgram` literal (hackerone.go 101-109, bugcrowd.go 106-115,
intigriti.go 109-117).  Only `MonitorBugcrowd` sets `Reward`. -/
def newProgram (env : Env) (platform : String) (c : Locals) : Program :=
  { ID := 0, Name := c.name, URL := c.url, Type_ := c.programType, Key := c.key,
    Platform := platform, Logo := c.logo, Scope := SerializeScope env c.scope,
    InScope := "", OutOfScope := "",
    Reward :=
      match c.reward with
      | some reward => SerializeReward env reward
      | none => "",
    CreatedAt := "", UpdatedAt := "" }

/-- The `alert` literal (hackerone.go 111-115). -/
def baseAlert (program : Program) : Alert :=
  { Program := program, IsNew := false, IsRemoved := false, NewScope := [],
    RemovedScope := [], ChangedScope := [], NewType := "", Reward := none }

/-- The alert of the branch `err == sql.ErrNoRows` once lines 118-119 have run. -/
def newAlert (env : Env) (platform : String) (c : Locals) : Alert :=
  { baseAlert (newProgram env platform c) with
    IsNew := true, NewScope := getScopeValues c.scope }

/-- The update branch up to the test `if hasChanged` (hackerone.go 133-152,
bugcrowd.go 140-165, intigriti.go 142-161): the alert and `hasChanged`. -/
def updateAlert (env : Env) (platform : String) (existingProgram : Program) (c : Locals) :
    Alert × Bool :=
  let alert := baseAlert (newProgram env platform c)
  let hasChanged := false
  let alert := { alert with IsNew := false }
  let (alert, hasChanged) :=
    if existingProgram.Type_ ≠ c.programType then
      ({ alert with NewType := c.programType }, true)
    else (alert, hasChanged)
  let existingScope := DeserializeScope env existingProgram.Scope
  let (newScope, removedScope, _) := CompareScopes existingScope c.scope
  let (alert, hasChanged) :=
    if newScope.length > 0 then ({ alert with NewScope := newScope }, true)
    else (alert, hasChanged)
  let (alert, hasChanged) :=
    if removedScope.length > 0 then ({ alert with RemovedScope := removedScope }, true)
    else (alert, hasChanged)
  match c.reward with
  | some reward =>
      let existingReward := DeserializeReward env existingProgram.Reward
      if existingReward.Min ≠ reward.Min ∨ existingReward.Max ≠ reward.Max then
        ({ alert with Reward := some reward }, true)
      else (alert, hasChanged)
  | none => (alert, hasChanged)

/-- The deltas the update branch looks at: a type change, a non-empty added
list, a non-empty removed list and, where the monitor has a `reward` local, a
change of its `Min` or `Max`. -/
def updateDelta (env : Env) (existingProgram : Program) (c : Locals) : Prop :=
  existingProgram.Type_ ≠ c.programType ∨
  (CompareScopes (DeserializeScope env existingProgram.Scope) c.scope).1 ≠ [] ∨
  (CompareScopes (DeserializeScope env existingProgram.Scope) c.scope).2.1 ≠ [] ∨
  ∃ reward, c.reward = some reward ∧
    ((DeserializeReward env existingProgram.Reward).Min ≠ reward.Min ∨
     (DeserializeReward env existingProgram.Reward).Max ≠ reward.Max)

/-- The loop body of a monitor from the computation of `key` on, for a record
that was not skipped.  `none` is the nil-pointer panic of the expression
`existingProgram.Type` when `GetProgram` failed with an error other than
`sql.ErrNoRows`. -/
def processProgram (env : Env) (platform : String) (platformConfig : Platform)
    (firstRun : Bool) (st : MonitorState) (c : Locals) : Option MonitorState :=
  let currentKeys := st.currentKeys ++ [c.key]
  let (db, res) := GetProgram env st.world.db c.key
  let newProgram := newProgram env platform c
  match res with
  | .error .ErrNoRows =>
      let alert := newAlert env platform c
      let (db, err) := SaveProgram env db newProgram
      let calls := st.world.calls ++ [Call.SaveProgram newProgram err]
      if err then
        some { st with world := { db := db, calls := calls }, currentKeys := currentKeys }
      else if ShouldSendNotification true alert platformConfig firstRun then
        some { world :=
                 { db := db,
                   calls := calls ++ [Call.ShouldSendNotification true alert,
                     Call.SendAlert alert] },
               currentKeys := currentKeys,
               programsCount := st.programsCount + 1,
               newPrograms := st.newPrograms + 1,
               updatedPrograms := st.updatedPrograms }
      else
        some { world :=
                 { db := db, calls := calls ++ [Call.ShouldSendNotification true alert] },
               currentKeys := currentKeys,
               programsCount := st.programsCount + 1,
               newPrograms := st.newPrograms,
               updatedPrograms := st.updatedPrograms }
  | .error .Other => none
  | .ok existingProgram =>
      let (alert, hasChanged) := updateAlert env platform existingProgram c
      if hasChanged then
        let (db, err) := SaveProgram env db newProgram
        let calls := st.world.calls ++ [Call.SaveProgram newProgram err]
        if err then
          some { st with world := { db := db, calls := calls }, currentKeys := currentKeys }
        else if ShouldSendNotification false alert platformConfig firstRun then
          some { world :=
                   { db := db,
                     calls := calls ++ [Call.ShouldSendNotification false alert,
                       Call.SendAlert alert] },
                 currentKeys := currentKeys,
                 programsCount := st.programsCount + 1,
                 newPrograms := st.newPrograms,
                 updatedPrograms := st.updatedPrograms + 1 }
        else
          some { world :=
                   { db := db, calls := calls ++ [Call.ShouldSendNotification false alert] },
                 currentKeys := currentKeys,
                 programsCount := st.programsCount + 1,
                 newPrograms := st.newPrograms,
                 updatedPrograms := st.updatedPrograms }
      else
        some { st with
               world := { db := db, calls := st.world.calls },
               currentKeys := currentKeys,
               programsCount := st.programsCount + 1 }

/-- The `for _, program := range programs` loop of a monitor; `locals` is the
record part of its body. -/
def monitorLoop (locals : Result → Option Locals) (env : Env) (platform : String)
    (platformConfig : Platform) (firstRun : Bool) (programs : List Result)
    (st : MonitorState) : Option MonitorState :=
  programs.foldlM
    (fun st program =>
      match locals program with
      | none => some st
      | some c => processProgram env platform platformConfig firstRun st c)
    st

/-- The alert of the removal check (hackerone.go 200-203). -/
def removalAlert (removedProgram : Program) : Alert :=
  { baseAlert removedProgram with IsRemoved := true }

/-- The body of the loop of `checkRemovedPrograms` (hackerone.go 193-214):
`acc` is `removedCount` and the world. -/
def checkRemovedPrograms.step (env : Env) (currentKeys : List String)
    (platformConfig : Platform) (firstRun : Bool) (acc : Nat × World) (existingKey : String) :
    Nat × World :=
  let removedCount := acc.1
  let w := acc.2
  if ¬ contains currentKeys existingKey then
    let (db, res) := GetProgram env w.db existingKey
    match res with
    | .error _ => (removedCount, { w with db := db })
    | .ok removedProgram =>
        let alert := removalAlert removedProgram
        let calls := w.calls ++ [Call.ShouldSendNotification false alert]
        let calls :=
          if ShouldSendNotification false alert platformConfig firstRun then
            calls ++ [Call.SendAlert alert]
          else calls
        let (db, err) := DeleteProgram env db existingKey
        (removedCount + 1,
          { db := db, calls := calls ++ [Call.DeleteProgram existingKey err] })
  else (removedCount, w)

/-- `checkRemovedProgramsHackerOne`, `checkRemovedProgramsBugcrowd`,
`checkRemovedProgramsIntigriti` (the same body three times): the returned
count and the world afterwards. -/
def checkRemovedPrograms (env : Env) (platform : String) (currentKeys : List String)
    (w : World) (platformConfig : Platform) (firstRun : Bool) : Nat × World :=
  let (db, res) := GetAllProgramKeys env w.db platform
  match res with
  | .error _ => (0, { w with db := db })
  | .ok existingKeys =>
      existingKeys.foldl (checkRemovedPrograms.step env currentKeys platformConfig firstRun)
        (0, { w with db := db })

/-- The calls the removal check makes for a stored program it finds removed,
when the read and the delete succeed. -/
def removalCalls (platformConfig : Platform) (firstRun : Bool) (r : Program) : List Call :=
  [Call.ShouldSendNotification false (removalAlert r)] ++
    (if ShouldSendNotification false (removalAlert r) platformConfig firstRun then
      [Call.SendAlert (removalAlert r)] else []) ++
    [Call.DeleteProgram r.Key false]

/-- `checkRemovedProgramsHackerOne(platform, currentKeys, db, platformConfig,
firstRun, config)`. -/
abbrev checkRemovedProgramsHackerOne := checkRemovedPrograms

/-- `checkRemovedProgramsBugcrowd(platform, currentKeys, db, platformConfig,
firstRun, config)`. -/
abbrev checkRemovedProgramsBugcrowd := checkRemovedPrograms

/-- `checkRemovedProgramsIntigriti(platform, currentKeys, db, platformConfig,
firstRun, config)`. -/
abbrev checkRemovedProgramsIntigriti := checkRemovedPrograms

/-- What a monitor has done when it returns: the world, and the four tallies
of its last log line. -/
structure MonitorResult where
  world : World
  programsCount : Nat
  newPrograms : Nat
  updatedPrograms : Nat
  removedCount : Nat

/-- A monitor from the declaration of `currentKeys` to its end. -/
def monitorCycle (locals : Result → Option Locals) (env : Env) (platform : String)
    (platformConfig : Platform) (firstRun : Bool) (programs : List Result) (w : World) :
    Option MonitorResult :=
  match monitorLoop locals env platform platformConfig firstRun programs
      (MonitorState.start w) with
  | none => none
  | some st =>
      let r := checkRemovedPrograms env platform st.currentKeys st.world platformConfig firstRun
      some { world := r.2, programsCount := st.programsCount, newPrograms := st.newPrograms,
             updatedPrograms := st.updatedPrograms, removedCount := r.1 }

/-- The monitor returned at its first `return`, having done nothing. -/
def MonitorResult.idle (w : World) : MonitorResult :=
  { world := w, programsCount := 0, newPrograms := 0, updatedPrograms := 0, removedCount := 0 }

/-- The snapshot of `MonitorHackerOne` (lines 23-29): the root array, or the
array under `data` when the root yields no element. -/
def MonitorHackerOne.programs (body : Result) : List Result :=
  let programs := body.Array
  if programs.length = 0 then (body.Get "data").Array else programs

/-- The `[]byte` a successful `utils.FetchData` returns: the capacity of the
slice and the JSON that `gjson.ParseBytes` reads from it. -/
structure Body where
  capacity : Nat
  json : Result

/-- `MonitorHackerOne(config, db, firstRun)`.  `fetched` is what
`utils.FetchData(platformConfig.URL)` returned.  `none` is a panic: the log
line of line 21 evaluates `body[:200]`, which is out of range when the slice
has a capacity below 200. -/
def MonitorHackerOne (env : Env) (config : Config) (w : World) (firstRun : Bool)
    (fetched : Except String Body) : Option MonitorResult :=
  let platformConfig := config.platform "hackerone"
  match fetched with
  | .error _ => some (MonitorResult.idle w)
  | .ok body =>
      if body.capacity < 200 then none
      else
        let programs := MonitorHackerOne.programs body.json
        monitorCycle MonitorHackerOne.locals env "hackerone" platformConfig firstRun programs w

/-- `MonitorBugcrowd(config, db, firstRun)`; parameters as for `MonitorHackerOne`. -/
def MonitorBugcrowd (env : Env) (config : Config) (w : World) (firstRun : Bool)
    (fetched : Except String Body) : Option MonitorResult :=
  let platformConfig := config.platform "bugcrowd"
  match fetched with
  | .error _ => some (MonitorResult.idle w)
  | .ok body =>
      if body.capacity < 200 then none
      else
        monitorCycle MonitorBugcrowd.locals env "bugcrowd" platformConfig firstRun
          body.json.Array w

/-- `MonitorIntigriti(config, db, firstRun)`; parameters as for `MonitorHackerOne`. -/
def MonitorIntigriti (env : Env) (config : Config) (w : World) (firstRun : Bool)
    (fetched : Except String Body) : Option MonitorResult :=
  let platformConfig := config.platform "intigriti"
  match fetched with
  | .error _ => some (MonitorResult.idle w)
  | .ok body =>
      if body.capacity < 200 then none
      else
        monitorCycle MonitorIntigriti.locals env "intigriti" platformConfig firstRun
          body.json.Array w

/-- The program with the columns the database assigns (`id`, `created_at`,
`updated_at`) blanked: what `SaveProgram` was given to write. -/
def Program.content (p : Program) : Program :=
  { p with ID := 0, CreatedAt := "", UpdatedAt := "" }

/-- A platform monitor together with the parts it is made of: its platform
name, the snapshot it reads from the body and the record part of its loop
body. -/
structure PlatformMonitor where
  run : Env → Config → World → Bool → Except String Body → Option MonitorResult
  name : String
  programs : Result → List Result
  locals : Result → Option Locals

/-- The records of the snapshot that the monitor does not skip, as locals. -/
def PlatformMonitor.records (m : PlatformMonitor) (body : Result) : List Locals :=
  (m.programs body).filterMap m.locals

/-- The three monitors of `monitorPlatforms` (`main.go`, lines 125-133). -/
def platformMonitors : List PlatformMonitor :=
  [{ run := MonitorHackerOne, name := "hackerone", programs := MonitorHackerOne.programs,
     locals := MonitorHackerOne.locals },
   { run := MonitorBugcrowd, name := "bugcrowd", programs := Result.Array,
     locals := MonitorBugcrowd.locals },
   { run := MonitorIntigriti, name := "intigriti", programs := Result.Array,
     locals := MonitorIntigriti.locals }]

/-! ## A reference environment

An environment in which no database call fails and `encoding/json` is a small
codec for objects of strings.  It serves to run the definitions on concrete
inputs. -/

namespace Env

/-- The double quote character. -/
def dquote : Char := Char.ofNat 34

/-- The backslash character. -/
def backslash : Char := Char.ofNat 92

/-- A JSON string literal: quotes and backslashes are escaped. -/
def quote (s : String) : String :=
  String.mk ([dquote] ++
    s.data.flatMap (fun c => if c = dquote ∨ c = backslash then [backslash, c] else [c]) ++
    [dquote])

/-- The string literals of a JSON text, in order.  The second argument holds
the characters of the literal being read, last first. -/
def literals : List Char → Option (List Char) → List String
  | [], _ => []
  | c :: cs, none => if c = dquote then literals cs (some []) else literals cs none
  | c :: cs, some acc =>
      if c = dquote then String.mk acc.reverse :: literals cs none
      else if c = backslash then
        match cs with
        | e :: rest => literals rest (some (e :: acc))
        | [] => []
      else literals cs (some (c :: acc))

/-- The map whose keys and values alternate in `ss`. -/
def pairs : List String → ScopeMap
  | k :: v :: rest => ScopeMap.set (pairs rest) k v
  | _ => []

/-- The reference `json.Marshal` at `map[string]string`. -/
def refMarshalScope (m : ScopeMap) : String :=
  "\x7b" ++ ",".intercalate (m.map fun e => quote e.1 ++ ":" ++ quote e.2) ++ "\x7d"

/-- The reference `json.Unmarshal` at `map[string]string`. -/
def refUnmarshalScope (text : String) : ScopeMap :=
  pairs (literals text.data none)

/-- The reference `json.Marshal` at `Reward`. -/
def refMarshalReward (r : Reward) : String :=
  refMarshalScope [("min", r.Min), ("max", r.Max)]

/-- The reference `json.Unmarshal` at `Reward`. -/
def refUnmarshalReward (text : String) : Reward :=
  let m := refUnmarshalScope text
  { Min := ScopeMap.get m "min", Max := ScopeMap.get m "max" }

/-- The reference environment. -/
def ideal : Env :=
  { saveErr := fun _ => false
    getErr := fun _ => false
    deleteErr := fun _ => false
    keysErr := fun _ => false
    now := fun _ => "2024-01-01 00:00:00"
    MarshalScope := refMarshalScope
    UnmarshalScope := refUnmarshalScope
    MarshalReward := refMarshalReward
    UnmarshalReward := refUnmarshalReward }

end Env

/-- The empty database with an empty call log. -/
def World.empty : World := { db := { rows := [], seq := 0, ops := 0 }, calls := [] }


/-! ## Concrete inputs -/

/-- A stored program with the given platform and key and no scope. -/
def Program.stub (platform key : String) : Program :=
  { ID := 0, Name := key, URL := "https://example.com/" ++ key, Type_ := "vdp", Key := key,
    Platform := platform, Logo := "", Scope := "", InScope := "", OutOfScope := "",
    Reward := "", CreatedAt := "", UpdatedAt := "" }

/-- The world whose table holds `rows` and whose call log is empty. -/
def World.stored (rows : List Program) : World :=
  { db := { rows := rows, seq := rows.length, ops := 0 }, calls := [] }

/-- A platform config with the two program-level flags set as given and the
granular flags off. -/
def Platform.flags (newProgram removedProgram : Bool) : Platform :=
  { URL := "https://example.com/feed.json", Monitor := true,
    Notifications :=
      { NewProgram := newProgram, RemovedProgram := removedProgram, NewScope := false,
        RemovedScope := false, ChangedScope := false, NewType := false } }

/-- The locals of a HackerOne record with one scope entry. -/
def Locals.acme : Locals :=
  { name := "Acme", url := "https://hackerone.com/acme",
    logo := "https://asset.brandfetch.io/idhUp0l1vN/id7Vk4WqZc.png",
    key := GenerateProgramKey "Acme" "https://hackerone.com/acme", programType := "rdp",
    scope := [("acme-0", "api.acme.com (URL)")], reward := none }

/-- An Intigriti record with one in-scope target of type `url`. -/
def Result.intigritiRecord (target : String) : Result :=
  .obj "" [("name", .str "Example"), ("url", .str "https://app.intigriti.com/programs/example"),
    ("in_scope", .arr "" [.obj "" [("name", .str target), ("type", .str "url")]])]

/-- A platform entry that is monitored with every notification flag on. -/
def Platform.allOn (url : String) : Platform :=
  { URL := url, Monitor := true,
    Notifications :=
      { NewProgram := true, RemovedProgram := true, NewScope := true,
        RemovedScope := true, ChangedScope := true, NewType := true } }

/-- A fetched body with the capacity `io.ReadAll` starts from. -/
def Body.of (json : Result) : Body := { capacity := 512, json := json }

/-- The configuration in which each of the three platforms has the entry `p`. -/
def Config.uniform (p : Platform) : Config :=
  { DiscordWebhook := "https://discord.example/webhook",
    Telegram := { BotToken := "", ChatID := "" },
    Database := { Path := "programs.db" },
    Platforms := [("hackerone", p), ("bugcrowd", p), ("intigriti", p)] }

/-- A configuration that monitors the three platforms with every flag on. -/
def Config.demo : Config := Config.uniform (Platform.allOn "https://example.com/programs.json")

/-- A HackerOne record with a handle, no `url` field, one in-scope asset and
the given profile picture. -/
def Result.hackeroneRecord (profilePicture : String) : Result :=
  .obj "" [("name", .str "Acme"), ("handle", .str "acme"),
    ("profile_picture", .str profilePicture), ("offers_bounties", .bool true),
    ("targets", .obj "" [("in_scope", .arr ""
      [.obj "" [("asset_identifier", .str "api.acme.com"), ("type", .str "URL")]])])]

/-- A description of the form `<name/asset> (<type>)`: a text, a blank, an
opening parenthesis, a type and a closing parenthesis. -/
def Described (v : String) : Prop := ∃ a t : String, v = a ++ " (" ++ t ++ ")"

/-- The key a logged call is about. -/
def Call.key : Call → String
  | .SaveProgram program _ => program.Key
  | .DeleteProgram key _ => key
  | .ShouldSendNotification _ alert => alert.Program.Key
  | .SendAlert alert => alert.Program.Key

/-- The reference environment in which the `n`-th database call fails if it is
a `SaveProgram`. -/
def Env.failingSave (n : Nat) : Env :=
  { Env.ideal with saveErr := fun k => decide (k = n) }

/-- A HackerOne record with the given name and handle, no `url` field and one
in-scope asset. -/
def Result.hackeroneNamed (name handle : String) : Result :=
  .obj "" [("name", .str name), ("handle", .str handle), ("offers_bounties", .bool true),
    ("targets", .obj "" [("in_scope", .arr ""
      [.obj "" [("asset_identifier", .str "api.acme.com"), ("type", .str "URL")]])])]

/-- A Bugcrowd record with the given `url` and `briefUrl` fields and one target
with a name. -/
def Result.bugcrowdRecord (url briefUrl : String) : Result :=
  .obj "" [("name", .str "Acme"), ("url", .str url), ("briefUrl", .str briefUrl),
    ("targets", .arr "" [.obj "" [("name", .str "api.acme.com")]])]

/-- A HackerOne record like `Result.hackeroneNamed` that offers no bounties. -/
def Result.hackeroneVdp (name handle : String) : Result :=
  .obj "" [("name", .str name), ("handle", .str handle), ("offers_bounties", .bool false),
    ("targets", .obj "" [("in_scope", .arr ""
      [.obj "" [("asset_identifier", .str "api.acme.com"), ("type", .str "URL")]])])]

/-- The stored HackerOne program `Old`, absent from the snapshots below. -/
def Program.old : Program :=
  { ID := 1, Name := "Old", URL := "https://hackerone.com/old", Type_ := "rdp",
    Key := GenerateProgramKey "Old" "https://hackerone.com/old", Platform := "hackerone",
    Logo := "https://asset.brandfetch.io/idhUp0l1vN/id7Vk4WqZc.png",
    Scope := "\x7b\x7d", InScope := "", OutOfScope := "", Reward := "",
    CreatedAt := "2024-01-01 00:00:00", UpdatedAt := "2024-01-01 00:00:00" }

/-! ## Scope strategies and loop iterations

The three loops of the scope extraction of `MonitorIntigriti`, each on the
empty map, and the shapes of the calls one loop iteration of a monitor adds to
the log. -/

/-- The entries the first scope strategy of `MonitorIntigriti` writes into the
empty map (lines 55-74): one for each element of `targets["in_scope"]`. -/
def MonitorIntigriti.strategy1 (program : Result) : ScopeMap :=
  match (program.Get "targets").MapIndex "in_scope" with
  | some inScope =>
      inScope.Array.enum.foldl
        (fun scope it =>
          MonitorIntigriti.target (fun t => (t.Get "target").String_) scope it.1 it.2)
        []
  | none => []

/-- The entries the second scope strategy of `MonitorIntigriti` writes into the
empty map (lines 76-93): one for each element of the top-level `in_scope`. -/
def MonitorIntigriti.strategy2 (program : Result) : ScopeMap :=
  (program.Get "in_scope").Array.enum.foldl
    (fun scope it => MonitorIntigriti.target (fun t => t.String_) scope it.1 it.2)
    []

/-- The entries the third scope strategy of `MonitorIntigriti` writes into the
empty map (lines 96-104): one for each element of `domains` whose text is not
empty. -/
def MonitorIntigriti.strategy3 (program : Result) : ScopeMap :=
  (program.Get "domains").Array.enum.foldl
    (fun scope it =>
      let domainStr := it.2.String_
      if domainStr ≠ "" then
        ScopeMap.set scope ("domain-" ++ toString it.1) (domainStr ++ " (domain)")
      else scope)
    []

/-- An Intigriti record with the given members after `name` and `url`. -/
def Result.intigritiWith (members : List (String × Result)) : Result :=
  .obj "" ([("name", .str "Example"),
    ("url", .str "https://app.intigriti.com/programs/example")] ++ members)

/-- What one iteration of a monitor loop adds to the call log outside a first
run. -/
inductive Iteration where
  /-- no call: the stored program is unchanged -/
  | unchanged
  /-- one call of `SaveProgram`, which returned an error -/
  | failedWrite (program : Program)
  /-- the new-program branch after a successful write; `sent` tells whether
  `SendAlert` was called -/
  | created (alert : Alert) (sent : Bool)
  /-- the update branch after a successful write, with the alert sent -/
  | updated (alert : Alert)

/-- The calls of an iteration, in order. -/
def Iteration.calls : Iteration → List Call
  | .unchanged => []
  | .failedWrite program => [Call.SaveProgram program true]
  | .created alert sent =>
      [Call.SaveProgram alert.Program false, Call.ShouldSendNotification true alert] ++
        (if sent then [Call.SendAlert alert] else [])
  | .updated alert =>
      [Call.SaveProgram alert.Program false, Call.ShouldSendNotification false alert,
        Call.SendAlert alert]

/-- Whether the iteration is a successful update write. -/
def Iteration.isUpdate : Iteration → Bool
  | .updated _ => true
  | _ => false

/-- The iterations the loop body can make on the record with the locals `c`:
nothing when a stored program under the key of the record shows no delta, a
failed write of the Program of the record, the new-program branch with the
alert of that branch, sent when the `NewProgram` flag is on, or the update
branch with the alert built against a stored program for which `hasChanged` is
set. -/
def Iteration.of (env : Env) (platform : String) (platformConfig : Platform) (c : Locals) :
    Iteration → Prop
  | .unchanged =>
      ∃ existingProgram : Program, existingProgram.Key = c.key ∧
        (updateAlert env platform existingProgram c).2 = false
  | .failedWrite program => program = newProgram env platform c
  | .created alert sent =>
      alert = newAlert env platform c ∧ sent = platformConfig.Notifications.NewProgram
  | .updated alert =>
      ∃ existingProgram : Program, existingProgram.Key = c.key ∧
        (updateAlert env platform existingProgram c).2 = true ∧
        alert = (updateAlert env platform existingProgram c).1

/-- Whether the call belongs to the removal check: a `DeleteProgram`, or a
consultation of the policy or a `SendAlert` on an `IsRemoved` alert. -/
def Call.isRemoval : Call → Bool
  | .SaveProgram _ _ => false
  | .DeleteProgram _ _ => true
  | .ShouldSendNotification isNew alert => !isNew && alert.IsRemoved
  | .SendAlert alert => alert.IsRemoved

/-- An Intigriti record that has targets under `targets.in_scope` (one with a
name and a type, one with an endpoint only, one with a `target` member, one
that is a bare string), a top-level `in_scope` and `domains`. -/
def Result.intigritiLayered : Result :=
  Result.intigritiWith
    [("targets", .obj "" [("in_scope", .arr ""
        [.obj "" [("name", .str "app.example.com"), ("type", .str "url")],
         .obj "" [("endpoint", .str "api.example.com")],
         .obj "" [("target", .str "cdn.example.com"), ("type", .str "cdn")],
         .str "bare.example.com"])]),
     ("in_scope", .arr "" [.str "other.example.com"]),
     ("domains", .arr "" [.str "example.com"])]

/-- An Intigriti record whose `targets` object has two members `in_scope`. -/
def Result.intigritiRepeated : Result :=
  Result.intigritiWith
    [("targets", .obj ""
        [("in_scope", .arr ""
          [.obj "" [("name", .str "first.example.com"), ("type", .str "url")]]),
         ("in_scope", .arr ""
          [.obj "" [("name", .str "second.example.com"), ("type", .str "url")]])])]

/-- An Intigriti record whose `targets.in_scope` is `null`, with a top-level
`in_scope` (a bare string and a target with an endpoint) and `domains`. -/
def Result.intigritiTopLevel : Result :=
  Result.intigritiWith
    [("targets", .obj "" [("in_scope", .null)]),
     ("in_scope", .arr ""
        [.str "bare.example.com",
         .obj "" [("endpoint", .str "api.example.com"), ("type", .str "api")]]),
     ("domains", .arr "" [.str "example.com"])]

/-- An Intigriti record whose `targets.in_scope` and top-level `in_scope` are
empty and whose `domains` has an element after an empty one. -/
def Result.intigritiDomains : Result :=
  Result.intigritiWith
    [("targets", .obj "" [("in_scope", .arr "" [])]), ("in_scope", .arr "" []),
     ("domains", .arr "" [.str "", .str "api.example.com"])]

/-- An Intigriti record whose `targets` is an array, with `domains`. -/
def Result.intigritiArrayTargets : Result :=
  Result.intigritiWith
    [("targets", .arr "" [.obj "" [("in_scope", .arr ""
        [.obj "" [("name", .str "app.example.com"), ("type", .str "url")]])]]),
     ("domains", .arr "" [.str "example.com"])]

/-- A Bugcrowd record with the given members after `name` and `url`. -/
def Result.bugcrowdWith (members : List (String × Result)) : Result :=
  .obj "" ([("name", .str "Acme"), ("url", .str "https://bugcrowd.com/acme")] ++ members)

/-- A Bugcrowd record with three targets (one with a name, one that is a bare
string, one without name and text) and a target group. -/
def Result.bugcrowdTargets : Result :=
  Result.bugcrowdWith
    [("targets", .arr ""
        [.obj "" [("name", .str "api.acme.com"), ("type", .str "api")],
         .str "bare.acme.com",
         .obj "" [("type", .str "website")]]),
     ("target_groups", .arr ""
        [.obj "" [("targets", .arr "" [.obj "" [("name", .str "other.acme.com")]])]])]

/-- A Bugcrowd record without `targets` and with two target groups. -/
def Result.bugcrowdGroups : Result :=
  Result.bugcrowdWith
    [("target_groups", .arr ""
        [.obj "" [("targets", .arr ""
            [.obj "" [("name", .str "a.acme.com"), ("type", .str "website")],
             .obj "" [("name", .str "")],
             .obj "" [("name", .str "b.acme.com")]])],
         .obj "" [("targets", .arr "" [.obj "" [("name", .str "c.acme.com")]])]])]

/-! # Lemmas -/

set_option maxRecDepth 100000

namespace ScopeMap

theorem get?_eq_none_iff (m : ScopeMap) (id : String) :
    get? m id = none ↔ id ∉ keys m := by
  induction m with
  | nil => simp [get?, keys]
  | cons e m ih =>
    obtain ⟨k, v⟩ := e
    by_cases h : id = k
    · subst h; simp [get?, keys, List.lookup]
    · have h2 : (id == k) = false := by simpa using h
      simp only [get?, keys, List.lookup, h2, List.map_cons, List.mem_cons, h, false_or] at ih ⊢
      exact ih

theorem get?_isSome_iff (m : ScopeMap) (id : String) :
    (get? m id).isSome ↔ id ∈ keys m := by
  rw [← not_iff_not, ← get?_eq_none_iff]
  cases get? m id <;> simp

theorem get?_of_mem {m : ScopeMap} (h : WF m) {id v : String} (hm : (id, v) ∈ m) :
    get? m id = some v := by
  induction m with
  | nil => simp at hm
  | cons e m ih =>
    obtain ⟨k, w⟩ := e
    simp only [WF, keys, List.map_cons, List.nodup_cons] at h
    rcases List.mem_cons.1 hm with heq | hmem
    · cases heq; simp [get?, List.lookup]
    · have hne : id ≠ k := by
        rintro rfl
        exact h.1 (List.mem_map.2 ⟨(id, v), hmem, rfl⟩)
      have h2 : (id == k) = false := by simpa using hne
      simp only [get?, List.lookup, h2]
      exact ih h.2 hmem

theorem get_of_mem {m : ScopeMap} (h : WF m) {id v : String} (hm : (id, v) ∈ m) :
    get m id = v := by
  simp [get, get?_of_mem h hm]

/-- Entries of a well-formed map are recovered from its keys. -/
theorem map_keys_get {m : ScopeMap} (h : WF m) :
    (keys m).map (fun id => (id, get m id)) = m := by
  induction m with
  | nil => rfl
  | cons e m ih =>
    obtain ⟨k, w⟩ := e
    have hw := h
    simp only [WF, keys, List.map_cons, List.nodup_cons] at h
    simp only [keys, List.map_cons, List.map_map]
    congr 1
    · simp [get, get?, List.lookup]
    · have := ih h.2
      simp only [keys, List.map_map] at this
      conv_rhs => rw [← this]
      apply List.map_congr_left
      intro a ha
      have hne : a.1 ≠ k := by
        rintro rfl
        exact h.1 (List.mem_map.2 ⟨a, ha, rfl⟩)
      have h2 : (a.1 == k) = false := by simpa using hne
      simp [get, get?, List.lookup, h2]

end ScopeMap

theorem CompareScopes.added_eq (oldScope newScope : ScopeMap) :
    CompareScopes.added oldScope newScope =
      (newScope.filter (fun e => decide (e.1 ∉ ScopeMap.keys oldScope))).map Prod.snd := by
  unfold CompareScopes.added
  suffices h : ∀ (l : ScopeMap) (init : List String),
      l.foldl (fun newScopes e =>
        match ScopeMap.get? oldScope e.1 with
        | none => newScopes ++ [e.2]
        | some _ => newScopes) init =
      init ++ (l.filter (fun e => decide (e.1 ∉ ScopeMap.keys oldScope))).map Prod.snd by
    simpa using h newScope []
  intro l
  induction l with
  | nil => simp
  | cons e l ih =>
    intro init
    rw [List.foldl_cons, ih]
    cases hg : ScopeMap.get? oldScope e.1 with
    | none =>
      have : e.1 ∉ ScopeMap.keys oldScope := (ScopeMap.get?_eq_none_iff _ _).1 hg
      simp [List.filter_cons, this]
    | some v =>
      have : e.1 ∈ ScopeMap.keys oldScope := by
        rw [← ScopeMap.get?_isSome_iff, hg]; rfl
      simp [List.filter_cons, this]

theorem CompareScopes.removed_eq (oldScope newScope : ScopeMap) :
    CompareScopes.removed oldScope newScope =
      (oldScope.filter (fun e => decide (e.1 ∉ ScopeMap.keys newScope))).map Prod.snd :=
  CompareScopes.added_eq newScope oldScope

theorem CompareScopes.changed_eq (oldScope newScope : ScopeMap) :
    CompareScopes.changed oldScope newScope =
      (newScope.filter (fun e => decide (e.1 ∈ ScopeMap.keys oldScope ∧
          ScopeMap.get oldScope e.1 ≠ e.2))).map
        (fun e => ({ Old := ScopeMap.get oldScope e.1, New := e.2 } : ScopeChange)) := by
  unfold CompareScopes.changed
  suffices h : ∀ (l : ScopeMap) (init : List ScopeChange),
      l.foldl (fun changedScopes e =>
        match ScopeMap.get? oldScope e.1 with
        | some oldValue =>
            if oldValue ≠ e.2 then changedScopes ++ [{ Old := oldValue, New := e.2 }]
            else changedScopes
        | none => changedScopes) init =
      init ++ (l.filter (fun e => decide (e.1 ∈ ScopeMap.keys oldScope ∧
          ScopeMap.get oldScope e.1 ≠ e.2))).map
        (fun e => ({ Old := ScopeMap.get oldScope e.1, New := e.2 } : ScopeChange)) by
    simpa using h newScope []
  intro l
  induction l with
  | nil => simp
  | cons e l ih =>
    intro init
    rw [List.foldl_cons, ih]
    cases hg : ScopeMap.get? oldScope e.1 with
    | none =>
      have : e.1 ∉ ScopeMap.keys oldScope := (ScopeMap.get?_eq_none_iff _ _).1 hg
      simp [List.filter_cons, this]
    | some v =>
      have hk : e.1 ∈ ScopeMap.keys oldScope := by
        rw [← ScopeMap.get?_isSome_iff, hg]; rfl
      have hget : ScopeMap.get oldScope e.1 = v := by simp [ScopeMap.get, hg]
      by_cases hv : v = e.2
      · simp [List.filter_cons, hk, hget, hv]
      · simp [List.filter_cons, hk, hget, hv]

/-- Filtering the entries of a well-formed map by a property of the key and
the looked-up value. -/
theorem ScopeMap.filter_entries {m : ScopeMap} (h : ScopeMap.WF m) {β : Type}
    (p : String → String → Bool) (f : String → String → β) :
    (m.filter (fun e => p e.1 e.2)).map (fun e => f e.1 e.2) =
      ((ScopeMap.keys m).filter (fun id => p id (ScopeMap.get m id))).map
        (fun id => f id (ScopeMap.get m id)) := by
  conv_lhs => rw [← ScopeMap.map_keys_get h]
  rw [List.filter_map, List.map_map]
  rfl


/-! # Notification policy on a first run -/

/-- C2: on a first run `ShouldSendNotification` returns `isNew` and the
`NewProgram` flag, for every alert and every platform config; so it is false
on every call with `isNew = false`, which is how the removal check and the
update branch call it, whatever the flags and whatever the alert carries. -/
theorem C2_first_run_policy :
    (∀ (isNew : Bool) (alert : Alert) (cfg : Platform),
      ShouldSendNotification isNew alert cfg true = (isNew && cfg.Notifications.NewProgram)) ∧
    (∀ (alert : Alert) (cfg : Platform), ShouldSendNotification false alert cfg true = false) ∧
    (∀ (env : Env) (platform : String) (existingProgram removedProgram : Program) (c : Locals)
        (cfg : Platform),
      ShouldSendNotification false (removalAlert removedProgram) cfg true = false ∧
      ShouldSendNotification false (updateAlert env platform existingProgram c).1 cfg true
        = false) := by
  refine ⟨fun isNew alert cfg => ?_, fun alert cfg => ?_, fun _ _ _ _ _ cfg => ⟨?_, ?_⟩⟩ <;>
    simp [ShouldSendNotification]

/-! # Scope differ -/

/-- C7: the first result of `CompareScopes` is, as a multiset, the descriptions
`newScope[id]` of the keys `id` of `newScope` that are not keys of `oldScope`;
on the example of the specification the three results are
`["app.foo.com (URL)"]`, `[]`, `[]`. -/
theorem C7_added_multiset (oldScope newScope : ScopeMap) (hn : ScopeMap.WF newScope) :
    ((CompareScopes oldScope newScope).1 : Multiset String) =
      Multiset.map (fun id => ScopeMap.get newScope id)
        (Multiset.filter (fun id => id ∉ ScopeMap.keys oldScope)
          (ScopeMap.keys newScope : Multiset String)) ∧
    CompareScopes [("t-0", "api.foo.com (URL)")]
        [("t-0", "api.foo.com (URL)"), ("t-1", "app.foo.com (URL)")]
      = (["app.foo.com (URL)"], [], []) := by
  refine ⟨?_, by decide⟩
  show ((CompareScopes.added oldScope newScope : List String) : Multiset String) = _
  rw [CompareScopes.added_eq]
  have := ScopeMap.filter_entries hn (fun id _ => decide (id ∉ ScopeMap.keys oldScope))
    (fun _ v => v)
  simp only at this
  rw [show (List.map Prod.snd
      (List.filter (fun e => decide (e.1 ∉ ScopeMap.keys oldScope)) newScope)) = _ from this]
  simp [Multiset.filter_coe, Multiset.map_coe]

/-- Witness of C7: a two-entry map against a one-entry map. -/
theorem C7_added_multiset_witness :
    ScopeMap.WF [("t-0", "a (URL)"), ("t-1", "b (URL)")] ∧
    (((CompareScopes [("t-0", "a (URL)")] [("t-0", "a (URL)"), ("t-1", "b (URL)")]).1 :
        Multiset String) =
      Multiset.map (fun id => ScopeMap.get [("t-0", "a (URL)"), ("t-1", "b (URL)")] id)
        (Multiset.filter (fun id => id ∉ ScopeMap.keys [("t-0", "a (URL)")])
          (ScopeMap.keys [("t-0", "a (URL)"), ("t-1", "b (URL)")] : Multiset String)) ∧
    CompareScopes [("t-0", "api.foo.com (URL)")]
        [("t-0", "api.foo.com (URL)"), ("t-1", "app.foo.com (URL)")]
      = (["app.foo.com (URL)"], [], [])) :=
  ⟨by decide, C7_added_multiset _ _ (by decide)⟩


/-- Counterexample to C8 as stated: the description `B` moves from the ID `t-1`
to the ID `t-0`, which the old map also has; it is reported as removed and as
the new side of a change, not as added. -/
theorem C8_counterexample :
    ScopeMap.WF [("t-0", "A"), ("t-1", "B")] ∧ ScopeMap.WF [("t-0", "B")] ∧
    ScopeMap.get [("t-0", "A"), ("t-1", "B")] "t-1" = "B" ∧
    ScopeMap.get [("t-0", "B")] "t-0" = "B" ∧ "t-1" ≠ "t-0" ∧
    CompareScopes [("t-0", "A"), ("t-1", "B")] [("t-0", "B")]
      = ([], ["B"], [{ Old := "A", New := "B" }]) ∧
    "B" ∉ (CompareScopes [("t-0", "A"), ("t-1", "B")] [("t-0", "B")]).1 := by
  decide

/-- C8 (amended): the second result of `CompareScopes` is, as a multiset, the
descriptions `oldScope[id]` of the keys `id` of `oldScope` that are not keys of
`newScope`; and a description that sits under an ID only the old map has and
under an ID only the new map has is reported both as removed and as added. -/
theorem C8_removed_multiset (oldScope newScope : ScopeMap) (ho : ScopeMap.WF oldScope) :
    ((CompareScopes oldScope newScope).2.1 : Multiset String) =
      Multiset.map (fun id => ScopeMap.get oldScope id)
        (Multiset.filter (fun id => id ∉ ScopeMap.keys newScope)
          (ScopeMap.keys oldScope : Multiset String)) ∧
    (∀ i j d : String, (i, d) ∈ oldScope → (j, d) ∈ newScope →
      i ∉ ScopeMap.keys newScope → j ∉ ScopeMap.keys oldScope →
      d ∈ (CompareScopes oldScope newScope).2.1 ∧ d ∈ (CompareScopes oldScope newScope).1) := by
  constructor
  · show ((CompareScopes.removed oldScope newScope : List String) : Multiset String) = _
    rw [CompareScopes.removed_eq]
    have := ScopeMap.filter_entries ho (fun id _ => decide (id ∉ ScopeMap.keys newScope))
      (fun _ v => v)
    simp only at this
    rw [show (List.map Prod.snd
        (List.filter (fun e => decide (e.1 ∉ ScopeMap.keys newScope)) oldScope)) = _ from this]
    simp [Multiset.filter_coe, Multiset.map_coe]
  · intro i j d hi hj hni hnj
    constructor
    · show d ∈ CompareScopes.removed oldScope newScope
      rw [CompareScopes.removed_eq]
      exact List.mem_map.2 ⟨(i, d), List.mem_filter.2 ⟨hi, by simpa using hni⟩, rfl⟩
    · show d ∈ CompareScopes.added oldScope newScope
      rw [CompareScopes.added_eq]
      exact List.mem_map.2 ⟨(j, d), List.mem_filter.2 ⟨hj, by simpa using hnj⟩, rfl⟩

/-- Witness of C8 (amended): `x.com (URL)` moves from the ID `a-0` to the fresh
ID `b-0`. -/
theorem C8_removed_multiset_witness :
    ScopeMap.WF [("a-0", "x.com (URL)")] ∧
    "x.com (URL)" ∈ (CompareScopes [("a-0", "x.com (URL)")] [("b-0", "x.com (URL)")]).2.1 ∧
    "x.com (URL)" ∈ (CompareScopes [("a-0", "x.com (URL)")] [("b-0", "x.com (URL)")]).1 :=
  ⟨by decide,
    (C8_removed_multiset [("a-0", "x.com (URL)")] [("b-0", "x.com (URL)")] (by decide)).2
      "a-0" "b-0" "x.com (URL)" (by decide) (by decide) (by decide) (by decide)⟩

/-- C9: the third result of `CompareScopes` is, as a multiset, the pairs
`{Old: oldScope[id], New: newScope[id]}` of the keys `id` of both maps whose
descriptions differ; every pair in it has `Old != New`; and when every common
key has equal descriptions it is empty. -/
theorem C9_changed_multiset (oldScope newScope : ScopeMap) (hn : ScopeMap.WF newScope) :
    ((CompareScopes oldScope newScope).2.2 : Multiset ScopeChange) =
      Multiset.map
        (fun id => ({ Old := ScopeMap.get oldScope id, New := ScopeMap.get newScope id } :
          ScopeChange))
        (Multiset.filter
          (fun id => id ∈ ScopeMap.keys oldScope ∧
            ScopeMap.get oldScope id ≠ ScopeMap.get newScope id)
          (ScopeMap.keys newScope : Multiset String)) ∧
    (∀ ch ∈ (CompareScopes oldScope newScope).2.2, ch.Old ≠ ch.New) ∧
    ((∀ id, id ∈ ScopeMap.keys oldScope → id ∈ ScopeMap.keys newScope →
        ScopeMap.get oldScope id = ScopeMap.get newScope id) →
      (CompareScopes oldScope newScope).2.2 = []) := by
  have key : CompareScopes.changed oldScope newScope =
      ((ScopeMap.keys newScope).filter (fun id => decide (id ∈ ScopeMap.keys oldScope ∧
          ScopeMap.get oldScope id ≠ ScopeMap.get newScope id))).map
        (fun id => ({ Old := ScopeMap.get oldScope id, New := ScopeMap.get newScope id } :
          ScopeChange)) := by
    rw [CompareScopes.changed_eq]
    exact ScopeMap.filter_entries hn
      (fun id v => decide (id ∈ ScopeMap.keys oldScope ∧ ScopeMap.get oldScope id ≠ v))
      (fun id v => ({ Old := ScopeMap.get oldScope id, New := v } : ScopeChange))
  refine ⟨?_, ?_, ?_⟩
  · show ((CompareScopes.changed oldScope newScope : List ScopeChange) : Multiset ScopeChange) = _
    rw [key]
    simp [Multiset.filter_coe, Multiset.map_coe]
  · intro ch hch
    change ch ∈ CompareScopes.changed oldScope newScope at hch
    rw [key] at hch
    obtain ⟨id, hid, rfl⟩ := List.mem_map.1 hch
    have := (List.mem_filter.1 hid).2
    simp only [decide_eq_true_eq] at this
    exact this.2
  · intro h
    show CompareScopes.changed oldScope newScope = []
    rw [key, List.map_eq_nil_iff, List.filter_eq_nil_iff]
    intro id hid
    simp only [decide_eq_true_eq, not_and, not_not]
    intro ho
    exact h id ho hid

/-- Witness of C9: one common key with differing descriptions. -/
theorem C9_changed_multiset_witness :
    ScopeMap.WF [("t-0", "new.foo.com (URL)"), ("t-1", "b (URL)")] ∧
    ∀ ch ∈ (CompareScopes [("t-0", "old.foo.com (URL)"), ("t-1", "b (URL)")]
        [("t-0", "new.foo.com (URL)"), ("t-1", "b (URL)")]).2.2, ch.Old ≠ ch.New :=
  ⟨by decide, (C9_changed_multiset _ _ (by decide)).2.1⟩


theorem CompareScopes.added_length (oldScope newScope : ScopeMap) :
    (CompareScopes.added oldScope newScope).length =
      ((ScopeMap.keys newScope).filter (fun id => decide (id ∉ ScopeMap.keys oldScope))).length := by
  rw [CompareScopes.added_eq, List.length_map]
  show _ = (List.filter _ (List.map Prod.fst newScope)).length
  rw [List.filter_map, List.length_map]
  rfl

theorem CompareScopes.removed_length (oldScope newScope : ScopeMap) :
    (CompareScopes.removed oldScope newScope).length =
      ((ScopeMap.keys oldScope).filter (fun id => decide (id ∉ ScopeMap.keys newScope))).length :=
  CompareScopes.added_length newScope oldScope

theorem CompareScopes.changed_length (oldScope newScope : ScopeMap) (hn : ScopeMap.WF newScope) :
    (CompareScopes.changed oldScope newScope).length =
      ((ScopeMap.keys newScope).filter (fun id => decide (id ∈ ScopeMap.keys oldScope ∧
          ScopeMap.get oldScope id ≠ ScopeMap.get newScope id))).length := by
  rw [CompareScopes.changed_eq]
  rw [ScopeMap.filter_entries hn
      (fun id v => decide (id ∈ ScopeMap.keys oldScope ∧ ScopeMap.get oldScope id ≠ v))
      (fun id v => ({ Old := ScopeMap.get oldScope id, New := v } : ScopeChange))]
  simp

theorem CompareScopes.added_eq_nil (oldScope newScope : ScopeMap) :
    CompareScopes.added oldScope newScope = [] ↔
      ∀ id ∈ ScopeMap.keys newScope, id ∈ ScopeMap.keys oldScope := by
  rw [CompareScopes.added_eq, List.map_eq_nil_iff, List.filter_eq_nil_iff]
  simp only [decide_eq_true_eq, not_not, ScopeMap.keys, List.mem_map]
  constructor
  · rintro h id ⟨e, he, rfl⟩
    exact h e he
  · intro h e he
    exact h e.1 ⟨e, he, rfl⟩

theorem CompareScopes.removed_eq_nil (oldScope newScope : ScopeMap) :
    CompareScopes.removed oldScope newScope = [] ↔
      ∀ id ∈ ScopeMap.keys oldScope, id ∈ ScopeMap.keys newScope :=
  CompareScopes.added_eq_nil newScope oldScope

theorem CompareScopes.changed_eq_nil (oldScope newScope : ScopeMap) (hn : ScopeMap.WF newScope) :
    CompareScopes.changed oldScope newScope = [] ↔
      ∀ id ∈ ScopeMap.keys newScope, id ∈ ScopeMap.keys oldScope →
        ScopeMap.get oldScope id = ScopeMap.get newScope id := by
  rw [CompareScopes.changed_eq, List.map_eq_nil_iff, List.filter_eq_nil_iff]
  simp only [decide_eq_true_eq, not_and, not_not]
  constructor
  · intro h id hid ho
    obtain ⟨e, he, rfl⟩ := List.mem_map.1 hid
    have := h e he ho
    rw [this, @ScopeMap.get_of_mem newScope hn e.1 e.2 he]
  · intro h e he ho
    have := h e.1 (List.mem_map.2 ⟨e, he, rfl⟩) ho
    rw [this, @ScopeMap.get_of_mem newScope hn e.1 e.2 he]

/-- The three results are empty exactly when the two maps agree on every key. -/
theorem CompareScopes.all_nil_iff (oldScope newScope : ScopeMap) (hn : ScopeMap.WF newScope) :
    (CompareScopes.added oldScope newScope = [] ∧ CompareScopes.removed oldScope newScope = [] ∧
      CompareScopes.changed oldScope newScope = []) ↔ ScopeMap.Equiv oldScope newScope := by
  rw [CompareScopes.added_eq_nil, CompareScopes.removed_eq_nil, CompareScopes.changed_eq_nil _ _ hn]
  constructor
  · rintro ⟨h1, h2, h3⟩ id
    by_cases hid : id ∈ ScopeMap.keys newScope
    · have ho := h1 id hid
      have := h3 id hid ho
      obtain ⟨v, hv⟩ := Option.isSome_iff_exists.1 ((ScopeMap.get?_isSome_iff _ _).2 hid)
      obtain ⟨w, hw⟩ := Option.isSome_iff_exists.1 ((ScopeMap.get?_isSome_iff _ _).2 ho)
      simp only [ScopeMap.get, hv, hw, Option.getD_some] at this
      rw [hv, hw, this]
    · have ho : id ∉ ScopeMap.keys oldScope := fun h => hid (h2 id h)
      rw [(ScopeMap.get?_eq_none_iff _ _).2 hid, (ScopeMap.get?_eq_none_iff _ _).2 ho]
  · intro h
    have hk : ∀ id, id ∈ ScopeMap.keys oldScope ↔ id ∈ ScopeMap.keys newScope := by
      intro id
      rw [← ScopeMap.get?_isSome_iff, ← ScopeMap.get?_isSome_iff, h id]
    refine ⟨fun id hid => (hk id).2 hid, fun id hid => (hk id).1 hid, fun id _ _ => ?_⟩
    simp [ScopeMap.get, h id]

/-- C10: the keys of the two maps split into those only in `newScope` (one
entry of `added` each), those only in `oldScope` (one entry of `removed` each),
those in both with differing descriptions (one entry of `changed` each) and
those in both with equal descriptions (no entry); and the three results are
all empty exactly when the two maps are equal. -/
theorem C10_partition (oldScope newScope : ScopeMap) (ho : ScopeMap.WF oldScope)
    (hn : ScopeMap.WF newScope) :
    (CompareScopes oldScope newScope).1.length + (CompareScopes oldScope newScope).2.1.length +
        (CompareScopes oldScope newScope).2.2.length +
        ((ScopeMap.keys newScope).filter (fun id => decide (id ∈ ScopeMap.keys oldScope ∧
          ScopeMap.get oldScope id = ScopeMap.get newScope id))).length
      = ((ScopeMap.keys oldScope).toFinset ∪ (ScopeMap.keys newScope).toFinset).card ∧
    (((CompareScopes oldScope newScope).1 = [] ∧ (CompareScopes oldScope newScope).2.1 = [] ∧
        (CompareScopes oldScope newScope).2.2 = []) ↔ ScopeMap.Equiv oldScope newScope) := by
  refine ⟨?_, CompareScopes.all_nil_iff oldScope newScope hn⟩
  show (CompareScopes.added oldScope newScope).length +
      (CompareScopes.removed oldScope newScope).length +
      (CompareScopes.changed oldScope newScope).length + _ = _
  rw [CompareScopes.added_length, CompareScopes.removed_length,
    CompareScopes.changed_length _ _ hn]
  unfold ScopeMap.WF at ho hn
  generalize ScopeMap.get oldScope = go
  generalize ScopeMap.get newScope = gn
  generalize ScopeMap.keys oldScope = A at *
  generalize ScopeMap.keys newScope = B at *
  have len : ∀ (l : List String) (p : String → Bool), l.Nodup →
      (l.filter p).length = (l.toFinset.filter (fun x => p x = true)).card := by
    intro l p hl
    rw [← List.toFinset_card_of_nodup (hl.filter p), List.toFinset_filter]
  rw [len B _ hn, len A _ ho, len B _ hn, len B _ hn]
  have e1 : (B.toFinset.filter (fun x => decide (x ∉ A) = true)) = B.toFinset \ A.toFinset := by
    ext x; simp
  have e2 : (A.toFinset.filter (fun x => decide (x ∉ B) = true)) = A.toFinset \ B.toFinset := by
    ext x; simp
  have e3 : (B.toFinset.filter (fun x => decide (x ∈ A ∧ go x ≠ gn x) = true)).card +
      (B.toFinset.filter (fun x => decide (x ∈ A ∧ go x = gn x) = true)).card =
      (A.toFinset ∩ B.toFinset).card := by
    rw [← Finset.card_union_of_disjoint]
    · congr 1
      ext x
      simp only [Finset.mem_union, Finset.mem_filter, List.mem_toFinset, decide_eq_true_eq,
        Finset.mem_inter]
      by_cases h : go x = gn x <;> simp [h] <;> tauto
    · rw [Finset.disjoint_left]
      intro x hx hx2
      simp only [Finset.mem_filter, decide_eq_true_eq] at hx hx2
      exact hx.2.2 hx2.2.2
  rw [e1, e2]
  have e4 := Finset.card_sdiff_add_card_inter A.toFinset B.toFinset
  have e5 := Finset.card_sdiff_add_card_inter B.toFinset A.toFinset
  have e6 := Finset.card_union_add_card_inter A.toFinset B.toFinset
  rw [Finset.inter_comm B.toFinset A.toFinset] at e5
  omega

/-- Witness of C10: one key only old, one only new, one changed, one equal. -/
theorem C10_partition_witness :
    ScopeMap.WF [("t-0", "a"), ("t-1", "b"), ("t-2", "c")] ∧
    ScopeMap.WF [("t-1", "b"), ("t-2", "C"), ("t-3", "d")] ∧
    (CompareScopes [("t-0", "a"), ("t-1", "b"), ("t-2", "c")]
        [("t-1", "b"), ("t-2", "C"), ("t-3", "d")]).1.length +
      (CompareScopes [("t-0", "a"), ("t-1", "b"), ("t-2", "c")]
        [("t-1", "b"), ("t-2", "C"), ("t-3", "d")]).2.1.length +
      (CompareScopes [("t-0", "a"), ("t-1", "b"), ("t-2", "c")]
        [("t-1", "b"), ("t-2", "C"), ("t-3", "d")]).2.2.length +
      ((ScopeMap.keys [("t-1", "b"), ("t-2", "C"), ("t-3", "d")]).filter
        (fun id => decide (id ∈ ScopeMap.keys [("t-0", "a"), ("t-1", "b"), ("t-2", "c")] ∧
          ScopeMap.get [("t-0", "a"), ("t-1", "b"), ("t-2", "c")] id =
            ScopeMap.get [("t-1", "b"), ("t-2", "C"), ("t-3", "d")] id))).length
      = ((ScopeMap.keys [("t-0", "a"), ("t-1", "b"), ("t-2", "c")]).toFinset ∪
          (ScopeMap.keys [("t-1", "b"), ("t-2", "C"), ("t-3", "d")]).toFinset).card :=
  ⟨by decide, by decide, (C10_partition _ _ (by decide) (by decide)).1⟩

/-! # Removal check -/

theorem contains_iff (slice : List String) (item : String) :
    contains slice item = true ↔ item ∈ slice := by
  induction slice with
  | nil => simp [contains]
  | cons s rest ih =>
    by_cases h : s = item
    · simp [contains, h]
    · simp [contains, h, ih, Ne.symm h]

/-- Finding by key in a well-formed table returns the row that has the key. -/
theorem find?_key_of_mem {rows : List Program} (h : (rows.map (fun r => r.Key)).Nodup)
    {t : Program} (ht : t ∈ rows) :
    rows.find? (fun r => decide (r.Key = t.Key)) = some t := by
  induction rows with
  | nil => simp at ht
  | cons r rows ih =>
    simp only [List.map_cons, List.nodup_cons] at h
    rcases List.mem_cons.1 ht with heq | hmem
    · subst heq; simp
    · have hne : r.Key ≠ t.Key := by
        intro he
        exact h.1 (he ▸ List.mem_map.2 ⟨t, hmem, rfl⟩)
      simp [List.find?_cons, hne, ih h.2 hmem]

theorem nodup_keys_filter {rows : List Program} (h : (rows.map (fun r => r.Key)).Nodup)
    (p : Program → Bool) : ((rows.filter p).map (fun r => r.Key)).Nodup :=
  h.sublist ((List.filter_sublist rows).map _)

theorem removal_loop (env : Env) (currentKeys : List String) (platformConfig : Platform)
    (firstRun : Bool) (hget : ∀ n, env.getErr n = false) (hdel : ∀ n, env.deleteErr n = false)
    (targets : List Program) :
    ∀ acc : Nat × World,
      (∀ r ∈ targets, r ∈ acc.2.db.rows) → (targets.map (fun r => r.Key)).Nodup →
      acc.2.db.WF →
      let removed := targets.filter (fun r => decide (r.Key ∉ currentKeys))
      let out := (targets.map (fun r => r.Key)).foldl
        (checkRemovedPrograms.step env currentKeys platformConfig firstRun) acc
      out.1 = acc.1 + removed.length ∧
      out.2.calls = acc.2.calls ++ removed.flatMap (removalCalls platformConfig firstRun) ∧
      out.2.db.rows =
        acc.2.db.rows.filter (fun r => decide (r.Key ∉ removed.map (fun r => r.Key))) ∧
      out.2.db.seq = acc.2.db.seq := by
  induction targets with
  | nil =>
    intro acc _ _ _
    simp
  | cons t ts ih =>
    intro acc hmem hnd hwf
    simp only [List.map_cons, List.nodup_cons] at hnd
    simp only [List.map_cons, List.foldl_cons]
    by_cases hc : t.Key ∈ currentKeys
    · have hstep : checkRemovedPrograms.step env currentKeys platformConfig firstRun acc t.Key = acc := by
        simp [checkRemovedPrograms.step, (contains_iff _ _).2 hc]
      rw [hstep]
      have := ih acc (fun r hr => hmem r (List.mem_cons_of_mem _ hr)) hnd.2 hwf
      simpa [List.filter_cons, hc] using this
    · have hfind := find?_key_of_mem hwf (hmem t (List.mem_cons_self _ _))
      have hcf : contains currentKeys t.Key = false := by
        rw [← Bool.not_eq_true, contains_iff]; exact hc
      have hstep : checkRemovedPrograms.step env currentKeys platformConfig firstRun acc t.Key =
          (acc.1 + 1,
            { db := { rows := acc.2.db.rows.filter (fun r => decide (r.Key ≠ t.Key)),
                      seq := acc.2.db.seq, ops := acc.2.db.ops + 1 + 1 },
              calls := acc.2.calls ++ removalCalls platformConfig firstRun t }) := by
        by_cases hs : ShouldSendNotification false (removalAlert t) platformConfig firstRun = true
        · simp [checkRemovedPrograms.step, hcf, GetProgram, hget, hfind, DeleteProgram, hdel, removalCalls, hs]
        · simp [checkRemovedPrograms.step, hcf, GetProgram, hget, hfind, DeleteProgram, hdel, removalCalls, hs]
      rw [hstep]
      have hmem2 : ∀ r ∈ ts, r ∈ (acc.2.db.rows.filter (fun r => decide (r.Key ≠ t.Key))) := by
        intro r hr
        refine List.mem_filter.2 ⟨hmem r (List.mem_cons_of_mem _ hr), ?_⟩
        have : r.Key ≠ t.Key := by
          intro he
          exact hnd.1 (he ▸ List.mem_map.2 ⟨r, hr, rfl⟩)
        simpa using this
      have := ih (acc.1 + 1,
            { db := { rows := acc.2.db.rows.filter (fun r => decide (r.Key ≠ t.Key)),
                      seq := acc.2.db.seq, ops := acc.2.db.ops + 1 + 1 },
              calls := acc.2.calls ++ removalCalls platformConfig firstRun t })
        hmem2 hnd.2 (nodup_keys_filter hwf _)
      simp only at this
      obtain ⟨h1, h2, h3, h4⟩ := this
      refine ⟨?_, ?_, ?_, ?_⟩
      · rw [h1]; simp [List.filter_cons, hc]; omega
      · rw [h2]; simp [List.filter_cons, hc]
      · rw [h3]; simp [List.filter_cons, hc, List.filter_filter]
        apply List.filter_congr
        intro r _
        exact Bool.and_comm _ _
      · rw [h4]

theorem checkRemovedPrograms_ok (env : Env) (platform : String) (currentKeys : List String)
    (w : World) (platformConfig : Platform) (firstRun : Bool)
    (hp : platform ≠ "") (hwf : w.db.WF)
    (hkeys : ∀ n, env.keysErr n = false) (hget : ∀ n, env.getErr n = false)
    (hdel : ∀ n, env.deleteErr n = false) :
    (checkRemovedPrograms env platform currentKeys w platformConfig firstRun).1 =
      (w.db.rows.filter
        (fun r => decide (r.Platform = platform ∧ r.Key ∉ currentKeys))).length ∧
    (checkRemovedPrograms env platform currentKeys w platformConfig firstRun).2.calls =
      w.calls ++ (w.db.rows.filter
        (fun r => decide (r.Platform = platform ∧ r.Key ∉ currentKeys))).flatMap
          (removalCalls platformConfig firstRun) ∧
    (checkRemovedPrograms env platform currentKeys w platformConfig firstRun).2.db.rows =
      w.db.rows.filter (fun r => decide (¬ (r.Platform = platform ∧ r.Key ∉ currentKeys))) ∧
    (checkRemovedPrograms env platform currentKeys w platformConfig firstRun).2.db.seq =
      w.db.seq := by
  have hmain := removal_loop env currentKeys platformConfig firstRun hget hdel
    (w.db.rows.filter (fun r => decide (r.Platform = platform)))
    (0, { w with db := { w.db with ops := w.db.ops + 1 } })
    (fun r hr => (List.mem_filter.1 hr).1) (nodup_keys_filter hwf _) hwf
  have hfold : checkRemovedPrograms env platform currentKeys w platformConfig firstRun =
      ((w.db.rows.filter (fun r => decide (r.Platform = platform))).map (fun r => r.Key)).foldl
        (checkRemovedPrograms.step env currentKeys platformConfig firstRun)
        (0, { w with db := { w.db with ops := w.db.ops + 1 } }) := by
    simp [checkRemovedPrograms, GetAllProgramKeys, hkeys, hp]
  rw [hfold]
  have hf : (w.db.rows.filter (fun r => decide (r.Platform = platform))).filter
      (fun r => decide (r.Key ∉ currentKeys)) =
      w.db.rows.filter (fun r => decide (r.Platform = platform ∧ r.Key ∉ currentKeys)) := by
    rw [List.filter_filter]
    apply List.filter_congr
    intro r _
    by_cases h1 : r.Platform = platform <;> by_cases h2 : r.Key ∈ currentKeys <;> simp [h1, h2]
  simp only at hmain
  rw [hf] at hmain
  obtain ⟨h1, h2, h3, h4⟩ := hmain
  refine ⟨by simpa using h1, h2, ?_, h4⟩
  rw [h3]
  apply List.filter_congr
  intro r hr
  have hiff : r.Key ∈ (w.db.rows.filter
      (fun r => decide (r.Platform = platform ∧ r.Key ∉ currentKeys))).map (fun r => r.Key) ↔
      (r.Platform = platform ∧ r.Key ∉ currentKeys) := by
    constructor
    · intro h
      obtain ⟨r2, hr2, hk⟩ := List.mem_map.1 h
      have hr2m := List.mem_filter.1 hr2
      have : r2 = r := List.inj_on_of_nodup_map hwf hr2m.1 hr hk
      subst this
      simpa using hr2m.2
    · intro h
      exact List.mem_map.2 ⟨r, List.mem_filter.2 ⟨hr, by simpa using h⟩, rfl⟩
  by_cases h : (r.Platform = platform ∧ r.Key ∉ currentKeys)
  · simp only [hiff.2 h, h, not_true_eq_false, decide_False, not_false_eq_true, decide_True]
    simp
  · have := mt hiff.1 h
    simp only [this, h, not_false_eq_true, decide_True]

theorem World.alerts_calls_append (w : World) (db : DB) (cs : List Call) :
    World.alerts { db := db, calls := w.calls ++ cs } =
      w.alerts ++ World.alerts { db := db, calls := cs } := by
  simp [World.alerts, List.filterMap_append]

theorem removalCalls_alerts (platformConfig : Platform) (firstRun : Bool) (db : DB)
    (l : List Program) :
    World.alerts { db := db, calls := l.flatMap (removalCalls platformConfig firstRun) } =
      l.map removalAlert := by
  induction l with
  | nil => rfl
  | cons r l ih =>
    simp only [World.alerts] at ih ⊢
    rw [List.flatMap_cons, List.filterMap_append, ih]
    by_cases hs : ShouldSendNotification false (removalAlert r) platformConfig firstRun = true <;>
      simp [removalCalls, hs]

theorem removalCalls_deleted (platformConfig : Platform) (firstRun : Bool) (db : DB)
    (l : List Program) :
    World.deleted { db := db, calls := l.flatMap (removalCalls platformConfig firstRun) } =
      l.map (fun r => r.Key) := by
  induction l with
  | nil => rfl
  | cons r l ih =>
    simp only [World.deleted] at ih ⊢
    rw [List.flatMap_cons, List.filterMap_append, ih]
    by_cases hs : ShouldSendNotification false (removalAlert r) platformConfig firstRun = true <;>
      simp [removalCalls, hs]

theorem removalCalls_saved (platformConfig : Platform) (firstRun : Bool) (db : DB)
    (l : List Program) :
    World.saved { db := db, calls := l.flatMap (removalCalls platformConfig firstRun) } = [] := by
  induction l with
  | nil => rfl
  | cons r l ih =>
    simp only [World.saved] at ih ⊢
    rw [List.flatMap_cons, List.filterMap_append, ih]
    by_cases hs : ShouldSendNotification false (removalAlert r) platformConfig firstRun = true <;>
      simp [removalCalls, hs]

theorem removalCalls_sent (platformConfig : Platform) (firstRun : Bool) (db : DB)
    (l : List Program) :
    World.sent { db := db, calls := l.flatMap (removalCalls platformConfig firstRun) } =
      (l.map removalAlert).filter
        (fun a => ShouldSendNotification false a platformConfig firstRun) := by
  induction l with
  | nil => rfl
  | cons r l ih =>
    simp only [World.sent] at ih ⊢
    rw [List.flatMap_cons, List.filterMap_append, ih]
    by_cases hs : ShouldSendNotification false (removalAlert r) platformConfig firstRun = true <;>
      simp [removalCalls, hs, List.filter_cons]

/-- C3: with reads and deletes succeeding, each of the three removal checks
consults the policy on exactly one alert with `IsRemoved = true`, carrying the
stored record, for each key stored under the platform that is not in
`currentKeys` (these keys are pairwise distinct), deletes exactly those keys
and saves nothing, leaves every other row in place, and returns the number of
deleted keys; with `currentKeys` empty every stored program of the platform is
removed.  With stored keys `A`, `B`, `C` and `currentKeys = [A, C]` there is
one removal event, for `B`, and `B` is deleted. -/
theorem C3_removal_detection (env : Env) (platform : String) (currentKeys : List String)
    (w : World) (platformConfig : Platform) (firstRun : Bool)
    (hp : platform ≠ "") (hwf : w.db.WF)
    (hkeys : ∀ n, env.keysErr n = false) (hget : ∀ n, env.getErr n = false)
    (hdel : ∀ n, env.deleteErr n = false) :
    (∀ check ∈ [checkRemovedProgramsHackerOne, checkRemovedProgramsBugcrowd,
        checkRemovedProgramsIntigriti],
      let removed := w.db.rows.filter
        (fun r => decide (r.Platform = platform ∧ r.Key ∉ currentKeys))
      let out := check env platform currentKeys w platformConfig firstRun
      out.2.alerts = w.alerts ++ removed.map (fun r =>
        ({ Program := r, IsNew := false, IsRemoved := true, NewScope := [], RemovedScope := [],
           ChangedScope := [], NewType := "", Reward := none } : Alert)) ∧
      (removed.map (fun r => r.Key)).Nodup ∧
      out.2.deleted = w.deleted ++ removed.map (fun r => r.Key) ∧
      out.2.saved = w.saved ∧
      out.2.sent = w.sent ++ (removed.map removalAlert).filter
        (fun a => ShouldSendNotification false a platformConfig firstRun) ∧
      out.2.db.rows =
        w.db.rows.filter (fun r => decide (¬ (r.Platform = platform ∧ r.Key ∉ currentKeys))) ∧
      out.1 = removed.length ∧
      (currentKeys = [] →
        out.2.db.rows = w.db.rows.filter (fun r => decide (r.Platform ≠ platform)) ∧
        out.1 = (w.db.rows.filter (fun r => decide (r.Platform = platform))).length)) ∧
    (let out := checkRemovedProgramsHackerOne Env.ideal "hackerone" ["A", "C"]
        (World.stored [Program.stub "hackerone" "A", Program.stub "hackerone" "B",
          Program.stub "hackerone" "C"])
        platformConfig firstRun
     out.1 = 1 ∧ out.2.alerts = [removalAlert (Program.stub "hackerone" "B")] ∧
       out.2.deleted = ["B"] ∧ out.2.db.keys = ["A", "C"]) := by
  constructor
  · intro check hcheck
    have hc : check = checkRemovedPrograms := by
      simp only [List.mem_cons, List.mem_singleton, List.not_mem_nil, or_false] at hcheck
      rcases hcheck with h | h | h <;> exact h
    subst hc
    obtain ⟨h1, h2, h3, _⟩ := checkRemovedPrograms_ok env platform currentKeys w platformConfig
      firstRun hp hwf hkeys hget hdel
    intro removed out
    have hcalls : out.2 = World.mk out.2.db
        (w.calls ++ List.flatMap removed (removalCalls platformConfig firstRun)) := by
      rw [← h2]
    refine ⟨?_, nodup_keys_filter hwf _, ?_, ?_, ?_, h3, h1, ?_⟩
    · rw [hcalls, World.alerts_calls_append, removalCalls_alerts]; rfl
    · rw [hcalls]
      have := removalCalls_deleted platformConfig firstRun out.2.db removed
      simp only [World.deleted, List.filterMap_append] at this ⊢
      rw [this]
    · rw [hcalls]
      have := removalCalls_saved platformConfig firstRun out.2.db removed
      simp only [World.saved, List.filterMap_append] at this ⊢
      rw [this]; simp
    · rw [hcalls]
      have := removalCalls_sent platformConfig firstRun out.2.db removed
      simp only [World.sent, List.filterMap_append] at this ⊢
      rw [this]
    · intro hck
      subst hck
      refine ⟨?_, ?_⟩
      · rw [h3]; apply List.filter_congr; intro r _; simp
      · rw [h1]; congr 1; apply List.filter_congr; intro r _; simp
  · cases firstRun <;> cases hr : platformConfig.Notifications.RemovedProgram <;>
      simp [checkRemovedPrograms, checkRemovedPrograms.step, GetAllProgramKeys, GetProgram,
        DeleteProgram, Env.ideal, World.stored, Program.stub, contains, World.alerts,
        World.deleted, DB.keys, ShouldSendNotification, removalAlert, baseAlert, hr]

/-- Witness of C3: the store with keys `A`, `B`, `C` checked against `[A, C]`
and against the empty list. -/
theorem C3_removal_detection_witness :
    (checkRemovedProgramsHackerOne Env.ideal "hackerone" ["A", "C"]
        (World.stored [Program.stub "hackerone" "A", Program.stub "hackerone" "B",
          Program.stub "hackerone" "C"]) (Platform.flags true true) false).2.deleted = ["B"] ∧
    (checkRemovedProgramsHackerOne Env.ideal "hackerone" []
        (World.stored [Program.stub "hackerone" "A", Program.stub "hackerone" "B",
          Program.stub "hackerone" "C"]) (Platform.flags true true) false).1 = 3 :=
  ⟨((C3_removal_detection Env.ideal "hackerone" ["A", "C"]
      (World.stored [Program.stub "hackerone" "A", Program.stub "hackerone" "B",
        Program.stub "hackerone" "C"]) (Platform.flags true true) false
      (by decide) (by decide) (fun _ => rfl) (fun _ => rfl) (fun _ => rfl)).1
      checkRemovedProgramsHackerOne (by simp)).2.2.1,
   ((C3_removal_detection Env.ideal "hackerone" []
      (World.stored [Program.stub "hackerone" "A", Program.stub "hackerone" "B",
        Program.stub "hackerone" "C"]) (Platform.flags true true) false
      (by decide) (by decide) (fun _ => rfl) (fun _ => rfl) (fun _ => rfl)).1
      checkRemovedProgramsHackerOne (by simp)).2.2.2.2.2.2.1⟩


/-! # The loop body -/

theorem getScopeValues_eq (scope : ScopeMap) : getScopeValues scope = scope.map Prod.snd := by
  unfold getScopeValues
  suffices h : ∀ (l : ScopeMap) (init : List String),
      l.foldl (fun values e => values ++ [e.2]) init = init ++ l.map Prod.snd by
    simpa using h scope []
  intro l
  induction l with
  | nil => simp
  | cons e l ih => intro init; simp [ih]

theorem SaveProgram_rows (env : Env) (db : DB) (p : Program) (h : env.saveErr db.ops = false) :
    (SaveProgram env db p).1.rows =
      db.rows.filter (fun r => decide (r.Key ≠ p.Key)) ++
        [{ p with ID := db.seq + 1, CreatedAt := env.now db.ops, UpdatedAt := env.now db.ops }] := by
  simp [SaveProgram, h]

theorem find?_saved (rows : List Program) {k : String} (row : Program) (hk : row.Key = k) :
    (rows.filter (fun r => decide (r.Key ≠ k)) ++ [row]).find? (fun r => decide (r.Key = k)) =
      some row := by
  rw [List.find?_append]
  have : (rows.filter (fun r => decide (r.Key ≠ k))).find? (fun r => decide (r.Key = k)) = none := by
    rw [List.find?_eq_none]
    intro r hr
    simpa using (List.mem_filter.1 hr).2
  simp [this, hk]

/-- The not-found branch of the loop body, spelled out. -/
theorem processProgram_new (env : Env) (platform : String) (platformConfig : Platform)
    (firstRun : Bool) (st : MonitorState) (c : Locals)
    (hmiss : (GetProgram env st.world.db c.key).2 = .error .ErrNoRows) :
    processProgram env platform platformConfig firstRun st c =
      some
        (if (SaveProgram env (GetProgram env st.world.db c.key).1 (newProgram env platform c)).2
          then
          { st with
            world :=
              { db := (SaveProgram env (GetProgram env st.world.db c.key).1
                  (newProgram env platform c)).1,
                calls := st.world.calls ++ [Call.SaveProgram (newProgram env platform c) true] },
            currentKeys := st.currentKeys ++ [c.key] }
        else
          { world :=
              { db := (SaveProgram env (GetProgram env st.world.db c.key).1
                  (newProgram env platform c)).1,
                calls := st.world.calls ++ [Call.SaveProgram (newProgram env platform c) false]
                  ++ [Call.ShouldSendNotification true (newAlert env platform c)]
                  ++ (if ShouldSendNotification true (newAlert env platform c) platformConfig
                        firstRun then [Call.SendAlert (newAlert env platform c)] else []) },
            currentKeys := st.currentKeys ++ [c.key],
            programsCount := st.programsCount + 1,
            newPrograms := st.newPrograms +
              (if ShouldSendNotification true (newAlert env platform c) platformConfig
                  firstRun then 1 else 0),
            updatedPrograms := st.updatedPrograms }) := by
  unfold processProgram
  simp only [hmiss]
  cases hs : (SaveProgram env (GetProgram env st.world.db c.key).1 (newProgram env platform c)).2
  · cases hn : ShouldSendNotification true (newAlert env platform c) platformConfig firstRun <;>
      simp
  · simp

/-- C6: for a record whose key `GetProgram` does not find (`sql.ErrNoRows`), the
loop body shared by the three monitors calls `SaveProgram` with the record's
Program, whatever `firstRun` and the notification flags are; the alert it has
built has `IsNew = true`, `IsRemoved = false` and as `NewScope` all values of
the record's scope map (one per scope ID, nothing from the store enters it);
when the save succeeds that alert is the one the notification policy is
consulted on, with `isNew = true`. -/
theorem C6_new_program_path (env : Env) (platform : String) (platformConfig : Platform)
    (firstRun : Bool) (st : MonitorState) (c : Locals)
    (hmiss : (GetProgram env st.world.db c.key).2 = .error .ErrNoRows) :
    ∃ st', processProgram env platform platformConfig firstRun st c = some st' ∧
      st'.world.saved = st.world.saved ++ [newProgram env platform c] ∧
      st'.world.deleted = st.world.deleted ∧
      (newAlert env platform c).IsNew = true ∧
      (newAlert env platform c).IsRemoved = false ∧
      (newAlert env platform c).Program = newProgram env platform c ∧
      ((newAlert env platform c).NewScope : Multiset String) =
        Multiset.map Prod.snd (c.scope : Multiset (String × String)) ∧
      (newAlert env platform c).NewScope.length = (ScopeMap.keys c.scope).length ∧
      (newAlert env platform c).RemovedScope = [] ∧
      (env.saveErr (st.world.db.ops + 1) = false →
        st'.world.alerts = st.world.alerts ++ [newAlert env platform c] ∧
        st'.world.calls = st.world.calls ++
          [Call.SaveProgram (newProgram env platform c) false,
           Call.ShouldSendNotification true (newAlert env platform c)] ++
          (if ShouldSendNotification true (newAlert env platform c) platformConfig firstRun
            then [Call.SendAlert (newAlert env platform c)] else []) ∧
        st'.world.db.rows.find? (fun r => decide (r.Key = c.key)) =
          some { newProgram env platform c with
                 ID := st.world.db.seq + 1,
                 CreatedAt := env.now (st.world.db.ops + 1),
                 UpdatedAt := env.now (st.world.db.ops + 1) }) := by
  rw [processProgram_new env platform platformConfig firstRun st c hmiss]
  refine ⟨_, rfl, ?_, ?_, rfl, rfl, rfl, ?_, ?_, rfl, ?_⟩
  · cases hs : (SaveProgram env (GetProgram env st.world.db c.key).1
        (newProgram env platform c)).2 <;>
      cases hn : ShouldSendNotification true (newAlert env platform c) platformConfig firstRun <;>
      simp [World.saved, List.filterMap_append]
  · cases hs : (SaveProgram env (GetProgram env st.world.db c.key).1
        (newProgram env platform c)).2 <;>
      cases hn : ShouldSendNotification true (newAlert env platform c) platformConfig firstRun <;>
      simp [World.deleted, List.filterMap_append]
  · simp [newAlert, getScopeValues_eq]
  · simp [newAlert, getScopeValues_eq, ScopeMap.keys]
  · intro hsave
    have hs : (SaveProgram env (GetProgram env st.world.db c.key).1
        (newProgram env platform c)).2 = false := by
      simp [SaveProgram, GetProgram, hsave]
    simp only [hs]
    refine ⟨?_, ?_, ?_⟩
    · cases hn : ShouldSendNotification true (newAlert env platform c) platformConfig firstRun <;>
        simp [World.alerts, List.filterMap_append]
    · simp
    · simp only [Bool.false_eq_true, if_false]
      rw [SaveProgram_rows _ _ _ (by simpa [GetProgram] using hsave)]
      exact find?_saved _ _ rfl

/-- Witness of C6: a first record against the empty store. -/
theorem C6_new_program_path_witness :
    (GetProgram Env.ideal World.empty.db Locals.acme.key).2 = .error .ErrNoRows ∧
    ∃ st', processProgram Env.ideal "hackerone" (Platform.flags false false) true
        (MonitorState.start World.empty) Locals.acme = some st' ∧
      st'.world.saved = [newProgram Env.ideal "hackerone" Locals.acme] :=
  ⟨rfl,
    (C6_new_program_path Env.ideal "hackerone" (Platform.flags false false) true
      (MonitorState.start World.empty) Locals.acme rfl).imp
      (fun _ h => ⟨h.1, h.2.1⟩)⟩

theorem updateAlert_hasChanged (env : Env) (platform : String) (existingProgram : Program)
    (c : Locals) :
    (updateAlert env platform existingProgram c).2 = true ↔ updateDelta env existingProgram c := by
  unfold updateAlert updateDelta
  rcases c with ⟨name, url, logo, key, programType, scope, reward⟩
  cases reward with
  | none =>
    simp only [List.length_pos, ne_eq]
    split_ifs <;> simp_all
  | some reward =>
    simp only [List.length_pos, ne_eq]
    split_ifs <;> simp_all

theorem updateAlert_fields (env : Env) (platform : String) (existingProgram : Program)
    (c : Locals) :
    (updateAlert env platform existingProgram c).1.Program = newProgram env platform c ∧
    (updateAlert env platform existingProgram c).1.IsNew = false ∧
    (updateAlert env platform existingProgram c).1.IsRemoved = false ∧
    (updateAlert env platform existingProgram c).1.ChangedScope = [] ∧
    (updateAlert env platform existingProgram c).1.NewScope =
      (CompareScopes (DeserializeScope env existingProgram.Scope) c.scope).1 ∧
    (updateAlert env platform existingProgram c).1.RemovedScope =
      (CompareScopes (DeserializeScope env existingProgram.Scope) c.scope).2.1 ∧
    (updateAlert env platform existingProgram c).1.NewType =
      (if existingProgram.Type_ ≠ c.programType then c.programType else "") := by
  unfold updateAlert
  rcases c with ⟨name, url, logo, key, programType, scope, reward⟩
  cases reward with
  | none =>
    simp only [List.length_pos, ne_eq]
    split_ifs <;> simp_all [baseAlert]
  | some reward =>
    simp only [List.length_pos, ne_eq]
    split_ifs <;> simp_all [baseAlert]

/-- The found branch of the loop body, spelled out. -/
theorem processProgram_found (env : Env) (platform : String) (platformConfig : Platform)
    (firstRun : Bool) (st : MonitorState) (c : Locals) (existingProgram : Program)
    (hfound : (GetProgram env st.world.db c.key).2 = .ok existingProgram) :
    processProgram env platform platformConfig firstRun st c =
      some
        (if (updateAlert env platform existingProgram c).2 then
          if (SaveProgram env (GetProgram env st.world.db c.key).1 (newProgram env platform c)).2
          then
            { st with
              world :=
                { db := (SaveProgram env (GetProgram env st.world.db c.key).1
                    (newProgram env platform c)).1,
                  calls := st.world.calls ++ [Call.SaveProgram (newProgram env platform c) true] },
              currentKeys := st.currentKeys ++ [c.key] }
          else
            { world :=
                { db := (SaveProgram env (GetProgram env st.world.db c.key).1
                    (newProgram env platform c)).1,
                  calls := st.world.calls ++ [Call.SaveProgram (newProgram env platform c) false]
                    ++ [Call.ShouldSendNotification false
                          (updateAlert env platform existingProgram c).1]
                    ++ (if ShouldSendNotification false
                          (updateAlert env platform existingProgram c).1 platformConfig firstRun
                        then [Call.SendAlert (updateAlert env platform existingProgram c).1]
                        else []) },
              currentKeys := st.currentKeys ++ [c.key],
              programsCount := st.programsCount + 1,
              newPrograms := st.newPrograms,
              updatedPrograms := st.updatedPrograms +
                (if ShouldSendNotification false
                    (updateAlert env platform existingProgram c).1 platformConfig firstRun
                  then 1 else 0) }
        else
          { st with
            world := { db := (GetProgram env st.world.db c.key).1, calls := st.world.calls },
            currentKeys := st.currentKeys ++ [c.key],
            programsCount := st.programsCount + 1 }) := by
  unfold processProgram
  simp only [hfound]
  cases hc : (updateAlert env platform existingProgram c).2
  · simp
  · cases hs : (SaveProgram env (GetProgram env st.world.db c.key).1 (newProgram env platform c)).2
    · cases hn : ShouldSendNotification false (updateAlert env platform existingProgram c).1
          platformConfig firstRun <;> simp [hs, hn]
    · simp [hs]

/-- Counterexample to C5 as stated: the stored Intigriti program has the scope
entry `inscope-0` with the description `old.example.com (url)`; the snapshot
has the same program with `new.example.com (url)` under the same ID.
`CompareScopes` reports one changed entry, and the monitor makes no call at
all: nothing is written and no event is built. -/
theorem C5_counterexample :
    (MonitorIntigriti.locals (Result.intigritiRecord "new.example.com")).map
        (fun c => CompareScopes
          (DeserializeScope Env.ideal
            (newProgram Env.ideal "intigriti"
              ((MonitorIntigriti.locals (Result.intigritiRecord "old.example.com")).getD
                Locals.acme)).Scope)
          c.scope)
      = some ([], [], [{ Old := "old.example.com (url)", New := "new.example.com (url)" }]) ∧
    ((MonitorIntigriti Env.ideal Config.demo World.empty true
        (.ok (Body.of (.arr "" [Result.intigritiRecord "old.example.com"])))).bind
      (fun r1 =>
        (MonitorIntigriti Env.ideal Config.demo { db := r1.world.db, calls := [] } false
          (.ok (Body.of (.arr "" [Result.intigritiRecord "new.example.com"])))).map
        (fun r2 => (r1.world.db.rows.map (fun r => r.Scope), r2.world.calls,
          r2.world.db.rows.map (fun r => r.Scope)))))
      = some (["\x7b\"inscope-0\":\"old.example.com (url)\"\x7d"], [],
          ["\x7b\"inscope-0\":\"old.example.com (url)\"\x7d"]) := by
  constructor
  · decide
  · decide

/-- C5 (amended): for a record whose key `GetProgram` finds, the loop body
shared by the three monitors calls `SaveProgram` with the updated Program
exactly when the stored type differs from the current one, or `CompareScopes`
reports a non-empty added list or a non-empty removed list, or (Bugcrowd) the
stored reward differs in `Min` or `Max`; when the save succeeds the Program is
the stored row and the notification policy is consulted on the update event.
Otherwise it makes no call and leaves the table as it is.  The third result of
`CompareScopes` is discarded: the event never carries a `ChangedScope`, and a
record that differs only in a description under a known scope ID is not
written. -/
theorem C5_update_decision (env : Env) (platform : String) (platformConfig : Platform)
    (firstRun : Bool) (st : MonitorState) (c : Locals) (existingProgram : Program)
    (hfound : (GetProgram env st.world.db c.key).2 = .ok existingProgram) :
    ∃ st', processProgram env platform platformConfig firstRun st c = some st' ∧
      (updateDelta env existingProgram c →
        st'.world.saved = st.world.saved ++ [newProgram env platform c] ∧
        (env.saveErr (st.world.db.ops + 1) = false →
          st'.world.alerts = st.world.alerts ++ [(updateAlert env platform existingProgram c).1] ∧
          st'.world.db.rows.find? (fun r => decide (r.Key = c.key)) =
            some { newProgram env platform c with
                   ID := st.world.db.seq + 1,
                   CreatedAt := env.now (st.world.db.ops + 1),
                   UpdatedAt := env.now (st.world.db.ops + 1) })) ∧
      (¬ updateDelta env existingProgram c →
        st'.world.calls = st.world.calls ∧ st'.world.db.rows = st.world.db.rows) ∧
      (updateAlert env platform existingProgram c).1.ChangedScope = [] ∧
      (updateAlert env platform existingProgram c).1.NewScope =
        (CompareScopes (DeserializeScope env existingProgram.Scope) c.scope).1 ∧
      (updateAlert env platform existingProgram c).1.RemovedScope =
        (CompareScopes (DeserializeScope env existingProgram.Scope) c.scope).2.1 ∧
      (updateAlert env platform existingProgram c).1.NewType =
        (if existingProgram.Type_ ≠ c.programType then c.programType else "") ∧
      (existingProgram.Type_ = c.programType →
        (CompareScopes (DeserializeScope env existingProgram.Scope) c.scope).1 = [] →
        (CompareScopes (DeserializeScope env existingProgram.Scope) c.scope).2.1 = [] →
        c.reward = none →
        st'.world.calls = st.world.calls) := by
  rw [processProgram_found env platform platformConfig firstRun st c existingProgram hfound]
  have hiff := updateAlert_hasChanged env platform existingProgram c
  obtain ⟨_, _, _, f4, f5, f6, f7⟩ := updateAlert_fields env platform existingProgram c
  have hno : ¬ updateDelta env existingProgram c →
      (updateAlert env platform existingProgram c).2 = false := by
    intro h
    cases hc : (updateAlert env platform existingProgram c).2
    · rfl
    · exact absurd (hiff.1 hc) h
  refine ⟨_, rfl, ?_, ?_, f4, f5, f6, f7, ?_⟩
  · intro hd
    have hc := hiff.2 hd
    simp only [hc, if_true]
    constructor
    · cases hs : (SaveProgram env (GetProgram env st.world.db c.key).1
          (newProgram env platform c)).2 <;>
        cases hn : ShouldSendNotification false (updateAlert env platform existingProgram c).1
          platformConfig firstRun <;>
        simp [World.saved, List.filterMap_append]
    · intro hsave
      have hs : (SaveProgram env (GetProgram env st.world.db c.key).1
          (newProgram env platform c)).2 = false := by
        simp [SaveProgram, GetProgram, hsave]
      simp only [hs]
      refine ⟨?_, ?_⟩
      · cases hn : ShouldSendNotification false (updateAlert env platform existingProgram c).1
            platformConfig firstRun <;>
          simp [World.alerts, List.filterMap_append]
      · simp only [Bool.false_eq_true, if_false]
        rw [SaveProgram_rows _ _ _ (by simpa [GetProgram] using hsave)]
        exact find?_saved _ _ rfl
  · intro hd
    simp [hno hd, GetProgram]
  · intro h1 h2 h3 h4
    have hd : ¬ updateDelta env existingProgram c := by
      unfold updateDelta
      simp [h1, h2, h3, h4]
    simp [hno hd]

/-- Witness of C5 (amended): the stored HackerOne program `Acme` met again with
the same type and scope. -/
theorem C5_update_decision_witness :
    (GetProgram Env.ideal (World.stored [newProgram Env.ideal "hackerone" Locals.acme]).db
        Locals.acme.key).2 = .ok (newProgram Env.ideal "hackerone" Locals.acme) ∧
    ∃ st', processProgram Env.ideal "hackerone" (Platform.allOn "u") false
        (MonitorState.start (World.stored [newProgram Env.ideal "hackerone" Locals.acme]))
        Locals.acme = some st' ∧
      (updateAlert Env.ideal "hackerone" (newProgram Env.ideal "hackerone" Locals.acme)
        Locals.acme).1.ChangedScope = [] :=
  ⟨by simp [GetProgram, Env.ideal, World.stored, newProgram],
    (C5_update_decision Env.ideal "hackerone" (Platform.allOn "u") false
      (MonitorState.start (World.stored [newProgram Env.ideal "hackerone" Locals.acme]))
      Locals.acme (newProgram Env.ideal "hackerone" Locals.acme)
      (by simp [GetProgram, Env.ideal, World.stored, newProgram, MonitorState.start])).imp
      (fun _ h => ⟨h.1, h.2.2.2.1⟩)⟩


/-! # Whole cycles -/

theorem platformMonitors_run (m : PlatformMonitor) (hm : m ∈ platformMonitors) (env : Env)
    (config : Config) (w : World) (firstRun : Bool) :
    m.name ≠ "" ∧
    (∀ e, m.run env config w firstRun (.error e) = some (MonitorResult.idle w)) ∧
    (∀ cap body, 200 ≤ cap →
      m.run env config w firstRun (.ok { capacity := cap, json := body }) =
        monitorCycle m.locals env m.name (config.platform m.name) firstRun (m.programs body)
          w) := by
  simp only [platformMonitors, List.mem_cons, List.mem_singleton, List.not_mem_nil,
    or_false] at hm
  rcases hm with rfl | rfl | rfl
  · exact ⟨by decide, fun _ => rfl, fun cap body h => by
      simp [MonitorHackerOne, Nat.not_lt.2 h]⟩
  · exact ⟨by decide, fun _ => rfl, fun cap body h => by
      simp [MonitorBugcrowd, Nat.not_lt.2 h]⟩
  · exact ⟨by decide, fun _ => rfl, fun cap body h => by
      simp [MonitorIntigriti, Nat.not_lt.2 h]⟩

theorem monitorLoop_eq (locals : Result → Option Locals) (env : Env) (platform : String)
    (platformConfig : Platform) (firstRun : Bool) (programs : List Result) :
    ∀ st, monitorLoop locals env platform platformConfig firstRun programs st =
      (programs.filterMap locals).foldlM (processProgram env platform platformConfig firstRun)
        st := by
  unfold monitorLoop
  induction programs with
  | nil => intro st; rfl
  | cons p ps ih =>
    intro st
    cases hl : locals p with
    | none =>
      simp only [List.foldlM_cons, hl, List.filterMap_cons]
      exact ih st
    | some c =>
      simp only [List.foldlM_cons, hl, List.filterMap_cons]
      cases hp : processProgram env platform platformConfig firstRun st c with
      | none => rfl
      | some st2 => exact ih st2

/-- The outcome of `GetProgram` when the query does not fail. -/
theorem GetProgram_cases (env : Env) (db : DB) (key : String) (h : env.getErr db.ops = false) :
    ((GetProgram env db key).2 = .error .ErrNoRows ∧ key ∉ db.keys) ∨
    ∃ row, (GetProgram env db key).2 = .ok row ∧ row ∈ db.rows ∧ row.Key = key := by
  cases hf : db.rows.find? (fun r => decide (r.Key = key)) with
  | none =>
    left
    refine ⟨by simp [GetProgram, h, hf], ?_⟩
    intro hk
    obtain ⟨r, hr, rfl⟩ := List.mem_map.1 hk
    have := List.find?_eq_none.1 hf r hr
    simp at this
  | some row =>
    right
    refine ⟨row, by simp [GetProgram, h, hf], List.mem_of_find?_eq_some hf, ?_⟩
    simpa using List.find?_some hf

/-- On a first run with the `NewProgram` flag off the loop body sends nothing. -/
theorem processProgram_firstRun_quiet (env : Env) (platform : String) (platformConfig : Platform)
    (hflag : platformConfig.Notifications.NewProgram = false) (hget : ∀ n, env.getErr n = false)
    (st : MonitorState) (c : Locals) :
    ∃ st', processProgram env platform platformConfig true st c = some st' ∧
      st'.world.sent = st.world.sent := by
  have hpol : ∀ (isNew : Bool) (a : Alert),
      ShouldSendNotification isNew a platformConfig true = false := by
    intro isNew a; simp [ShouldSendNotification, hflag]
  rcases GetProgram_cases env st.world.db c.key (hget _) with ⟨hmiss, _⟩ | ⟨row, hrow, _, _⟩
  · rw [processProgram_new env platform platformConfig true st c hmiss]
    refine ⟨_, rfl, ?_⟩
    cases hs : (SaveProgram env (GetProgram env st.world.db c.key).1
        (newProgram env platform c)).2 <;>
      simp [hpol, World.sent, List.filterMap_append]
  · rw [processProgram_found env platform platformConfig true st c row hrow]
    refine ⟨_, rfl, ?_⟩
    cases hc : (updateAlert env platform row c).2 <;>
      cases hs : (SaveProgram env (GetProgram env st.world.db c.key).1
        (newProgram env platform c)).2 <;>
      simp [hpol, World.sent, List.filterMap_append]

theorem loop_firstRun_quiet (env : Env) (platform : String) (platformConfig : Platform)
    (hflag : platformConfig.Notifications.NewProgram = false) (hget : ∀ n, env.getErr n = false)
    (cs : List Locals) :
    ∀ st, ∃ st', cs.foldlM (processProgram env platform platformConfig true) st = some st' ∧
      st'.world.sent = st.world.sent := by
  induction cs with
  | nil => intro st; exact ⟨st, rfl, rfl⟩
  | cons c cs ih =>
    intro st
    obtain ⟨st1, h1, hs1⟩ := processProgram_firstRun_quiet env platform platformConfig hflag hget
      st c
    obtain ⟨st2, h2, hs2⟩ := ih st1
    refine ⟨st2, ?_, hs2.trans hs1⟩
    simp [List.foldlM_cons, h1, h2]

/-- On a first run the removal check sends nothing, whatever the store does. -/
theorem checkRemovedPrograms_firstRun_quiet (env : Env) (platform : String)
    (currentKeys : List String) (w : World) (platformConfig : Platform) :
    (checkRemovedPrograms env platform currentKeys w platformConfig true).2.sent = w.sent := by
  have hstep : ∀ (acc : Nat × World) (k : String),
      (checkRemovedPrograms.step env currentKeys platformConfig true acc k).2.sent =
        acc.2.sent := by
    intro acc k
    unfold checkRemovedPrograms.step
    by_cases hc : contains currentKeys k = true
    · simp [hc]
    · simp only [hc, not_false_eq_true, if_true]
      cases hg : (GetProgram env acc.2.db k).2 with
      | error e => simp [World.sent]
      | ok row =>
        cases hd : (DeleteProgram env (GetProgram env acc.2.db k).1 k).2 <;>
          simp [ShouldSendNotification, World.sent, List.filterMap_append]
  have hfold : ∀ (ks : List String) (acc : Nat × World),
      (ks.foldl (checkRemovedPrograms.step env currentKeys platformConfig true) acc).2.sent =
        acc.2.sent := by
    intro ks
    induction ks with
    | nil => intro acc; rfl
    | cons k ks ih => intro acc; rw [List.foldl_cons, ih, hstep]
  unfold checkRemovedPrograms
  cases hk : (GetAllProgramKeys env w.db platform).2 with
  | error e => simp [hk, World.sent]
  | ok ks => simp only [hk]; rw [hfold]; simp [World.sent]

theorem content_stamp (env : Env) (platform : String) (c : Locals) (i : Nat) (t u : String) :
    Program.content { newProgram env platform c with ID := i, CreatedAt := t, UpdatedAt := u } =
      newProgram env platform c := rfl

theorem content_key (p : Program) : (Program.content p).Key = p.Key := rfl

theorem filter_key_ne_of_not_mem {rows : List Program} {k : String}
    (h : k ∉ rows.map (fun r => r.Key)) :
    rows.filter (fun r => decide (r.Key ≠ k)) = rows := by
  rw [List.filter_eq_self]
  intro r hr
  have : r.Key ≠ k := fun he => h (he ▸ List.mem_map.2 ⟨r, hr, rfl⟩)
  simpa using this

/-- One iteration on a record whose key is new to the store, with the read and
the write succeeding. -/
theorem processProgram_fresh (env : Env) (platform : String) (platformConfig : Platform)
    (firstRun : Bool) (hsave : ∀ n, env.saveErr n = false) (hget : ∀ n, env.getErr n = false)
    (st : MonitorState) (c : Locals) (hck : c.key ∉ st.world.db.keys) :
    ∃ st', processProgram env platform platformConfig firstRun st c = some st' ∧
      st'.world.db.rows = st.world.db.rows ++ [{ newProgram env platform c with
          ID := st.world.db.seq + 1, CreatedAt := env.now (st.world.db.ops + 1),
          UpdatedAt := env.now (st.world.db.ops + 1) }] ∧
      st'.currentKeys = st.currentKeys ++ [c.key] ∧
      st'.world.saved = st.world.saved ++ [newProgram env platform c] ∧
      st'.world.deleted = st.world.deleted ∧
      st'.programsCount = st.programsCount + 1 := by
  have hmiss : (GetProgram env st.world.db c.key).2 = .error .ErrNoRows := by
    rcases GetProgram_cases env st.world.db c.key (hget _) with ⟨h, _⟩ | ⟨row, _, hr, hk⟩
    · exact h
    · exact absurd (List.mem_map.2 ⟨row, hr, hk⟩) hck
  have hs : (SaveProgram env (GetProgram env st.world.db c.key).1
      (newProgram env platform c)).2 = false := by
    simp [SaveProgram, hsave]
  have hrows : (SaveProgram env (GetProgram env st.world.db c.key).1
      (newProgram env platform c)).1.rows =
      st.world.db.rows ++ [{ newProgram env platform c with
        ID := st.world.db.seq + 1, CreatedAt := env.now (st.world.db.ops + 1),
        UpdatedAt := env.now (st.world.db.ops + 1) }] := by
    rw [SaveProgram_rows _ _ _ (hsave _)]
    have : (GetProgram env st.world.db c.key).1.rows = st.world.db.rows := rfl
    rw [this]
    rw [show (newProgram env platform c).Key = c.key from rfl, filter_key_ne_of_not_mem hck]
    rfl
  have hstep := processProgram_new env platform platformConfig firstRun st c hmiss
  simp only [hs, Bool.false_eq_true, if_false] at hstep
  refine ⟨_, hstep, hrows, rfl, ?_, ?_, rfl⟩
  · cases hn : ShouldSendNotification true (newAlert env platform c) platformConfig firstRun <;>
      simp [World.saved, List.filterMap_append]
  · cases hn : ShouldSendNotification true (newAlert env platform c) platformConfig firstRun <;>
      simp [World.deleted, List.filterMap_append]

/-- The loop on records whose keys are new to the store and pairwise distinct,
with reads and writes succeeding: every record is saved. -/
theorem loop_fresh (env : Env) (platform : String) (platformConfig : Platform) (firstRun : Bool)
    (hsave : ∀ n, env.saveErr n = false) (hget : ∀ n, env.getErr n = false)
    (cs : List Locals) :
    ∀ st, (cs.map (fun c => c.key)).Nodup → (∀ c ∈ cs, c.key ∉ st.world.db.keys) →
      ∃ st', cs.foldlM (processProgram env platform platformConfig firstRun) st = some st' ∧
        st'.world.db.rows.map Program.content =
          st.world.db.rows.map Program.content ++ cs.map (newProgram env platform) ∧
        st'.currentKeys = st.currentKeys ++ cs.map (fun c => c.key) ∧
        st'.world.saved = st.world.saved ++ cs.map (newProgram env platform) ∧
        st'.world.deleted = st.world.deleted ∧
        st'.programsCount = st.programsCount + cs.length := by
  induction cs with
  | nil => intro st _ _; exact ⟨st, rfl, by simp, by simp, by simp, rfl, rfl⟩
  | cons c cs ih =>
    intro st hnd hfresh
    simp only [List.map_cons, List.nodup_cons] at hnd
    obtain ⟨st1, hst1, g1, g2, g3, g4, g5⟩ := processProgram_fresh env platform platformConfig
      firstRun hsave hget st c (hfresh c (List.mem_cons_self _ _))
    have hfresh1 : ∀ c2 ∈ cs, c2.key ∉ st1.world.db.keys := by
      intro c2 hc2
      show c2.key ∉ List.map (fun r => r.Key) st1.world.db.rows
      rw [g1, List.map_append, List.mem_append, not_or]
      refine ⟨hfresh c2 (List.mem_cons_of_mem _ hc2), ?_⟩
      simp only [List.map_cons, List.map_nil, List.mem_singleton]
      intro he
      exact hnd.1 (List.mem_map.2 ⟨c2, hc2, he⟩)
    obtain ⟨st', hst', h1, h2, h3, h4, h5⟩ := ih st1 hnd.2 hfresh1
    refine ⟨st', ?_, ?_, ?_, ?_, ?_, ?_⟩
    · simp only [List.foldlM_cons, hst1]
      exact hst'
    · rw [h1, g1]
      simp [content_stamp]
    · rw [h2, g2]; simp
    · rw [h3, g3]; simp
    · rw [h4, g4]
    · rw [h5, g5]; simp; omega

/-- Which records the three canonicalizers keep. -/
theorem locals_isSome (p : Result) :
    ((MonitorHackerOne.locals p).isSome ↔
      (p.Get "name").String_ ≠ "" ∧
        ((p.Get "url").String_ ≠ "" ∨ (p.Get "handle").String_ ≠ "")) ∧
    ((MonitorBugcrowd.locals p).isSome ↔
      (p.Get "name").String_ ≠ "" ∧ (p.Get "url").String_ ≠ "") ∧
    ((MonitorIntigriti.locals p).isSome ↔
      (p.Get "name").String_ ≠ "" ∧ (p.Get "url").String_ ≠ "") := by
  refine ⟨?_, ?_, ?_⟩
  · have happ : ∀ s : String, "https://hackerone.com/" ++ s ≠ "" := by
      intro s h
      have := congrArg String.length h
      simp [String.length_append] at this
      exact absurd this.1 (by decide)
    unfold MonitorHackerOne.locals
    by_cases hn : (p.Get "name").String_ = "" <;> by_cases hu : (p.Get "url").String_ = "" <;>
      by_cases hh : (p.Get "handle").String_ = "" <;> simp [hn, hu, hh, happ]
  · unfold MonitorBugcrowd.locals
    by_cases hn : (p.Get "name").String_ = "" <;> by_cases hu : (p.Get "url").String_ = "" <;>
      simp [hn, hu]
  · unfold MonitorIntigriti.locals
    by_cases hn : (p.Get "name").String_ = "" <;> by_cases hu : (p.Get "url").String_ = "" <;>
      simp [hn, hu]

/-- A whole cycle on an empty store with pairwise distinct keys and every store
call succeeding. -/
theorem monitorCycle_fresh (locals : Result → Option Locals) (env : Env) (platform : String)
    (platformConfig : Platform) (firstRun : Bool) (programs : List Result) (db : DB)
    (hp : platform ≠ "") (hempty : db.rows = [])
    (hsave : ∀ n, env.saveErr n = false) (hget : ∀ n, env.getErr n = false)
    (hkeys : ∀ n, env.keysErr n = false) (hdel : ∀ n, env.deleteErr n = false)
    (hnd : ((programs.filterMap locals).map (fun c => c.key)).Nodup) :
    ∃ r, monitorCycle locals env platform platformConfig firstRun programs
        { db := db, calls := [] } = some r ∧
      r.world.db.rows.map Program.content =
        (programs.filterMap locals).map (newProgram env platform) ∧
      r.world.saved = (programs.filterMap locals).map (newProgram env platform) ∧
      r.world.deleted = [] ∧ r.removedCount = 0 ∧
      r.programsCount = (programs.filterMap locals).length := by
  obtain ⟨st, hst, h1, h2, h3, h4, h5⟩ := loop_fresh env platform platformConfig firstRun hsave
    hget (programs.filterMap locals) (MonitorState.start { db := db, calls := [] }) hnd
    (by intro c _; simp [MonitorState.start, DB.keys, hempty])
  simp only [MonitorState.start, hempty, List.map_nil, List.nil_append, World.saved,
    World.deleted, List.filterMap_nil, Nat.zero_add] at h1 h2 h3 h4 h5
  have hkeysEq : st.world.db.keys = (programs.filterMap locals).map (fun c => c.key) := by
    have := congrArg (List.map (fun r : Program => r.Key)) h1
    simpa [DB.keys, List.map_map, Function.comp, content_key, newProgram] using this
  have hwf : st.world.db.WF := by
    unfold DB.WF; rw [hkeysEq]; exact hnd
  obtain ⟨c1, c2, c3, _⟩ := checkRemovedPrograms_ok env platform st.currentKeys st.world
    platformConfig firstRun hp hwf hkeys hget hdel
  have hnone : st.world.db.rows.filter
      (fun r => decide (r.Platform = platform ∧ r.Key ∉ st.currentKeys)) = [] := by
    rw [List.filter_eq_nil_iff]
    intro r hr
    have : r.Key ∈ st.currentKeys := by
      rw [h2, ← hkeysEq]; exact List.mem_map.2 ⟨r, hr, rfl⟩
    simp [this]
  rw [hnone] at c1 c2
  have hall : st.world.db.rows.filter
      (fun r => decide (¬ (r.Platform = platform ∧ r.Key ∉ st.currentKeys))) =
      st.world.db.rows := by
    rw [List.filter_eq_self]
    intro r hr
    have : r.Key ∈ st.currentKeys := by
      rw [h2, ← hkeysEq]; exact List.mem_map.2 ⟨r, hr, rfl⟩
    simp [this]
  rw [hall] at c3
  simp only [List.flatMap_nil, List.append_nil, List.length_nil] at c1 c2
  have hrun : monitorCycle locals env platform platformConfig firstRun programs
      { db := db, calls := [] } =
      some { world := (checkRemovedPrograms env platform st.currentKeys st.world platformConfig
               firstRun).2,
             programsCount := st.programsCount, newPrograms := st.newPrograms,
             updatedPrograms := st.updatedPrograms,
             removedCount := (checkRemovedPrograms env platform st.currentKeys st.world
               platformConfig firstRun).1 } := by
    unfold monitorCycle
    rw [monitorLoop_eq, hst]
  refine ⟨_, hrun, ?_, ?_, ?_, ?_, ?_⟩
  · simp only; rw [c3, h1]
  · simp only [World.saved]; rw [c2]; exact h3
  · simp only [World.deleted]; rw [c2]; exact h4
  · exact c1
  · exact h5

/-- A whole first-run cycle with the `NewProgram` flag off sends nothing. -/
theorem monitorCycle_firstRun_quiet (locals : Result → Option Locals) (env : Env)
    (platform : String) (platformConfig : Platform) (programs : List Result) (w : World)
    (hflag : platformConfig.Notifications.NewProgram = false)
    (hget : ∀ n, env.getErr n = false) :
    ∃ r, monitorCycle locals env platform platformConfig true programs w = some r ∧
      r.world.sent = w.sent := by
  obtain ⟨st, hst, hs⟩ := loop_firstRun_quiet env platform platformConfig hflag hget
    (programs.filterMap locals) (MonitorState.start w)
  have hrun : monitorCycle locals env platform platformConfig true programs w =
      some { world := (checkRemovedPrograms env platform st.currentKeys st.world platformConfig
               true).2,
             programsCount := st.programsCount, newPrograms := st.newPrograms,
             updatedPrograms := st.updatedPrograms,
             removedCount := (checkRemovedPrograms env platform st.currentKeys st.world
               platformConfig true).1 } := by
    unfold monitorCycle
    rw [monitorLoop_eq, hst]
  refine ⟨_, hrun, ?_⟩
  simp only
  rw [checkRemovedPrograms_firstRun_quiet, hs]
  rfl

/-- Counterexample to C1 as stated: a HackerOne snapshot of two records with
the same non-empty name and the same handle (so the same resolved URL and
key), the second with its own profile picture.  The second record's Program
carries that picture as logo, but the only Program saved and stored is the
first record's, with the default logo. -/
theorem C1_counterexample :
    (MonitorHackerOne.locals (Result.hackeroneRecord "")).map (fun c => (c.name, c.url, c.logo))
      = some ("Acme", "https://hackerone.com/acme",
          "https://asset.brandfetch.io/idhUp0l1vN/id7Vk4WqZc.png") ∧
    (MonitorHackerOne.locals (Result.hackeroneRecord "https://cdn.example/acme.png")).map
        (fun c => (c.name, c.url, c.logo))
      = some ("Acme", "https://hackerone.com/acme", "https://cdn.example/acme.png") ∧
    (MonitorHackerOne Env.ideal (Config.uniform (Platform.flags false true)) World.empty true
        (.ok (Body.of (.arr "" [Result.hackeroneRecord "",
          Result.hackeroneRecord "https://cdn.example/acme.png"])))).map
        (fun r => (r.world.saved.map (fun p => p.Logo), r.world.db.rows.map (fun p => p.Logo),
          r.world.sent))
      = some (["https://asset.brandfetch.io/idhUp0l1vN/id7Vk4WqZc.png"],
          ["https://asset.brandfetch.io/idhUp0l1vN/id7Vk4WqZc.png"], []) := by
  refine ⟨by decide, by decide, by decide⟩

/-- C1 (amended): on a first run with `NewProgram` off, an initially empty store
and every store call succeeding, each of the three monitors, given a body
whose slice has capacity at least 200, returns having called `SendAlert` zero
times, the removal check included, for any snapshot; and when the records it
does not skip (non-empty name and non-empty url, or for HackerOne a non-empty
handle) have pairwise distinct keys, every such record's Program is the row
stored under its key, the table has one row per record, and nothing is
deleted. -/
theorem C1_first_run_suppression (env : Env) (config : Config) (db : DB) (cap : Nat)
    (body : Result) (hcap : 200 ≤ cap) (hempty : db.rows = [])
    (hsave : ∀ n, env.saveErr n = false) (hget : ∀ n, env.getErr n = false)
    (hkeys : ∀ n, env.keysErr n = false) (hdel : ∀ n, env.deleteErr n = false) :
    ∀ m ∈ platformMonitors,
      (∀ p, (m.locals p).isSome ↔
        (p.Get "name").String_ ≠ "" ∧
          ((p.Get "url").String_ ≠ "" ∨
            (m.name = "hackerone" ∧ (p.Get "handle").String_ ≠ ""))) ∧
      ((config.platform m.name).Notifications.NewProgram = false →
        ∃ r, m.run env config { db := db, calls := [] } true
            (.ok { capacity := cap, json := body }) = some r ∧
          r.world.sent = [] ∧
          (((m.records body).map (fun c => c.key)).Nodup →
            (∀ c ∈ m.records body, ∃ row,
              r.world.db.rows.find? (fun p => decide (p.Key = c.key)) = some row ∧
              row.content = newProgram env m.name c) ∧
            r.world.db.rows.length = (m.records body).length ∧
            r.world.saved = (m.records body).map (newProgram env m.name) ∧
            r.world.deleted = [])) := by
  intro m hm
  constructor
  · intro p
    obtain ⟨h1, h2, h3⟩ := locals_isSome p
    simp only [platformMonitors, List.mem_cons, List.mem_singleton, List.not_mem_nil,
      or_false] at hm
    rcases hm with rfl | rfl | rfl
    · simpa using h1
    · simpa using h2
    · simpa using h3
  · intro hflag
    obtain ⟨hname, _, hrun⟩ := platformMonitors_run m hm env config { db := db, calls := [] } true
    obtain ⟨r, hr, hsent⟩ := monitorCycle_firstRun_quiet m.locals env m.name
      (config.platform m.name) (m.programs body) { db := db, calls := [] } hflag hget
    refine ⟨r, (hrun cap body hcap).trans hr, hsent, ?_⟩
    intro hnd
    obtain ⟨r2, hr2, g1, g2, g3, _, _⟩ := monitorCycle_fresh m.locals env m.name
      (config.platform m.name) true (m.programs body) db hname hempty hsave hget hkeys hdel hnd
    have hrr : r2 = r := Option.some.inj (hr2.symm.trans hr)
    subst hrr
    have hkeysEq : (r2.world.db.rows.map (fun p => p.Key)) =
        (m.records body).map (fun c => c.key) := by
      have := congrArg (List.map (fun r : Program => r.Key)) g1
      simpa [List.map_map, Function.comp, content_key, newProgram, PlatformMonitor.records]
        using this
    refine ⟨?_, ?_, g2, g3⟩
    · intro c hc
      have : newProgram env m.name c ∈ r2.world.db.rows.map Program.content := by
        rw [g1]; exact List.mem_map.2 ⟨c, hc, rfl⟩
      obtain ⟨row, hrow, hcont⟩ := List.mem_map.1 this
      have hk : row.Key = c.key := by
        rw [← content_key row, hcont]; rfl
      refine ⟨row, ?_, hcont⟩
      rw [← hk]
      exact find?_key_of_mem (by rw [hkeysEq]; exact hnd) hrow
    · have := congrArg List.length g1
      simpa [PlatformMonitor.records] using this

/-- Witness of C1 (amended): a first HackerOne run on one record. -/
theorem C1_first_run_suppression_witness :
    ∃ r, MonitorHackerOne Env.ideal (Config.uniform (Platform.flags false true)) World.empty true
        (.ok (Body.of (.arr "" [Result.hackeroneRecord ""]))) = some r ∧
      r.world.sent = [] ∧ r.world.db.rows.length = 1 :=
  (((C1_first_run_suppression Env.ideal (Config.uniform (Platform.flags false true))
      World.empty.db 512 (.arr "" [Result.hackeroneRecord ""]) (by decide) rfl (fun _ => rfl)
      (fun _ => rfl)
      (fun _ => rfl) (fun _ => rfl)
      { run := MonitorHackerOne, name := "hackerone", programs := MonitorHackerOne.programs,
        locals := MonitorHackerOne.locals }
      (List.mem_cons_self _ _)).2 rfl).imp
    (fun _ h => ⟨h.1, h.2.1, (h.2.2 (by decide)).2.1⟩))


/-- One iteration on a record whose Program the store already holds. -/
theorem processProgram_noop (env : Env) (platform : String) (platformConfig : Platform)
    (firstRun : Bool) (hget : ∀ n, env.getErr n = false) (st : MonitorState) (c : Locals)
    (hwf : st.world.db.WF)
    (hrow : newProgram env platform c ∈ st.world.db.rows.map Program.content)
    (hscope : ScopeMap.Equiv (DeserializeScope env (SerializeScope env c.scope)) c.scope)
    (hreward : ∀ r, c.reward = some r → DeserializeReward env (SerializeReward env r) = r) :
    ∃ st', processProgram env platform platformConfig firstRun st c = some st' ∧
      st'.world.calls = st.world.calls ∧ st'.world.db.rows = st.world.db.rows ∧
      st'.currentKeys = st.currentKeys ++ [c.key] ∧
      st'.newPrograms = st.newPrograms ∧ st'.updatedPrograms = st.updatedPrograms := by
  obtain ⟨row, hmem, hcont⟩ := List.mem_map.1 hrow
  have hk : row.Key = c.key := by rw [← content_key row, hcont]; rfl
  have hfind := find?_key_of_mem hwf hmem
  rw [hk] at hfind
  have hfound : (GetProgram env st.world.db c.key).2 = .ok row := by
    simp [GetProgram, hget, hfind]
  have htype : row.Type_ = c.programType := by
    have := congrArg Program.Type_ hcont; exact this
  have hsc : row.Scope = SerializeScope env c.scope := by
    have := congrArg Program.Scope hcont; exact this
  have hrw : row.Reward = (newProgram env platform c).Reward := by
    have := congrArg Program.Reward hcont; exact this
  have hkeys : ∀ id, id ∈ ScopeMap.keys (DeserializeScope env (SerializeScope env c.scope)) ↔
      id ∈ ScopeMap.keys c.scope := by
    intro id
    rw [← ScopeMap.get?_isSome_iff, ← ScopeMap.get?_isSome_iff, hscope id]
  have hnd : ¬ updateDelta env row c := by
    unfold updateDelta
    rw [hsc]
    simp only [htype, ne_eq, not_true_eq_false, false_or, not_or, not_not, not_exists, not_and]
    refine ⟨?_, ?_, ?_⟩
    · show CompareScopes.added _ _ = []
      rw [CompareScopes.added_eq_nil]
      exact fun id hid => (hkeys id).2 hid
    · show CompareScopes.removed _ _ = []
      rw [CompareScopes.removed_eq_nil]
      exact fun id hid => (hkeys id).1 hid
    · intro r hr
      have : row.Reward = SerializeReward env r := by
        rw [hrw]; simp [newProgram, hr]
      rw [this, hreward r hr]
      simp
  have hno : (updateAlert env platform row c).2 = false := by
    cases hc : (updateAlert env platform row c).2
    · rfl
    · exact absurd ((updateAlert_hasChanged env platform row c).1 hc) hnd
  rw [processProgram_found env platform platformConfig firstRun st c row hfound]
  refine ⟨_, rfl, ?_, ?_, ?_, ?_, ?_⟩ <;> simp [hno, GetProgram]

theorem loop_noop (env : Env) (platform : String) (platformConfig : Platform)
    (firstRun : Bool) (hget : ∀ n, env.getErr n = false) (cs : List Locals)
    (hrt : ∀ c ∈ cs,
      ScopeMap.Equiv (DeserializeScope env (SerializeScope env c.scope)) c.scope ∧
      ∀ r, c.reward = some r → DeserializeReward env (SerializeReward env r) = r) :
    ∀ st, st.world.db.WF →
      (∀ c ∈ cs, newProgram env platform c ∈ st.world.db.rows.map Program.content) →
      ∃ st', cs.foldlM (processProgram env platform platformConfig firstRun) st = some st' ∧
        st'.world.calls = st.world.calls ∧ st'.world.db.rows = st.world.db.rows ∧
        st'.currentKeys = st.currentKeys ++ cs.map (fun c => c.key) ∧
        st'.newPrograms = st.newPrograms ∧ st'.updatedPrograms = st.updatedPrograms := by
  induction cs with
  | nil => intro st _ _; exact ⟨st, rfl, rfl, rfl, by simp, rfl, rfl⟩
  | cons c cs ih =>
    intro st hwf hrows
    obtain ⟨st1, hst1, g1, g2, g3, g4, g5⟩ := processProgram_noop env platform platformConfig
      firstRun hget st c hwf (hrows c (List.mem_cons_self _ _))
      (hrt c (List.mem_cons_self _ _)).1 (hrt c (List.mem_cons_self _ _)).2
    obtain ⟨st', hst', h1, h2, h3, h4, h5⟩ := ih
      (fun c2 hc2 => hrt c2 (List.mem_cons_of_mem _ hc2)) st1
      (by unfold DB.WF DB.keys; rw [g2]; exact hwf)
      (by intro c2 hc2; rw [g2]; exact hrows c2 (List.mem_cons_of_mem _ hc2))
    refine ⟨st', ?_, h1.trans g1, h2.trans g2, ?_, h4.trans g4, h5.trans g5⟩
    · simp only [List.foldlM_cons, hst1]
      exact hst'
    · rw [h3, g3]; simp

/-- The removal check when every stored key of the platform is current. -/
theorem checkRemovedPrograms_noop (env : Env) (platform : String) (currentKeys : List String)
    (w : World) (platformConfig : Platform) (firstRun : Bool) (hp : platform ≠ "")
    (hall : ∀ row ∈ w.db.rows, row.Platform = platform → row.Key ∈ currentKeys) :
    (checkRemovedPrograms env platform currentKeys w platformConfig firstRun).1 = 0 ∧
    (checkRemovedPrograms env platform currentKeys w platformConfig firstRun).2.calls = w.calls ∧
    (checkRemovedPrograms env platform currentKeys w platformConfig firstRun).2.db.rows =
      w.db.rows := by
  have hfold : ∀ (ks : List String), (∀ k ∈ ks, k ∈ currentKeys) → ∀ acc : Nat × World,
      ks.foldl (checkRemovedPrograms.step env currentKeys platformConfig firstRun) acc = acc := by
    intro ks
    induction ks with
    | nil => intro _ acc; rfl
    | cons k ks ih =>
      intro hks acc
      have hk : contains currentKeys k = true :=
        (contains_iff _ _).2 (hks k (List.mem_cons_self _ _))
      rw [List.foldl_cons]
      have : checkRemovedPrograms.step env currentKeys platformConfig firstRun acc k = acc := by
        simp [checkRemovedPrograms.step, hk]
      rw [this]
      exact ih (fun k2 hk2 => hks k2 (List.mem_cons_of_mem _ hk2)) acc
  unfold checkRemovedPrograms
  cases hk : env.keysErr w.db.ops
  · simp only [GetAllProgramKeys, hk, hp, ne_eq, not_false_eq_true, if_true, Bool.false_eq_true,
      if_false]
    rw [hfold]
    · exact ⟨rfl, rfl, rfl⟩
    · intro k hk
      obtain ⟨row, hrow, rfl⟩ := List.mem_map.1 hk
      have := List.mem_filter.1 hrow
      exact hall row this.1 (by simpa using this.2)
  · simp [GetAllProgramKeys, hk]

/-- C4: for each of the three monitors, when the store holds for every record
of the snapshot exactly the Program the monitor builds from it and no other
record of the platform, with reads succeeding, `encoding/json` giving back the
scope map and the reward it serialized, and a body whose slice has capacity at
least 200, the monitor returns having made no call at all: `SaveProgram`,
`DeleteProgram` and `SendAlert` are each called zero times, the table is
unchanged and the new, updated and removed tallies are zero. -/
theorem C4_noop_idempotence (env : Env) (config : Config) (w : World) (firstRun : Bool)
    (cap : Nat) (body : Result) (hcap : 200 ≤ cap) (hget : ∀ n, env.getErr n = false)
    (hwf : w.db.WF) :
    ∀ m ∈ platformMonitors,
      (∀ c ∈ m.records body, newProgram env m.name c ∈ w.db.rows.map Program.content) →
      (∀ row ∈ w.db.rows, row.Platform = m.name →
        row.Key ∈ (m.records body).map (fun c => c.key)) →
      (∀ c ∈ m.records body,
        ScopeMap.Equiv (DeserializeScope env (SerializeScope env c.scope)) c.scope ∧
        ∀ r, c.reward = some r → DeserializeReward env (SerializeReward env r) = r) →
      ∃ r, m.run env config w firstRun (.ok { capacity := cap, json := body }) = some r ∧
        r.world.calls = w.calls ∧
        r.world.saved = w.saved ∧ r.world.deleted = w.deleted ∧ r.world.sent = w.sent ∧
        r.world.db.rows = w.db.rows ∧
        r.newPrograms = 0 ∧ r.updatedPrograms = 0 ∧ r.removedCount = 0 := by
  intro m hm hrows hall hrt
  obtain ⟨hname, _, hrun⟩ := platformMonitors_run m hm env config w firstRun
  obtain ⟨st, hst, h1, h2, h3, h4, h5⟩ := loop_noop env m.name (config.platform m.name) firstRun
    hget (m.records body) hrt (MonitorState.start w) hwf hrows
  obtain ⟨c1, c2, c3⟩ := checkRemovedPrograms_noop env m.name st.currentKeys st.world
    (config.platform m.name) firstRun hname
    (by
      intro row hrow hp
      rw [h3]
      rw [h2] at hrow
      simpa [MonitorState.start] using hall row hrow hp)
  have hcycle : monitorCycle m.locals env m.name (config.platform m.name) firstRun
      (m.programs body) w =
      some { world := (checkRemovedPrograms env m.name st.currentKeys st.world
               (config.platform m.name) firstRun).2,
             programsCount := st.programsCount, newPrograms := st.newPrograms,
             updatedPrograms := st.updatedPrograms,
             removedCount := (checkRemovedPrograms env m.name st.currentKeys st.world
               (config.platform m.name) firstRun).1 } := by
    unfold monitorCycle
    rw [monitorLoop_eq]
    unfold PlatformMonitor.records at hst
    rw [hst]
  have hcalls : (checkRemovedPrograms env m.name st.currentKeys st.world
      (config.platform m.name) firstRun).2.calls = w.calls := c2.trans h1
  refine ⟨_, (hrun cap body hcap).trans hcycle, hcalls, ?_, ?_, ?_, c3.trans h2, h4, h5, c1⟩
  · simp only [World.saved, hcalls]
  · simp only [World.deleted, hcalls]
  · simp only [World.sent, hcalls]

/-- Witness of C4: the Intigriti monitor run on the one-record snapshot whose
Program the store holds. -/
theorem C4_noop_idempotence_witness :
    ∃ r, MonitorIntigriti Env.ideal Config.demo
        (World.stored ((MonitorIntigriti.locals (Result.intigritiRecord "a.example.com")).toList.map
          (newProgram Env.ideal "intigriti")))
        false (.ok (Body.of (.arr "" [Result.intigritiRecord "a.example.com"]))) = some r ∧
      r.world.calls = [] :=
  (C4_noop_idempotence Env.ideal Config.demo
      (World.stored ((MonitorIntigriti.locals (Result.intigritiRecord "a.example.com")).toList.map
        (newProgram Env.ideal "intigriti")))
      false 512 (.arr "" [Result.intigritiRecord "a.example.com"]) (by decide) (fun _ => rfl)
      (by decide)
      { run := MonitorIntigriti, name := "intigriti", programs := Result.Array,
        locals := MonitorIntigriti.locals }
      (by simp [platformMonitors])
      (by decide) (by decide)
      (by
        intro c hc
        have hrec : c.scope = [("inscope-0", "a.example.com (url)")] ∧ c.reward = none := by
          simp only [PlatformMonitor.records, Result.Array, Result.intigritiRecord,
            List.filterMap_cons, List.filterMap_nil] at hc
          have h0 : MonitorIntigriti.locals (Result.intigritiRecord "a.example.com") =
              some ((MonitorIntigriti.locals (Result.intigritiRecord "a.example.com")).getD
                Locals.acme) := by rfl
          unfold Result.intigritiRecord at h0
          rw [h0] at hc
          simp only [List.mem_singleton] at hc
          subst hc
          exact ⟨by decide, by rfl⟩
        refine ⟨?_, ?_⟩
        · rw [hrec.1]
          have : DeserializeScope Env.ideal
              (SerializeScope Env.ideal [("inscope-0", "a.example.com (url)")]) =
              [("inscope-0", "a.example.com (url)")] := by decide
          rw [this]
          exact fun _ => rfl
        · intro r hr
          rw [hrec.2] at hr
          cases hr)).imp
    (fun _ h => ⟨h.1, h.2.1⟩)


/-! # Notification policy after the first run -/

/-- C14: outside a first run, for an alert with `IsRemoved = true`,
`ShouldSendNotification` returns the `RemovedProgram` flag, for either value of
`isNew`, whatever the other flags are and whatever else the alert carries. -/
theorem C14_removed_policy :
    (∀ (isNew : Bool) (program : Program) (aNew : Bool) (newScope removedScope : List String)
        (changedScope : List ScopeChange) (newType : String) (reward : Option Reward)
        (cfg : Platform),
      ShouldSendNotification isNew
        { Program := program, IsNew := aNew, IsRemoved := true, NewScope := newScope,
          RemovedScope := removedScope, ChangedScope := changedScope, NewType := newType,
          Reward := reward } cfg false = cfg.Notifications.RemovedProgram) ∧
    (∀ (program : Program) (cfg : Platform),
      ShouldSendNotification true (removalAlert program) cfg false =
        cfg.Notifications.RemovedProgram ∧
      ShouldSendNotification false (removalAlert program) cfg false =
        cfg.Notifications.RemovedProgram) := by
  constructor
  · intros; simp [ShouldSendNotification]
  · intro program cfg
    constructor <;> simp [ShouldSendNotification, removalAlert, baseAlert]

/-- C15: outside a first run, with `isNew = true` and an alert that is not a
removal, `ShouldSendNotification` returns the `NewProgram` flag, whatever scope,
type and reward the alert carries. -/
theorem C15_new_policy :
    ∀ (program : Program) (aNew : Bool) (newScope removedScope : List String)
      (changedScope : List ScopeChange) (newType : String) (reward : Option Reward)
      (cfg : Platform),
      ShouldSendNotification true
        { Program := program, IsNew := aNew, IsRemoved := false, NewScope := newScope,
          RemovedScope := removedScope, ChangedScope := changedScope, NewType := newType,
          Reward := reward } cfg false = cfg.Notifications.NewProgram := by
  intros; simp [ShouldSendNotification]

/-- C16: outside a first run, with `isNew = false` and an alert that is not a
removal, `ShouldSendNotification` is true exactly when the alert has a
non-empty `NewScope`, `RemovedScope` or `ChangedScope`, a `NewType` other than
the empty string, or a `Reward`; the platform config does not enter the
result. -/
theorem C16_update_policy :
    ∀ (program : Program) (aNew : Bool) (newScope removedScope : List String)
      (changedScope : List ScopeChange) (newType : String) (reward : Option Reward)
      (cfg cfg2 : Platform),
      (ShouldSendNotification false
        { Program := program, IsNew := aNew, IsRemoved := false, NewScope := newScope,
          RemovedScope := removedScope, ChangedScope := changedScope, NewType := newType,
          Reward := reward } cfg false = true ↔
        (newScope ≠ [] ∨ removedScope ≠ [] ∨ changedScope ≠ [] ∨ newType ≠ "" ∨
          reward ≠ none)) ∧
      ShouldSendNotification false
        { Program := program, IsNew := aNew, IsRemoved := false, NewScope := newScope,
          RemovedScope := removedScope, ChangedScope := changedScope, NewType := newType,
          Reward := reward } cfg false =
      ShouldSendNotification false
        { Program := program, IsNew := aNew, IsRemoved := false, NewScope := newScope,
          RemovedScope := removedScope, ChangedScope := changedScope, NewType := newType,
          Reward := reward } cfg2 false := by
  intro program aNew newScope removedScope changedScope newType reward cfg cfg2
  constructor
  · simp only [ShouldSendNotification, Bool.false_eq_true, if_false, Bool.or_eq_true,
      decide_eq_true_eq, List.length_pos, ne_eq, Option.isSome_iff_ne_none]
    tauto
  · simp [ShouldSendNotification]

/-! # Fetch failure -/

/-- C18: when `FetchData` returns an error, each of the three monitors returns
at once: the table and the call log are as before (no `SaveProgram`, no
`DeleteProgram`, no `SendAlert`, no stored program treated as removed) and
every tally is zero. -/
theorem C18_fetch_failure :
    ∀ (env : Env) (config : Config) (w : World) (firstRun : Bool) (e : String),
      MonitorHackerOne env config w firstRun (.error e) =
        some { world := w, programsCount := 0, newPrograms := 0, updatedPrograms := 0,
               removedCount := 0 } ∧
      MonitorBugcrowd env config w firstRun (.error e) =
        some { world := w, programsCount := 0, newPrograms := 0, updatedPrograms := 0,
               removedCount := 0 } ∧
      MonitorIntigriti env config w firstRun (.error e) =
        some { world := w, programsCount := 0, newPrograms := 0, updatedPrograms := 0,
               removedCount := 0 } := by
  intros
  exact ⟨rfl, rfl, rfl⟩


/-! # Identity keyer -/

theorem md5.leBytes_length (n x : Nat) : (md5.leBytes n x).length = n := by
  induction n generalizing x with
  | zero => rfl
  | succ n ih => simp [md5.leBytes, ih]

theorem md5.Sum_length (msg : List Nat) : (md5.Sum msg).length = 16 := by
  simp [md5.Sum, md5.leBytes_length]

theorem hexDigit_mem (n : Nat) : hexDigit n ∈ "0123456789abcdef".data := by
  unfold hexDigit
  by_cases h : n < "0123456789abcdef".data.length
  · rw [List.getD_eq_getElem _ _ h]
    exact List.getElem_mem h
  · rw [List.getD_eq_default _ _ (Nat.le_of_not_lt h)]
    decide

theorem hexEncodeToString_length (bs : List Nat) :
    (hexEncodeToString bs).length = 2 * bs.length := by
  unfold hexEncodeToString
  rw [String.length_mk]
  induction bs with
  | nil => rfl
  | cons b bs ih => simp [List.flatMap_cons, ih]; omega

theorem hexEncodeToString_chars (bs : List Nat) :
    ∀ c ∈ (hexEncodeToString bs).data, c ∈ "0123456789abcdef".data := by
  intro c hc
  simp only [hexEncodeToString, List.mem_flatMap, List.mem_cons, List.mem_singleton,
    List.not_mem_nil, or_false] at hc
  obtain ⟨b, _, h | h⟩ := hc
  · rw [h]; exact hexDigit_mem _
  · rw [h]; exact hexDigit_mem _

/-- The bytes of one code point are its UTF-8 encoding (RFC 3629). -/
theorem utf8Char_spec (c : Char) :
    (c.toNat < 0x80 → utf8Char c = [c.toNat]) ∧
    (0x80 ≤ c.toNat → c.toNat < 0x800 →
      ∃ a b, utf8Char c = [a, b] ∧ 0xC0 ≤ a ∧ a < 0xE0 ∧ 0x80 ≤ b ∧ b < 0xC0 ∧
        c.toNat = (a - 0xC0) * 64 + (b - 0x80)) ∧
    (0x800 ≤ c.toNat → c.toNat < 0x10000 →
      ∃ a b d, utf8Char c = [a, b, d] ∧ 0xE0 ≤ a ∧ a < 0xF0 ∧ 0x80 ≤ b ∧ b < 0xC0 ∧
        0x80 ≤ d ∧ d < 0xC0 ∧
        c.toNat = (a - 0xE0) * 4096 + (b - 0x80) * 64 + (d - 0x80)) ∧
    (0x10000 ≤ c.toNat →
      ∃ a b d e, utf8Char c = [a, b, d, e] ∧ 0xF0 ≤ a ∧ a < 0xF8 ∧ 0x80 ≤ b ∧ b < 0xC0 ∧
        0x80 ≤ d ∧ d < 0xC0 ∧ 0x80 ≤ e ∧ e < 0xC0 ∧
        c.toNat = (a - 0xF0) * 262144 + (b - 0x80) * 4096 + (d - 0x80) * 64 + (e - 0x80)) := by
  have hv : c.toNat < 0x110000 := by
    have := c.valid
    simp only [Char.toNat]
    rcases this with h | h
    · exact Nat.lt_trans h (by decide)
    · exact h.2
  refine ⟨?_, ?_, ?_, ?_⟩
  · intro h
    simp [utf8Char, h]
  · intro h1 h2
    refine ⟨0xC0 + c.toNat / 64, 0x80 + c.toNat % 64, ?_, ?_⟩
    · have : ¬ c.toNat < 0x80 := by omega
      simp [utf8Char, this, h2]
    · omega
  · intro h1 h2
    refine ⟨0xE0 + c.toNat / 4096, 0x80 + (c.toNat / 64) % 64, 0x80 + c.toNat % 64, ?_, ?_⟩
    · have : ¬ c.toNat < 0x80 := by omega
      have : ¬ c.toNat < 0x800 := by omega
      simp [utf8Char, *]
    · omega
  · intro h1
    refine ⟨0xF0 + c.toNat / 262144, 0x80 + (c.toNat / 4096) % 64, 0x80 + (c.toNat / 64) % 64,
      0x80 + c.toNat % 64, ?_, ?_⟩
    · have : ¬ c.toNat < 0x80 := by omega
      have : ¬ c.toNat < 0x800 := by omega
      have : ¬ c.toNat < 0x10000 := by omega
      simp [utf8Char, *]
    · omega

/-- C11: `GenerateProgramKey(name, url)` is the hex encoding of the MD5 digest of
the one string `name ++ "|" ++ url` and of nothing else; it has 32 characters,
each one of `0`-`9`, `a`-`f`.  The string is hashed as its UTF-8 bytes, character
by character: one byte below `0x80`, and for the larger code points a lead
byte and one, two or three continuation bytes that carry the code point.  The
digest function is MD5: it gives the digests of the RFC 1321 test suite and of
the inputs of 55, 56 and 64 bytes around the padding boundary, and the keys of
names and URLs with characters of two, three and four bytes are the ones
`md5sum` gives. -/
theorem C11_key_format :
    (∀ name url : String,
      GenerateProgramKey name url =
        hexEncodeToString (md5.Sum (bytesOf (name ++ "|" ++ url))) ∧
      (GenerateProgramKey name url).length = 32 ∧
      (∀ c ∈ (GenerateProgramKey name url).data, c ∈ "0123456789abcdef".data)) ∧
    (∀ s t : String, bytesOf (s ++ t) = bytesOf s ++ bytesOf t) ∧
    (∀ c : Char,
      (c.toNat < 0x80 → utf8Char c = [c.toNat]) ∧
      (0x80 ≤ c.toNat → c.toNat < 0x800 →
        ∃ a b, utf8Char c = [a, b] ∧ 0xC0 ≤ a ∧ a < 0xE0 ∧ 0x80 ≤ b ∧ b < 0xC0 ∧
          c.toNat = (a - 0xC0) * 64 + (b - 0x80)) ∧
      (0x800 ≤ c.toNat → c.toNat < 0x10000 →
        ∃ a b d, utf8Char c = [a, b, d] ∧ 0xE0 ≤ a ∧ a < 0xF0 ∧ 0x80 ≤ b ∧ b < 0xC0 ∧
          0x80 ≤ d ∧ d < 0xC0 ∧
          c.toNat = (a - 0xE0) * 4096 + (b - 0x80) * 64 + (d - 0x80)) ∧
      (0x10000 ≤ c.toNat →
        ∃ a b d e, utf8Char c = [a, b, d, e] ∧ 0xF0 ≤ a ∧ a < 0xF8 ∧ 0x80 ≤ b ∧ b < 0xC0 ∧
          0x80 ≤ d ∧ d < 0xC0 ∧ 0x80 ≤ e ∧ e < 0xC0 ∧
          c.toNat = (a - 0xF0) * 262144 + (b - 0x80) * 4096 + (d - 0x80) * 64 +
            (e - 0x80))) ∧
    hexEncodeToString (md5.Sum (bytesOf "")) = "d41d8cd98f00b204e9800998ecf8427e" ∧
    hexEncodeToString (md5.Sum (bytesOf "a")) = "0cc175b9c0f1b6a831c399e269772661" ∧
    hexEncodeToString (md5.Sum (bytesOf "abc")) = "900150983cd24fb0d6963f7d28e17f72" ∧
    hexEncodeToString (md5.Sum (bytesOf "message digest")) = "f96b697d7cb7938d525a2f31aaf161d0" ∧
    hexEncodeToString (md5.Sum (bytesOf
      "12345678901234567890123456789012345678901234567890123456789012345678901234567890"))
      = "57edf4a22be3c955ac49da2e2107b67a" ∧
    GenerateProgramKey "Acme" "https://hackerone.com/acme" = "5fc713b6948afa2ea80585e9dd820c72" ∧
    hexEncodeToString (md5.Sum (bytesOf "abcdefghijklmnopqrstuvwxyz"))
      = "c3fcd3d76192e4007dfb496cca67e13b" ∧
    hexEncodeToString (md5.Sum (bytesOf
      "ABCDEFGHIJKLMNOPQRSTUVWXYZabcdefghijklmnopqrstuvwxyz0123456789"))
      = "d174ab98d277d9f5a5611c2c9f419d9f" ∧
    hexEncodeToString (md5.Sum (List.replicate 55 97)) = "ef1772b6dff9a122358552954ad0df65" ∧
    hexEncodeToString (md5.Sum (List.replicate 56 97)) = "3b0c8ac703f828b04c6c197006d17218" ∧
    hexEncodeToString (md5.Sum (List.replicate 64 97)) = "014842d480b571495a4a0363793f7367" ∧
    bytesOf (String.mk [Char.ofNat 0x80, Char.ofNat 0x7FF, Char.ofNat 0x800, Char.ofNat 0xFFFF,
      Char.ofNat 0x10000, Char.ofNat 0x10FFFF]) =
      [194, 128, 223, 191, 224, 160, 128, 239, 191, 191, 240, 144, 128, 128, 244, 143, 191, 191] ∧
    GenerateProgramKey "Café" "https://example.com/café" = "57a1e2ba99dc025b702a8705fe9f5eac" ∧
    GenerateProgramKey "日本語" "https://例え.jp/" = "4c0a02b99a55ef850ea724e6e031675d" ∧
    GenerateProgramKey "😀 Bounty" "https://example.com/😀" =
      "633cc82632e386252f3657d4c9de0ec9" := by
  refine ⟨fun name url => ⟨rfl, ?_, ?_⟩,
    fun s t => by simp [bytesOf, String.data_append], utf8Char_spec,
    by decide, by decide, by decide, by decide, by decide, by decide, by decide, by decide,
    by decide, by decide, by decide, by decide, by decide, by decide, by decide⟩
  · show (hexEncodeToString _).length = 32
    rw [hexEncodeToString_length, md5.Sum_length]
  · exact hexEncodeToString_chars _

/-- Counterexample to C12 as stated: two different pairs whose texts
`name ++ "|" ++ url` coincide have the same key. -/
theorem C12_counterexample :
    (("a|b", "c") : String × String) ≠ ("a", "b|c") ∧
    GenerateProgramKey "a|b" "c" = GenerateProgramKey "a" "b|c" := by
  decide

/-- C12 (amended): the key is a function of the text `name ++ "|" ++ url`: equal
pairs give the same key, and so do two pairs with the same text; nothing is
normalized, so a change of letter case or an added blank in the name, or a
trailing slash in the url, gives another key on the examples below. -/
theorem C12_key_identity :
    (∀ name url name2 url2 : String,
      ((name, url) = (name2, url2) → GenerateProgramKey name url = GenerateProgramKey name2 url2) ∧
      (name ++ "|" ++ url = name2 ++ "|" ++ url2 →
        GenerateProgramKey name url = GenerateProgramKey name2 url2) ∧
      (GenerateProgramKey name url ≠ GenerateProgramKey name2 url2 →
        (name, url) ≠ (name2, url2))) ∧
    GenerateProgramKey "Acme" "https://hackerone.com/acme" ≠
      GenerateProgramKey "acme" "https://hackerone.com/acme" ∧
    GenerateProgramKey "Acme" "https://hackerone.com/acme" ≠
      GenerateProgramKey "Acme " "https://hackerone.com/acme" ∧
    GenerateProgramKey "Acme" "https://hackerone.com/acme" ≠
      GenerateProgramKey "Acme" "https://hackerone.com/acme/" := by
  refine ⟨fun name url name2 url2 => ⟨?_, ?_, ?_⟩, by decide, by decide, by decide⟩
  · intro h
    cases h
    rfl
  · intro h
    unfold GenerateProgramKey
    rw [h]
  · intro h he
    cases he
    exact h rfl

/-- Witness of C12 (amended): two pairs with the same text. -/
theorem C12_key_identity_witness :
    GenerateProgramKey "x|y" "z" = GenerateProgramKey "x" "y|z" :=
  (C12_key_identity.1 "x|y" "z" "x" "y|z").2.1 (by decide)


/-! # URL resolution -/

/-- C19 (the code at the failing input): the Bugcrowd record with name `Acme`,
an empty `url` and `briefUrl = /acme` is skipped, as is every Bugcrowd record
with an empty `url`, whatever its `briefUrl`: the test of line 34 comes before
the fallback of lines 40-45.  With a non-empty `url` the record is kept with
that URL.  A HackerOne record with a name, an empty `url` and the handle `h` is
kept with the URL `https://hackerone.com/` followed by `h`. -/
theorem C19_url_resolution :
    (MonitorBugcrowd.locals (Result.bugcrowdRecord "" "/acme")).isSome = false ∧
    ((Result.bugcrowdRecord "" "/acme").Get "name").String_ = "Acme" ∧
    ((Result.bugcrowdRecord "" "/acme").Get "briefUrl").String_ = "/acme" ∧
    (∀ p : Result, (p.Get "url").String_ = "" → (MonitorBugcrowd.locals p).isSome = false) ∧
    (MonitorBugcrowd.locals (Result.bugcrowdRecord "https://bugcrowd.com/acme" "/acme")).map
        (fun c => c.url) = some "https://bugcrowd.com/acme" ∧
    (∀ p : Result, (p.Get "name").String_ ≠ "" → (p.Get "url").String_ = "" →
      (p.Get "handle").String_ ≠ "" →
      (MonitorHackerOne.locals p).map (fun c => c.url) =
        some ("https://hackerone.com/" ++ (p.Get "handle").String_)) ∧
    (MonitorHackerOne.locals (Result.hackeroneNamed "Acme" "acme")).map (fun c => c.url) =
      some "https://hackerone.com/acme" := by
  refine ⟨by decide, by decide, by decide, ?_, by decide, ?_, by decide⟩
  · intro p hu
    simp [MonitorBugcrowd.locals, hu]
  · intro p hn hu hh
    have happ : "https://hackerone.com/" ++ (p.Get "handle").String_ ≠ "" := by
      intro h
      have := congrArg String.length h
      simp [String.length_append] at this
      exact absurd this.1 (by decide)
    simp [MonitorHackerOne.locals, hn, hu, hh, happ]

/-! # Persistence failure -/

/-- Counterexample to C17 as stated: a HackerOne cycle outside a first run, every
flag on, on two new programs; the `SaveProgram` of the first fails.  The policy
would emit the first program's event, yet the only alert sent is the second
program's; both saves were attempted and only the second program is stored. -/
theorem C17_counterexample :
    (MonitorHackerOne.locals (Result.hackeroneNamed "Acme" "acme")).map
        (fun c => ShouldSendNotification true (newAlert (Env.failingSave 1) "hackerone" c)
          (Config.demo.platform "hackerone") false) = some true ∧
    (MonitorHackerOne (Env.failingSave 1) Config.demo World.empty false
        (.ok (Body.of (.arr "" [Result.hackeroneNamed "Acme" "acme",
          Result.hackeroneNamed "Bolt" "bolt"])))).map
        (fun r => (r.world.calls.map (fun c => (c.isSave, c.isSend)),
          r.world.saved.map (fun p => p.Name), r.world.sent.map (fun a => a.Program.Name),
          r.world.db.rows.map (fun p => p.Name), r.programsCount, r.newPrograms))
      = some ([(true, false), (true, false), (false, false), (false, true)],
          ["Acme", "Bolt"], ["Bolt"], ["Bolt"], 1, 1) := by
  constructor
  · decide
  · rfl

/-- C17 (amended): when `SaveProgram` returns an error for a record, new or
updated (the save is the database call that follows the record's
`GetProgram`), the loop body takes the `continue` that follows the failed
save: it neither consults the notification policy nor calls `SendAlert` for
that record, whatever the policy would answer, leaves the table and the
tallies as they are, and the loop goes on with the remaining records. -/
theorem C17_save_failure (env : Env) (platform : String) (platformConfig : Platform)
    (firstRun : Bool) (st : MonitorState) (c : Locals)
    (hfail : env.saveErr (st.world.db.ops + 1) = true)
    (hbranch : (GetProgram env st.world.db c.key).2 = .error .ErrNoRows ∨
      ∃ row, (GetProgram env st.world.db c.key).2 = .ok row ∧ updateDelta env row c) :
    ∃ st', processProgram env platform platformConfig firstRun st c = some st' ∧
      st'.world.calls = st.world.calls ++ [Call.SaveProgram (newProgram env platform c) true] ∧
      st'.world.sent = st.world.sent ∧ st'.world.alerts = st.world.alerts ∧
      st'.world.db.rows = st.world.db.rows ∧
      st'.programsCount = st.programsCount ∧ st'.newPrograms = st.newPrograms ∧
      st'.updatedPrograms = st.updatedPrograms ∧
      st'.currentKeys = st.currentKeys ++ [c.key] ∧
      ∀ cs : List Locals,
        (c :: cs).foldlM (processProgram env platform platformConfig firstRun) st =
          cs.foldlM (processProgram env platform platformConfig firstRun) st' := by
  have hs : (SaveProgram env (GetProgram env st.world.db c.key).1
      (newProgram env platform c)).2 = true := by
    simp [SaveProgram, GetProgram, hfail]
  have hrows : (SaveProgram env (GetProgram env st.world.db c.key).1
      (newProgram env platform c)).1.rows = st.world.db.rows := by
    simp [SaveProgram, GetProgram, hfail]
  have hstep : processProgram env platform platformConfig firstRun st c =
      some { st with
        world :=
          { db := (SaveProgram env (GetProgram env st.world.db c.key).1
              (newProgram env platform c)).1,
            calls := st.world.calls ++ [Call.SaveProgram (newProgram env platform c) true] },
        currentKeys := st.currentKeys ++ [c.key] } := by
    rcases hbranch with hmiss | ⟨row, hfound, hd⟩
    · rw [processProgram_new env platform platformConfig firstRun st c hmiss]
      simp [hs]
    · rw [processProgram_found env platform platformConfig firstRun st c row hfound]
      simp [hs, (updateAlert_hasChanged env platform row c).2 hd]
  refine ⟨_, hstep, rfl, ?_, ?_, hrows, rfl, rfl, rfl, rfl, ?_⟩
  · simp [World.sent, List.filterMap_append]
  · simp [World.alerts, List.filterMap_append]
  · intro cs
    simp [List.foldlM_cons, hstep]

/-- Witness of C17 (amended): the first record of a HackerOne cycle with the
save failing. -/
theorem C17_save_failure_witness :
    ∃ st', processProgram (Env.failingSave 1) "hackerone" (Platform.allOn "u") false
        (MonitorState.start World.empty) Locals.acme = some st' ∧
      st'.world.calls = [Call.SaveProgram (newProgram (Env.failingSave 1) "hackerone"
        Locals.acme) true] :=
  (C17_save_failure (Env.failingSave 1) "hackerone" (Platform.allOn "u") false
    (MonitorState.start World.empty) Locals.acme rfl (Or.inl rfl)).imp
    (fun _ h => ⟨h.1, h.2.1⟩)


/-! # Scope descriptions -/

theorem Described.mk (a t : String) : Described (a ++ " (" ++ t ++ ")") := ⟨a, t, rfl⟩

/-- A described text ends with a closing parenthesis. -/
theorem Described.getLast {v : String} (h : Described v) : v.data.getLast? = some ')' := by
  obtain ⟨a, t, rfl⟩ := h
  have : (a ++ " (" ++ t ++ ")").data = (a.data ++ [' ', '('] ++ t.data) ++ [')'] := by
    simp [String.data_append]
  rw [this, List.getLast?_concat]

theorem ScopeMap.mem_set {m : ScopeMap} {k v : String} {e : String × String}
    (h : e ∈ ScopeMap.set m k v) : e ∈ m ∨ e.2 = v := by
  induction m with
  | nil =>
    simp only [ScopeMap.set, List.mem_singleton] at h
    right; rw [h]
  | cons x m ih =>
    obtain ⟨k2, w⟩ := x
    by_cases hk : k2 = k
    · simp only [ScopeMap.set, hk, if_true, List.mem_cons] at h
      rcases h with h | h
      · right; rw [h]
      · left; exact List.mem_cons_of_mem _ h
    · simp only [ScopeMap.set, hk, if_false, List.mem_cons] at h
      rcases h with h | h
      · left; rw [h]; exact List.mem_cons_self _ _
      · rcases ih h with h2 | h2
        · left; exact List.mem_cons_of_mem _ h2
        · right; exact h2

theorem foldl_invariant {α β : Type} (P : β → Prop) (f : β → α → β)
    (hf : ∀ b a, P b → P (f b a)) : ∀ (l : List α) (b : β), P b → P (l.foldl f b) := by
  intro l
  induction l with
  | nil => intro b hb; exact hb
  | cons a l ih => intro b hb; exact ih _ (hf b a hb)

/-- Setting a described value keeps every value described. -/
theorem ScopeMap.set_described {m : ScopeMap} (hm : ∀ e ∈ m, Described e.2) (k : String)
    {v : String} (hv : Described v) : ∀ e ∈ ScopeMap.set m k v, Described e.2 := by
  intro e he
  rcases ScopeMap.mem_set he with h | h
  · exact hm e h
  · rw [h]; exact hv

theorem hackerone_scope_described (program : Result) (handle : String) :
    ∀ e ∈ MonitorHackerOne.scope program handle, Described e.2 := by
  have htarget : ∀ (scope : ScopeMap) (j : Nat) (target : Result),
      (∀ e ∈ scope, Described e.2) →
      ∀ e ∈ MonitorHackerOne.target handle scope j target, Described e.2 := by
    intro scope j target hs
    exact ScopeMap.set_described hs _ (Described.mk _ _)
  have h1 : ∀ e ∈ ((program.Get2 "targets" "in_scope").Array.enum.foldl
      (fun scope jt => MonitorHackerOne.target handle scope jt.1 jt.2) ([] : ScopeMap)),
      Described e.2 :=
    foldl_invariant (fun s : ScopeMap => ∀ e ∈ s, Described e.2) _
      (fun (b : ScopeMap) (a : Nat × Result) hb => htarget b a.1 a.2 hb) _ _ (by simp)
  unfold MonitorHackerOne.scope
  simp only
  split
  · exact foldl_invariant (fun s : ScopeMap => ∀ e ∈ s, Described e.2) _
      (fun (b : ScopeMap) (a : Nat × Result) hb => by
        simp only
        split
        · exact htarget b a.1 a.2 hb
        · exact hb) _ _ h1
  · exact h1

theorem intigriti_scope_described (program : Result) :
    ∀ e ∈ MonitorIntigriti.scope program, Described e.2 := by
  have htarget : ∀ (last : Result → String) (scope : ScopeMap) (i : Nat) (target : Result),
      (∀ e ∈ scope, Described e.2) →
      ∀ e ∈ MonitorIntigriti.target last scope i target, Described e.2 := by
    intro last scope i target hs
    exact ScopeMap.set_described hs _ (Described.mk _ _)
  have h1 : ∀ e ∈ (match (program.Get "targets").MapIndex "in_scope" with
      | some inScope =>
          inScope.Array.enum.foldl
            (fun (scope : ScopeMap) (it : Nat × Result) =>
              MonitorIntigriti.target (fun t => (t.Get "target").String_) scope it.1 it.2)
            ([] : ScopeMap)
      | none => []), Described e.2 := by
    split
    · exact foldl_invariant (fun s : ScopeMap => ∀ e ∈ s, Described e.2) _
        (fun (b : ScopeMap) (a : Nat × Result) hb => htarget _ b a.1 a.2 hb) _ _ (by simp)
    · simp
  have h2 : ∀ (scope : ScopeMap), (∀ e ∈ scope, Described e.2) →
      ∀ e ∈ (if scope.length = 0 then
        (program.Get "in_scope").Array.enum.foldl
          (fun (scope : ScopeMap) (it : Nat × Result) =>
            MonitorIntigriti.target (fun t => t.String_) scope it.1 it.2) scope
        else scope), Described e.2 := by
    intro scope hs
    split
    · exact foldl_invariant (fun s : ScopeMap => ∀ e ∈ s, Described e.2) _
        (fun (b : ScopeMap) (a : Nat × Result) hb => htarget _ b a.1 a.2 hb) _ _ hs
    · exact hs
  have h3 : ∀ (scope : ScopeMap), (∀ e ∈ scope, Described e.2) →
      ∀ e ∈ (if scope.length = 0 then
        (program.Get "domains").Array.enum.foldl
          (fun (scope : ScopeMap) (it : Nat × Result) =>
            let domainStr := it.2.String_
            if domainStr ≠ "" then
              ScopeMap.set scope ("domain-" ++ toString it.1) (domainStr ++ " (domain)")
            else scope) scope
        else scope), Described e.2 := by
    intro scope hs
    split
    · exact foldl_invariant (fun s : ScopeMap => ∀ e ∈ s, Described e.2) _
        (fun b a hb => by
          simp only
          split
          · exact ScopeMap.set_described hb _ ⟨a.2.String_, "domain", by
              rw [String.append_assoc, String.append_assoc]; rfl⟩
          · exact hb) _ _ hs
    · exact hs
  unfold MonitorIntigriti.scope
  exact h3 _ (h2 _ h1)

/-! ## Decimal indices -/

theorem digitChar_value : ∀ k, k < 10 → (Nat.digitChar k).toNat - 48 = k := by
  decide

/-- The decimal digits `Nat.toDigitsCore` puts before `ds` read back as `n`. -/
theorem toDigitsCore_value (fuel : Nat) : ∀ (n : Nat) (ds : List Char), n < fuel →
    (Nat.toDigitsCore 10 fuel n ds).foldl (fun a c => 10 * a + (c.toNat - 48)) 0 =
      ds.foldl (fun a c => 10 * a + (c.toNat - 48)) n := by
  induction fuel with
  | zero => intro n ds h; exact absurd h (Nat.not_lt_zero _)
  | succ fuel ih =>
    intro n ds h
    unfold Nat.toDigitsCore
    simp only
    split
    · rename_i h0
      have hn : n < 10 := by omega
      simp only [List.foldl_cons, Nat.mul_zero, Nat.zero_add]
      rw [digitChar_value _ (Nat.mod_lt _ (by decide)), Nat.mod_eq_of_lt hn]
    · rename_i h0
      rw [ih (n / 10) _ (by omega)]
      simp only [List.foldl_cons]
      rw [digitChar_value _ (Nat.mod_lt _ (by decide))]
      congr 1
      omega

/-- `fmt.Sprintf("%d", i)` tells indices apart. -/
theorem toString_nat_inj {i j : Nat} (h : toString i = toString j) : i = j := by
  have h2 := congrArg (fun s : String => s.data.foldl (fun a c => 10 * a + (c.toNat - 48)) 0) h
  simp only [toString, Nat.repr, Nat.toDigits, List.asString] at h2
  rw [toDigitsCore_value _ _ _ (Nat.lt_succ_self _), toDigitsCore_value _ _ _
    (Nat.lt_succ_self _)] at h2
  simpa using h2

theorem append_toString_inj (p : String) {i j : Nat}
    (h : p ++ toString i = p ++ toString j) : i = j := by
  apply toString_nat_inj
  have h2 := congrArg String.data h
  simp only [String.data_append] at h2
  exact String.ext (List.append_cancel_left h2)

theorem ScopeMap.set_fresh (m : ScopeMap) (k v : String) (h : k ∉ ScopeMap.keys m) :
    ScopeMap.set m k v = m ++ [(k, v)] := by
  induction m with
  | nil => rfl
  | cons e m ih =>
    obtain ⟨k2, w⟩ := e
    simp only [ScopeMap.keys, List.map_cons, List.mem_cons, not_or] at h
    have hne : ¬ k2 = k := fun h2 => h.1 h2.symm
    simp only [ScopeMap.set, hne, if_false, List.cons_append]
    rw [ih h.2]

/-- A loop that writes the entry `p<i>` for the elements that pass `q`, on a
map whose keys are of earlier indices. -/
theorem foldl_set_enumFrom (p : String) (q : Result → Bool) (g : Result → String)
    (l : List Result) : ∀ (n : Nat) (acc : ScopeMap),
    (∀ k ∈ ScopeMap.keys acc, ∃ j, j < n ∧ k = p ++ toString j) →
    (l.enumFrom n).foldl
        (fun (scope : ScopeMap) (it : Nat × Result) =>
          if q it.2 then ScopeMap.set scope (p ++ toString it.1) (g it.2) else scope) acc =
      acc ++ ((l.enumFrom n).filter (fun it => q it.2)).map
        (fun it => (p ++ toString it.1, g it.2)) := by
  induction l with
  | nil => intro n acc _; simp
  | cons t l ih =>
    intro n acc hacc
    simp only [List.enumFrom, List.foldl_cons]
    by_cases hq : q t = true
    · have hfresh : p ++ toString n ∉ ScopeMap.keys acc := by
        intro hk
        obtain ⟨j, hj, he⟩ := hacc _ hk
        have := append_toString_inj p he
        omega
      simp only [hq, if_true, List.filter_cons_of_pos, List.map_cons]
      rw [ScopeMap.set_fresh _ _ _ hfresh, ih (n + 1)]
      · simp
      · intro k hk
        simp only [ScopeMap.keys, List.map_append, List.map_cons, List.map_nil,
          List.mem_append, List.mem_singleton] at hk
        rcases hk with hk | hk
        · obtain ⟨j, hj, he⟩ := hacc k hk
          exact ⟨j, by omega, he⟩
        · exact ⟨n, by omega, hk⟩
    · simp only [hq, Bool.false_eq_true, if_false, List.filter_cons_of_neg,
        not_false_eq_true]
      rw [ih (n + 1)]
      intro k hk
      obtain ⟨j, hj, he⟩ := hacc k hk
      exact ⟨j, by omega, he⟩

/-! ## Bugcrowd scope values -/

theorem foldl_invariant_mem {α β : Type} (P : β → Prop) (f : β → α → β) (l : List α)
    (hf : ∀ b, ∀ a ∈ l, P b → P (f b a)) : ∀ b, P b → P (l.foldl f b) := by
  induction l with
  | nil => intro b hb; exact hb
  | cons a l ih =>
    intro b hb
    exact ih (fun b a2 ha => hf b a2 (List.mem_cons_of_mem _ ha)) _
      (hf b a (List.mem_cons_self _ _) hb)

theorem ScopeMap.mem_set_eq {m : ScopeMap} {k v : String} {e : String × String}
    (h : e ∈ ScopeMap.set m k v) : e ∈ m ∨ e = (k, v) := by
  induction m with
  | nil =>
    simp only [ScopeMap.set, List.mem_singleton] at h
    right; exact h
  | cons x m ih =>
    obtain ⟨k2, w⟩ := x
    by_cases hk : k2 = k
    · simp only [ScopeMap.set, hk, if_true, List.mem_cons] at h
      rcases h with h | h
      · right; exact h
      · left; exact List.mem_cons_of_mem _ h
    · simp only [ScopeMap.set, hk, if_false, List.mem_cons] at h
      rcases h with h | h
      · left; rw [h]; exact List.mem_cons_self _ _
      · rcases ih h with h2 | h2
        · left; exact List.mem_cons_of_mem _ h2
        · right; exact h2

theorem enumFrom_mem {α : Type} (l : List α) : ∀ (n : Nat) (x : Nat × α),
    x ∈ l.enumFrom n → l[x.1 - n]? = some x.2 ∧ n ≤ x.1 := by
  induction l with
  | nil => intro n x h; simp at h
  | cons a l ih =>
    intro n x h
    simp only [List.enumFrom, List.mem_cons] at h
    rcases h with h | h
    · rw [h]; simp
    · obtain ⟨h1, h2⟩ := ih (n + 1) x h
      have : x.1 - n = (x.1 - (n + 1)) + 1 := by omega
      rw [this]
      exact ⟨by simpa using h1, by omega⟩

/-- Where the values of the Bugcrowd scope map come from. -/
theorem bugcrowd_scope_entries (program : Result) :
    ∀ e ∈ MonitorBugcrowd.scope program,
      e.2 ≠ "" ∧
      ((∃ (j : Nat) (target : Result), (program.Get "targets").Array[j]? = some target ∧
          e.1 = "target-" ++ toString j ∧
          e.2 = (if (target.Get "name").String_ = "" then target.String_
                 else (target.Get "name").String_)) ∨
       (∃ group ∈ (program.Get "target_groups").Array,
          ∃ target ∈ (group.Get "targets").Array,
            (∃ k : Nat, e.1 = "target-" ++ toString k) ∧
            e.2 = (target.Get "name").String_)) := by
  have h1 : ∀ e ∈ ((program.Get "targets").Array.enum.foldl
      (fun (scope : ScopeMap) (jt : Nat × Result) =>
        let targetName := (jt.2.Get "name").String_
        let targetName := if targetName = "" then jt.2.String_ else targetName
        if targetName ≠ "" then ScopeMap.set scope ("target-" ++ toString jt.1) targetName
        else scope)
      ([] : ScopeMap)),
      e.2 ≠ "" ∧
      ∃ (j : Nat) (target : Result), (program.Get "targets").Array[j]? = some target ∧
        e.1 = "target-" ++ toString j ∧
        e.2 = (if (target.Get "name").String_ = "" then target.String_
               else (target.Get "name").String_) :=
    foldl_invariant_mem (fun s : ScopeMap => ∀ e ∈ s, e.2 ≠ "" ∧
        ∃ (j : Nat) (target : Result), (program.Get "targets").Array[j]? = some target ∧
          e.1 = "target-" ++ toString j ∧
          e.2 = (if (target.Get "name").String_ = "" then target.String_
                 else (target.Get "name").String_)) _ _
      (fun (b : ScopeMap) (a : Nat × Result) ha hb => by
        have hidx : (program.Get "targets").Array[a.1]? = some a.2 := by
          simpa using (enumFrom_mem _ 0 a ha).1
        by_cases hn : (a.2.Get "name").String_ = ""
        · by_cases ht : a.2.String_ = ""
          · simpa [hn, ht] using hb
          · simp only [hn, ht, if_true, ne_eq, not_false_eq_true]
            intro e he
            rcases ScopeMap.mem_set_eq he with h | h
            · exact hb e h
            · rw [h]
              exact ⟨ht, a.1, a.2, hidx, rfl, by simp [hn]⟩
        · simp only [hn, if_false, ne_eq, not_false_eq_true, if_true]
          intro e he
          rcases ScopeMap.mem_set_eq he with h | h
          · exact hb e h
          · rw [h]
            exact ⟨hn, a.1, a.2, hidx, rfl, by simp [hn]⟩) _ (by simp)
  unfold MonitorBugcrowd.scope
  simp only
  split
  · have h2 := foldl_invariant_mem (fun (acc : ScopeMap × Nat) => ∀ e ∈ acc.1, e.2 ≠ "" ∧
        ((∃ (j : Nat) (target : Result), (program.Get "targets").Array[j]? = some target ∧
            e.1 = "target-" ++ toString j ∧
            e.2 = (if (target.Get "name").String_ = "" then target.String_
                   else (target.Get "name").String_)) ∨
         (∃ group ∈ (program.Get "target_groups").Array,
            ∃ target ∈ (group.Get "targets").Array,
              (∃ k : Nat, e.1 = "target-" ++ toString k) ∧
              e.2 = (target.Get "name").String_)))
      (fun (acc : ScopeMap × Nat) (group : Result) =>
        (group.Get "targets").Array.foldl
          (fun (acc : ScopeMap × Nat) (target : Result) =>
            let targetName := (target.Get "name").String_
            if targetName ≠ "" then
              (ScopeMap.set acc.1 ("target-" ++ toString acc.2) targetName, acc.2 + 1)
            else acc)
          acc)
      (program.Get "target_groups").Array
      (fun (acc : ScopeMap × Nat) (group : Result) hg hacc =>
        foldl_invariant_mem (fun (acc : ScopeMap × Nat) => ∀ e ∈ acc.1, e.2 ≠ "" ∧
            ((∃ (j : Nat) (target : Result), (program.Get "targets").Array[j]? = some target ∧
                e.1 = "target-" ++ toString j ∧
                e.2 = (if (target.Get "name").String_ = "" then target.String_
                       else (target.Get "name").String_)) ∨
             (∃ group ∈ (program.Get "target_groups").Array,
                ∃ target ∈ (group.Get "targets").Array,
                  (∃ k : Nat, e.1 = "target-" ++ toString k) ∧
                  e.2 = (target.Get "name").String_))) _ _
          (fun (acc : ScopeMap × Nat) (target : Result) ht hacc => by
            simp only
            split
            · rename_i hne
              intro e he
              rcases ScopeMap.mem_set_eq he with h | h
              · exact hacc e h
              · rw [h]
                exact ⟨hne, Or.inr ⟨group, hg, target, ht, ⟨acc.2, rfl⟩, rfl⟩⟩
            · exact hacc) _ hacc)
    exact h2 _ (fun e he => ⟨(h1 e he).1, Or.inl (h1 e he).2⟩)
  · exact fun e he => ⟨(h1 e he).1, Or.inl (h1 e he).2⟩

/-- The first scope loop of `MonitorBugcrowd` entry by entry; when it writes an
entry the scope map is what it wrote. -/
theorem bugcrowd_targets_entries (program : Result) :
    ((program.Get "targets").Array.enum.filter
        (fun jt => decide ((if (jt.2.Get "name").String_ = "" then jt.2.String_
          else (jt.2.Get "name").String_) ≠ ""))).map
        (fun jt => ("target-" ++ toString jt.1,
          if (jt.2.Get "name").String_ = "" then jt.2.String_
          else (jt.2.Get "name").String_)) ≠ [] →
    MonitorBugcrowd.scope program =
      ((program.Get "targets").Array.enum.filter
        (fun jt => decide ((if (jt.2.Get "name").String_ = "" then jt.2.String_
          else (jt.2.Get "name").String_) ≠ ""))).map
        (fun jt => ("target-" ++ toString jt.1,
          if (jt.2.Get "name").String_ = "" then jt.2.String_
          else (jt.2.Get "name").String_)) := by
  intro hne
  have h := foldl_set_enumFrom "target-"
    (fun t => decide ((if (t.Get "name").String_ = "" then t.String_
      else (t.Get "name").String_) ≠ ""))
    (fun t => if (t.Get "name").String_ = "" then t.String_ else (t.Get "name").String_)
    (program.Get "targets").Array 0 [] (by simp [ScopeMap.keys])
  simp only [List.nil_append, decide_eq_true_eq] at h
  unfold MonitorBugcrowd.scope
  simp only [List.enum, h, List.length_eq_zero] at hne ⊢
  rw [if_neg hne]

/-- Counterexample to C20 as stated: the scope map of a Bugcrowd record with one
target named `api.acme.com` has the value `api.acme.com`, which does not end
with a parenthesised type. -/
theorem C20_counterexample :
    (MonitorBugcrowd.locals (Result.bugcrowdRecord "https://bugcrowd.com/acme" "")).map
        (fun c => c.scope) = some [("target-0", "api.acme.com")] ∧
    ¬ Described "api.acme.com" := by
  refine ⟨by decide, fun h => ?_⟩
  exact absurd (Described.getLast h) (by decide)

/-- C20 (amended): in the HackerOne and the Intigriti canonicalizer every value of
the scope map extracted from a record has the form `<name/asset> (<type>)`,
the type being `domain` in the last Intigriti strategy.  In the Bugcrowd
canonicalizer every value is non-empty and is, with nothing appended, the name
of a target of the record's `targets` list (or, when that target has no name,
the target's own text), under the ID `target-<j>` of the position `j` of that
target, or the name of a target of one of the record's target groups; when the
`targets` list gives an entry the scope map is exactly the list of these
entries. -/
theorem C20_scope_description_format :
    (∀ (program : Result) (c : Locals), MonitorHackerOne.locals program = some c →
      ∀ e ∈ c.scope, Described e.2) ∧
    (∀ (program : Result) (c : Locals), MonitorIntigriti.locals program = some c →
      ∀ e ∈ c.scope, Described e.2) ∧
    (∀ (program : Result) (c : Locals), MonitorBugcrowd.locals program = some c →
      ∀ e ∈ c.scope, e.2 ≠ "" ∧
        ((∃ (j : Nat) (target : Result), (program.Get "targets").Array[j]? = some target ∧
            e.1 = "target-" ++ toString j ∧
            e.2 = (if (target.Get "name").String_ = "" then target.String_
                   else (target.Get "name").String_)) ∨
         (∃ group ∈ (program.Get "target_groups").Array,
            ∃ target ∈ (group.Get "targets").Array,
              (∃ k : Nat, e.1 = "target-" ++ toString k) ∧
              e.2 = (target.Get "name").String_))) ∧
    (∀ (program : Result) (c : Locals), MonitorBugcrowd.locals program = some c →
      ((program.Get "targets").Array.enum.filter
          (fun jt => decide ((if (jt.2.Get "name").String_ = "" then jt.2.String_
            else (jt.2.Get "name").String_) ≠ ""))).map
          (fun jt => ("target-" ++ toString jt.1,
            if (jt.2.Get "name").String_ = "" then jt.2.String_
            else (jt.2.Get "name").String_)) ≠ [] →
      c.scope =
        ((program.Get "targets").Array.enum.filter
          (fun jt => decide ((if (jt.2.Get "name").String_ = "" then jt.2.String_
            else (jt.2.Get "name").String_) ≠ ""))).map
          (fun jt => ("target-" ++ toString jt.1,
            if (jt.2.Get "name").String_ = "" then jt.2.String_
            else (jt.2.Get "name").String_))) ∧
    (MonitorHackerOne.locals (Result.hackeroneNamed "Acme" "acme")).map (fun c => c.scope) =
      some [("acme-0", "api.acme.com (URL)")] ∧
    (MonitorIntigriti.locals (Result.intigritiRecord "a.example.com")).map (fun c => c.scope) =
      some [("inscope-0", "a.example.com (url)")] ∧
    MonitorIntigriti.scope (.obj "" [("domains", .arr "" [.str "acme.com"])]) =
      [("domain-0", "acme.com (domain)")] ∧
    (MonitorBugcrowd.locals Result.bugcrowdTargets).map (fun c => c.scope) =
      some [("target-0", "api.acme.com"), ("target-1", "bare.acme.com")] ∧
    (MonitorBugcrowd.locals Result.bugcrowdGroups).map (fun c => c.scope) =
      some [("target-0", "a.acme.com"), ("target-1", "b.acme.com"),
        ("target-2", "c.acme.com")] := by
  refine ⟨?_, ?_, ?_, ?_, by decide, by decide, by decide, by decide, by decide⟩
  · intro program c hc
    unfold MonitorHackerOne.locals at hc
    simp only at hc
    split_ifs at hc <;> (rw [← Option.some.inj hc]; exact hackerone_scope_described _ _)
  · intro program c hc
    unfold MonitorIntigriti.locals at hc
    simp only at hc
    split_ifs at hc <;> (rw [← Option.some.inj hc]; exact intigriti_scope_described _)
  · intro program c hc
    unfold MonitorBugcrowd.locals at hc
    simp only at hc
    split_ifs at hc <;> (rw [← Option.some.inj hc]; exact bugcrowd_scope_entries _)
  · intro program c hc
    unfold MonitorBugcrowd.locals at hc
    simp only at hc
    split_ifs at hc <;> (rw [← Option.some.inj hc]; exact bugcrowd_targets_entries _)


/-! # Locality of the loop body -/

theorem SaveProgram_filter_other (env : Env) (db : DB) (p : Program) {k : String}
    (hk : k ≠ p.Key) :
    (SaveProgram env db p).1.rows.filter (fun r => decide (r.Key = k)) =
      db.rows.filter (fun r => decide (r.Key = k)) := by
  unfold SaveProgram
  split
  · rfl
  · simp only [List.filter_append, List.filter_filter]
    have h1 : List.filter (fun r : Program => decide (r.Key = k))
        [{ p with ID := db.seq + 1, CreatedAt := env.now db.ops, UpdatedAt := env.now db.ops }]
        = [] := by
      simp [List.filter_cons, Ne.symm hk]
    rw [h1, List.append_nil]
    apply List.filter_congr
    intro r _
    by_cases h : r.Key = k
    · simp [h, hk]
    · simp [h]

theorem SaveProgram_WF (env : Env) (db : DB) (p : Program) (h : db.WF) :
    (SaveProgram env db p).1.WF := by
  unfold SaveProgram
  split
  · exact h
  · unfold DB.WF DB.keys
    simp only [List.map_append, List.map_cons, List.map_nil]
    rw [List.nodup_append]
    refine ⟨nodup_keys_filter h _, List.nodup_singleton _, ?_⟩
    intro a ha hb
    simp only [List.mem_singleton] at hb
    obtain ⟨r, hr, rfl⟩ := List.mem_map.1 ha
    have := (List.mem_filter.1 hr).2
    simp only [ne_eq, decide_not, Bool.not_eq_true', decide_eq_false_iff_not] at this
    exact this hb

/-- With reads and writes succeeding, one iteration returns, appends the
record's key to `currentKeys`, keeps the table well formed, and leaves alone
the rows and the logged calls of every other key. -/
theorem processProgram_local (env : Env) (platform : String) (platformConfig : Platform)
    (firstRun : Bool) (hget : ∀ n, env.getErr n = false) (st : MonitorState) (c : Locals) :
    ∃ st', processProgram env platform platformConfig firstRun st c = some st' ∧
      st'.currentKeys = st.currentKeys ++ [c.key] ∧
      (st.world.db.WF → st'.world.db.WF) ∧
      ∀ k, k ≠ c.key →
        st'.world.db.rows.filter (fun r => decide (r.Key = k)) =
          st.world.db.rows.filter (fun r => decide (r.Key = k)) ∧
        st'.world.calls.filter (fun x => decide (x.key = k)) =
          st.world.calls.filter (fun x => decide (x.key = k)) := by
  have hsaveRows : ∀ k, k ≠ c.key →
      (SaveProgram env (GetProgram env st.world.db c.key).1
        (newProgram env platform c)).1.rows.filter (fun r => decide (r.Key = k)) =
      st.world.db.rows.filter (fun r => decide (r.Key = k)) := by
    intro k hk
    exact SaveProgram_filter_other env _ _ hk
  have hsaveWF : st.world.db.WF → (SaveProgram env (GetProgram env st.world.db c.key).1
      (newProgram env platform c)).1.WF := fun h => SaveProgram_WF env _ _ h
  have hne : ∀ k, k ≠ c.key → decide (c.key = k) = false := by
    intro k hk
    simpa using Ne.symm hk
  rcases GetProgram_cases env st.world.db c.key (hget _) with ⟨hmiss, _⟩ | ⟨row, hrow, _, _⟩
  · rw [processProgram_new env platform platformConfig firstRun st c hmiss]
    refine ⟨_, rfl, ?_, ?_, ?_⟩
    · split <;> rfl
    · intro h
      split <;> exact hsaveWF h
    · intro k hk
      have e1 : (newProgram env platform c).Key = c.key := rfl
      have e2 : (newAlert env platform c).Program.Key = c.key := rfl
      constructor
      · split <;> exact hsaveRows k hk
      · split
        · simp [List.filter_append, List.filter_cons, Call.key, e1, hne k hk]
        · split <;> simp [List.filter_append, List.filter_cons, Call.key, e1, e2, hne k hk]
  · rw [processProgram_found env platform platformConfig firstRun st c row hrow]
    have e1 : (newProgram env platform c).Key = c.key := rfl
    have e2 : (updateAlert env platform row c).1.Program.Key = c.key := by
      rw [(updateAlert_fields env platform row c).1]
      exact e1
    refine ⟨_, rfl, ?_, ?_, ?_⟩
    · split
      · split <;> rfl
      · rfl
    · intro h
      split
      · split <;> exact hsaveWF h
      · exact h
    · intro k hk
      constructor
      · split
        · split <;> exact hsaveRows k hk
        · rfl
      · split
        · split
          · simp [List.filter_append, List.filter_cons, Call.key, e1, hne k hk]
          · split <;> simp [List.filter_append, List.filter_cons, Call.key, e1, e2, hne k hk]
        · rfl

/-- The loop on records none of which has the key `k`. -/
theorem loop_local (env : Env) (platform : String) (platformConfig : Platform)
    (firstRun : Bool) (hget : ∀ n, env.getErr n = false) (cs : List Locals) :
    ∀ st, ∃ st', cs.foldlM (processProgram env platform platformConfig firstRun) st = some st' ∧
      st'.currentKeys = st.currentKeys ++ cs.map (fun c => c.key) ∧
      (st.world.db.WF → st'.world.db.WF) ∧
      ∀ k, k ∉ cs.map (fun c => c.key) →
        st'.world.db.rows.filter (fun r => decide (r.Key = k)) =
          st.world.db.rows.filter (fun r => decide (r.Key = k)) ∧
        st'.world.calls.filter (fun x => decide (x.key = k)) =
          st.world.calls.filter (fun x => decide (x.key = k)) := by
  induction cs with
  | nil => intro st; exact ⟨st, rfl, by simp, id, fun _ _ => ⟨rfl, rfl⟩⟩
  | cons c cs ih =>
    intro st
    obtain ⟨st1, h1, g1, g2, g3⟩ := processProgram_local env platform platformConfig firstRun
      hget st c
    obtain ⟨st2, h2, i1, i2, i3⟩ := ih st1
    refine ⟨st2, ?_, ?_, fun h => i2 (g2 h), ?_⟩
    · simp only [List.foldlM_cons, h1]
      exact h2
    · rw [i1, g1]; simp
    · intro k hk
      simp only [List.map_cons, List.mem_cons, not_or] at hk
      obtain ⟨a1, a2⟩ := g3 k hk.1
      obtain ⟨b1, b2⟩ := i3 k hk.2
      exact ⟨b1.trans a1, b2.trans a2⟩

theorem filter_key_nil_iff (rows : List Program) (k : String) :
    rows.filter (fun r => decide (r.Key = k)) = [] ↔ k ∉ rows.map (fun r => r.Key) := by
  rw [List.filter_eq_nil_iff]
  simp only [decide_eq_true_eq, List.mem_map, not_exists, not_and]

theorem filter_key_singleton {rows : List Program} (h : (rows.map (fun r => r.Key)).Nodup)
    {r : Program} (hr : r ∈ rows) :
    rows.filter (fun x => decide (x.Key = r.Key)) = [r] := by
  induction rows with
  | nil => simp at hr
  | cons x xs ih =>
    simp only [List.map_cons, List.nodup_cons] at h
    rcases List.mem_cons.1 hr with heq | hmem
    · subst heq
      have : xs.filter (fun x => decide (x.Key = r.Key)) = [] :=
        (filter_key_nil_iff xs r.Key).2 h.1
      simp [List.filter_cons, this]
    · have hne : x.Key ≠ r.Key := by
        intro he
        exact h.1 (he ▸ List.mem_map.2 ⟨r, hmem, rfl⟩)
      simp [List.filter_cons, hne, ih h.2 hmem]

theorem removalCalls_filter (platformConfig : Platform) (firstRun : Bool) (k : String)
    (l : List Program) :
    (l.flatMap (removalCalls platformConfig firstRun)).filter (fun x => decide (x.key = k)) =
      (l.filter (fun r => decide (r.Key = k))).flatMap (removalCalls platformConfig firstRun) := by
  induction l with
  | nil => rfl
  | cons r l ih =>
    rw [List.flatMap_cons, List.filter_append, ih]
    have e : (removalAlert r).Program.Key = r.Key := rfl
    by_cases hk : r.Key = k
    · have : (removalCalls platformConfig firstRun r).filter (fun x => decide (x.key = k)) =
          removalCalls platformConfig firstRun r := by
        rw [List.filter_eq_self]
        intro x hx
        unfold removalCalls at hx
        split at hx <;> simp at hx <;> rcases hx with rfl | rfl | rfl <;>
          simp [Call.key, e, hk]
      rw [this]
      simp [List.filter_cons, hk]
    · have : (removalCalls platformConfig firstRun r).filter (fun x => decide (x.key = k)) =
          [] := by
        rw [List.filter_eq_nil_iff]
        intro x hx
        unfold removalCalls at hx
        split at hx <;> simp at hx <;> rcases hx with rfl | rfl | rfl <;>
          simp [Call.key, e, hk]
      rw [this]
      simp [List.filter_cons, hk]

/-- One iteration on a record whose key is new to the store, with the read and
the write succeeding: the calls it makes. -/
theorem processProgram_fresh_calls (env : Env) (platform : String) (platformConfig : Platform)
    (firstRun : Bool) (hsave : ∀ n, env.saveErr n = false) (hget : ∀ n, env.getErr n = false)
    (st : MonitorState) (c : Locals) (hck : c.key ∉ st.world.db.keys) :
    ∃ st', processProgram env platform platformConfig firstRun st c = some st' ∧
      st'.world.db.rows = st.world.db.rows ++ [{ newProgram env platform c with
          ID := st.world.db.seq + 1, CreatedAt := env.now (st.world.db.ops + 1),
          UpdatedAt := env.now (st.world.db.ops + 1) }] ∧
      st'.world.calls = st.world.calls ++
        ([Call.SaveProgram (newProgram env platform c) false,
          Call.ShouldSendNotification true (newAlert env platform c)] ++
          (if ShouldSendNotification true (newAlert env platform c) platformConfig firstRun
            then [Call.SendAlert (newAlert env platform c)] else [])) := by
  obtain ⟨st1, h1, g1, _⟩ := processProgram_fresh env platform platformConfig firstRun hsave hget
    st c hck
  have hmiss : (GetProgram env st.world.db c.key).2 = .error .ErrNoRows := by
    rcases GetProgram_cases env st.world.db c.key (hget _) with ⟨h, _⟩ | ⟨row, _, hr, hk⟩
    · exact h
    · exact absurd (List.mem_map.2 ⟨row, hr, hk⟩) hck
  have hs : (SaveProgram env (GetProgram env st.world.db c.key).1
      (newProgram env platform c)).2 = false := by
    simp [SaveProgram, hsave]
  have h2 := processProgram_new env platform platformConfig firstRun st c hmiss
  simp only [hs, Bool.false_eq_true, if_false] at h2
  rw [h2] at h1
  have := Option.some.inj h1
  refine ⟨st1, by rw [h2, this], g1, ?_⟩
  rw [← this]
  simp

/-- A cycle outside a first run in which one key leaves the snapshot and one
new key enters it, once. -/
theorem monitorCycle_rename (locals : Result → Option Locals) (env : Env) (platform : String)
    (platformConfig : Platform) (programs : List Result) (db : DB)
    (hp : platform ≠ "") (hwf : db.WF)
    (hsave : ∀ n, env.saveErr n = false) (hget : ∀ n, env.getErr n = false)
    (hkeys : ∀ n, env.keysErr n = false) (hdel : ∀ n, env.deleteErr n = false)
    (hnew : platformConfig.Notifications.NewProgram = true)
    (hrem : platformConfig.Notifications.RemovedProgram = true)
    (c : Locals) (rowOld : Program)
    (hold : rowOld ∈ db.rows) (hplat : rowOld.Platform = platform)
    (hgone : rowOld.Key ∉ (programs.filterMap locals).map (fun c => c.key))
    (hc : c ∈ programs.filterMap locals)
    (honce : ((programs.filterMap locals).map (fun c => c.key)).count c.key = 1)
    (hfresh : c.key ∉ db.keys) :
    ∃ r, monitorCycle locals env platform platformConfig false programs
        { db := db, calls := [] } = some r ∧
      r.world.calls.filter (fun x => decide (x.key = c.key)) =
        [Call.SaveProgram (newProgram env platform c) false,
         Call.ShouldSendNotification true (newAlert env platform c),
         Call.SendAlert (newAlert env platform c)] ∧
      r.world.calls.filter (fun x => decide (x.key = rowOld.Key)) =
        [Call.ShouldSendNotification false (removalAlert rowOld),
         Call.SendAlert (removalAlert rowOld),
         Call.DeleteProgram rowOld.Key false] ∧
      (r.world.db.rows.filter (fun x => decide (x.Key = c.key))).map Program.content =
        [newProgram env platform c] ∧
      r.world.db.rows.filter (fun x => decide (x.Key = rowOld.Key)) = [] := by
  obtain ⟨pre, post, hsplit⟩ := List.append_of_mem hc
  have hcount := honce
  rw [hsplit] at hcount hgone
  simp only [List.map_append, List.map_cons, List.count_append, List.count_cons_self] at hcount
  have hpre : c.key ∉ pre.map (fun c => c.key) := by
    rw [← List.count_eq_zero]; omega
  have hpost : c.key ∉ post.map (fun c => c.key) := by
    rw [← List.count_eq_zero]; omega
  simp only [List.map_append, List.map_cons, List.mem_append, List.mem_cons, not_or] at hgone
  have hne : rowOld.Key ≠ c.key := hgone.2.1
  have hne2 : c.key ≠ rowOld.Key := Ne.symm hne
  -- the records before `c`
  obtain ⟨st1, h1, k1, w1, l1⟩ := loop_local env platform platformConfig false hget pre
    (MonitorState.start { db := db, calls := [] })
  obtain ⟨a1, a2⟩ := l1 c.key hpre
  obtain ⟨b1, b2⟩ := l1 rowOld.Key hgone.1
  simp only [MonitorState.start, List.filter_nil, List.nil_append] at a1 a2 b1 b2 k1
  have hfresh1 : c.key ∉ st1.world.db.keys := by
    show c.key ∉ st1.world.db.rows.map (fun r => r.Key)
    rw [← filter_key_nil_iff, a1, filter_key_nil_iff]
    exact hfresh
  have hwf1 : st1.world.db.WF := w1 hwf
  -- the record `c`
  obtain ⟨st2, h2, r2, c2⟩ := processProgram_fresh_calls env platform platformConfig false hsave
    hget st1 c hfresh1
  obtain ⟨st2b, h2b, k2, w2, l2⟩ := processProgram_local env platform platformConfig false hget
    st1 c
  have hst2 : st2b = st2 := Option.some.inj (h2b.symm.trans h2)
  subst hst2
  have hpol : ShouldSendNotification true (newAlert env platform c) platformConfig false =
      true := by
    simp [ShouldSendNotification, newAlert, baseAlert, hnew]
  have e1 : (newProgram env platform c).Key = c.key := rfl
  have e2 : (newAlert env platform c).Program.Key = c.key := rfl
  have d1 : st2b.world.db.rows.filter (fun x => decide (x.Key = c.key)) =
      [{ newProgram env platform c with
          ID := st1.world.db.seq + 1, CreatedAt := env.now (st1.world.db.ops + 1),
          UpdatedAt := env.now (st1.world.db.ops + 1) }] := by
    rw [r2, List.filter_append, a1, (filter_key_nil_iff _ _).2 hfresh]
    simp [List.filter_cons, e1]
  have d2 : st2b.world.calls.filter (fun x => decide (x.key = c.key)) =
      [Call.SaveProgram (newProgram env platform c) false,
       Call.ShouldSendNotification true (newAlert env platform c),
       Call.SendAlert (newAlert env platform c)] := by
    rw [c2, List.filter_append, a2, hpol]
    simp [List.filter_cons, Call.key, e1, e2]
  obtain ⟨d3, d4⟩ := l2 rowOld.Key hne
  rw [b1] at d3
  rw [b2] at d4
  -- the records after `c`
  obtain ⟨st3, h3, k3, w3, l3⟩ := loop_local env platform platformConfig false hget post st2b
  obtain ⟨f1, f2⟩ := l3 c.key hpost
  obtain ⟨f3, f4⟩ := l3 rowOld.Key hgone.2.2
  rw [d1] at f1
  rw [d2] at f2
  rw [d3, filter_key_singleton hwf hold] at f3
  rw [d4] at f4
  have hwf3 : st3.world.db.WF := w3 (w2 hwf1)
  have hkeys3 : st3.currentKeys = (programs.filterMap locals).map (fun c => c.key) := by
    rw [k3, k2, k1, hsplit]; simp
  have hloop : (programs.filterMap locals).foldlM
      (processProgram env platform platformConfig false)
      (MonitorState.start { db := db, calls := [] }) = some st3 := by
    rw [hsplit, List.foldlM_append, h1]
    simp [List.foldlM_cons, h2, h3]
  -- the removal check
  obtain ⟨_, q2, q3, _⟩ := checkRemovedPrograms_ok env platform st3.currentKeys st3.world
    platformConfig false hp hwf3 hkeys hget hdel
  have hcin : c.key ∈ st3.currentKeys := by
    rw [hkeys3]; exact List.mem_map.2 ⟨c, hc, rfl⟩
  have hoout : rowOld.Key ∉ st3.currentKeys := by
    rw [hkeys3, hsplit]
    simp only [List.map_append, List.map_cons, List.mem_append, List.mem_cons, not_or]
    exact hgone
  have hswap : ∀ k, (st3.world.db.rows.filter
      (fun r => decide (r.Platform = platform ∧ r.Key ∉ st3.currentKeys))).filter
        (fun r => decide (r.Key = k)) =
      (st3.world.db.rows.filter (fun r => decide (r.Key = k))).filter
        (fun r => decide (r.Platform = platform ∧ r.Key ∉ st3.currentKeys)) := by
    intro k
    rw [List.filter_filter, List.filter_filter]
    apply List.filter_congr
    intro r _
    exact Bool.and_comm _ _
  have hswap2 : ∀ k, (st3.world.db.rows.filter
      (fun r => decide (¬ (r.Platform = platform ∧ r.Key ∉ st3.currentKeys)))).filter
        (fun r => decide (r.Key = k)) =
      (st3.world.db.rows.filter (fun r => decide (r.Key = k))).filter
        (fun r => decide (¬ (r.Platform = platform ∧ r.Key ∉ st3.currentKeys))) := by
    intro k
    rw [List.filter_filter, List.filter_filter]
    apply List.filter_congr
    intro r _
    exact Bool.and_comm _ _
  have hrun : monitorCycle locals env platform platformConfig false programs
      { db := db, calls := [] } =
      some { world := (checkRemovedPrograms env platform st3.currentKeys st3.world platformConfig
               false).2,
             programsCount := st3.programsCount, newPrograms := st3.newPrograms,
             updatedPrograms := st3.updatedPrograms,
             removedCount := (checkRemovedPrograms env platform st3.currentKeys st3.world
               platformConfig false).1 } := by
    unfold monitorCycle
    rw [monitorLoop_eq, hloop]
  have hpolR : ShouldSendNotification false (removalAlert rowOld) platformConfig false =
      true := by
    simp [ShouldSendNotification, removalAlert, baseAlert, hrem]
  refine ⟨_, hrun, ?_, ?_, ?_, ?_⟩
  · show List.filter _ (checkRemovedPrograms env platform st3.currentKeys st3.world
      platformConfig false).2.calls = _
    rw [q2, List.filter_append, f2, removalCalls_filter, hswap, f1]
    simp [List.filter_cons, e1, hcin]
  · show List.filter _ (checkRemovedPrograms env platform st3.currentKeys st3.world
      platformConfig false).2.calls = _
    rw [q2, List.filter_append, f4, removalCalls_filter, hswap, f3]
    simp [List.filter_cons, hplat, hoout, removalCalls, hpolR]
  · show List.map _ (List.filter _ (checkRemovedPrograms env platform st3.currentKeys st3.world
      platformConfig false).2.db.rows) = _
    rw [q3, hswap2, f1]
    simp [List.filter_cons, e1, hcin, content_stamp]
    rfl
  · show List.filter _ (checkRemovedPrograms env platform st3.currentKeys st3.world
      platformConfig false).2.db.rows = _
    rw [q3, hswap2, f3]
    simp [List.filter_cons, hplat, hoout]


/-! # New-vs-update boundary -/

/-- Counterexample to C13 as stated: the store holds the HackerOne program `Old`
and the snapshot, which has no record of `Old`, has two records of the new
program `Acme` (same name and handle), the second one offering no bounties.
The first is saved as new; the second finds it and takes the update branch for
the same key: it is saved again and an update alert with the new type is
sent. -/
theorem C13_counterexample :
    (MonitorHackerOne Env.ideal Config.demo (World.stored [Program.old]) false
        (.ok (Body.of (.arr "" [Result.hackeroneNamed "Acme" "acme",
          Result.hackeroneVdp "Acme" "acme"])))).map
        (fun r => (r.world.saved.map (fun p => (p.Name, p.Type_)),
          r.world.sent.map (fun a => (a.Program.Name, a.IsNew, a.IsRemoved, a.NewType)),
          r.world.deleted.length, r.updatedPrograms))
      = some ([("Acme", "rdp"), ("Acme", "vdp")],
          [("Acme", true, false, ""), ("Acme", false, false, "vdp"), ("Old", false, true, "")],
          1, 1) := by
  rfl

/-- C13 (amended): outside a first run, with the `NewProgram` and `RemovedProgram`
flags on and every store call succeeding, if the store holds a program of the
platform that no record of the snapshot has the key of, and exactly one record
of the snapshot has a key that the store does not hold, then each of the three
monitors makes, about the new key, exactly the calls of the new-program
branch (one `SaveProgram`, one consultation of the policy with `isNew = true`,
one `SendAlert` of the `IsNew` alert) and, about the old key, exactly the calls
of the removal check (one consultation of the policy on the `IsRemoved` alert,
one `SendAlert`, one `DeleteProgram`); afterwards the new Program is the row
under the new key and no row is left under the old key.  No call of the update
branch is made for either key. -/
theorem C13_new_vs_update (env : Env) (config : Config) (db : DB) (cap : Nat) (body : Result)
    (hcap : 200 ≤ cap) (hwf : db.WF)
    (hsave : ∀ n, env.saveErr n = false) (hget : ∀ n, env.getErr n = false)
    (hkeys : ∀ n, env.keysErr n = false) (hdel : ∀ n, env.deleteErr n = false) :
    ∀ m ∈ platformMonitors, ∀ (c : Locals) (rowOld : Program),
      (config.platform m.name).Notifications.NewProgram = true →
      (config.platform m.name).Notifications.RemovedProgram = true →
      rowOld ∈ db.rows → rowOld.Platform = m.name →
      rowOld.Key ∉ (m.records body).map (fun c => c.key) →
      c ∈ m.records body → ((m.records body).map (fun c => c.key)).count c.key = 1 →
      c.key ∉ db.keys →
      ∃ r, m.run env config { db := db, calls := [] } false
          (.ok { capacity := cap, json := body }) = some r ∧
        r.world.calls.filter (fun x => decide (x.key = c.key)) =
          [Call.SaveProgram (newProgram env m.name c) false,
           Call.ShouldSendNotification true (newAlert env m.name c),
           Call.SendAlert (newAlert env m.name c)] ∧
        r.world.calls.filter (fun x => decide (x.key = rowOld.Key)) =
          [Call.ShouldSendNotification false (removalAlert rowOld),
           Call.SendAlert (removalAlert rowOld),
           Call.DeleteProgram rowOld.Key false] ∧
        (newAlert env m.name c).IsNew = true ∧ (newAlert env m.name c).IsRemoved = false ∧
        (removalAlert rowOld).IsRemoved = true ∧ (removalAlert rowOld).Program = rowOld ∧
        (r.world.db.rows.filter (fun x => decide (x.Key = c.key))).map Program.content =
          [newProgram env m.name c] ∧
        r.world.db.rows.filter (fun x => decide (x.Key = rowOld.Key)) = [] := by
  intro m hm c rowOld hnew hrem hold hplat hgone hc honce hfresh
  obtain ⟨hname, _, hrun⟩ := platformMonitors_run m hm env config { db := db, calls := [] } false
  obtain ⟨r, hr, g1, g2, g3, g4⟩ := monitorCycle_rename m.locals env m.name
    (config.platform m.name) (m.programs body) db hname hwf hsave hget hkeys hdel hnew hrem
    c rowOld hold hplat hgone hc honce hfresh
  exact ⟨r, (hrun cap body hcap).trans hr, g1, g2, rfl, rfl, rfl, rfl, g3, g4⟩

/-- Witness of C13 (amended): the store holds `Old`, the HackerOne snapshot has
the one record `Acme`. -/
theorem C13_new_vs_update_witness :
    ∃ r, MonitorHackerOne Env.ideal Config.demo (World.stored [Program.old]) false
        (.ok (Body.of (.arr "" [Result.hackeroneNamed "Acme" "acme"]))) = some r ∧
      r.world.calls.filter (fun x => decide (x.key = Program.old.Key)) =
        [Call.ShouldSendNotification false (removalAlert Program.old),
         Call.SendAlert (removalAlert Program.old),
         Call.DeleteProgram Program.old.Key false] :=
  (C13_new_vs_update Env.ideal Config.demo (World.stored [Program.old]).db 512
      (.arr "" [Result.hackeroneNamed "Acme" "acme"]) (by decide) (by decide)
      (fun _ => rfl) (fun _ => rfl) (fun _ => rfl) (fun _ => rfl)
      { run := MonitorHackerOne, name := "hackerone", programs := MonitorHackerOne.programs,
        locals := MonitorHackerOne.locals }
      (List.mem_cons_self _ _) Locals.acme Program.old rfl rfl (List.mem_cons_self _ _) rfl
      (by decide) (List.mem_cons_self _ _) (by decide) (by decide)).imp
    (fun _ h => ⟨h.1, h.2.2.1⟩)

/-! # Scope strategies of the Intigriti canonicalizer -/


theorem ScopeMap.set_ne_nil (m : ScopeMap) (k v : String) : ScopeMap.set m k v ≠ [] := by
  cases m with
  | nil => simp [ScopeMap.set]
  | cons e m =>
    obtain ⟨k2, w⟩ := e
    by_cases h : k2 = k <;> simp [ScopeMap.set, h]

/-- A loop that writes one entry per element yields no entry exactly on the
empty list. -/
theorem foldl_set_eq_nil {α : Type} (f : ScopeMap → α → ScopeMap)
    (hf : ∀ b a, f b a ≠ []) (l : List α) : l.foldl f [] = [] ↔ l = [] := by
  cases l with
  | nil => simp
  | cons a l =>
    simp only [List.foldl_cons, reduceCtorEq, iff_false]
    exact foldl_invariant (fun s : ScopeMap => s ≠ []) f (fun b a _ => hf b a) l _ (hf [] a)

theorem enum_eq_nil_iff {α : Type} (l : List α) : l.enum = [] ↔ l = [] := by
  cases l <;> simp [List.enum, List.enumFrom]

/-- The domain loop yields no entry exactly when every domain has an empty
text. -/
theorem domains_eq_nil (l : List Result) : ∀ n,
    (l.enumFrom n).foldl
      (fun (scope : ScopeMap) (it : Nat × Result) =>
        let domainStr := it.2.String_
        if domainStr ≠ "" then
          ScopeMap.set scope ("domain-" ++ toString it.1) (domainStr ++ " (domain)")
        else scope)
      [] = [] ↔ ∀ d ∈ l, d.String_ = "" := by
  induction l with
  | nil => intro n; simp
  | cons d l ih =>
    intro n
    by_cases hd : d.String_ = ""
    · simp only [List.enumFrom, List.foldl_cons, hd, ne_eq, not_true_eq_false, if_false,
        List.mem_cons, forall_eq_or_imp, true_and]
      exact ih (n + 1)
    · simp only [List.enumFrom, List.foldl_cons, hd, ne_eq, not_false_eq_true, if_true,
        List.mem_cons, forall_eq_or_imp, false_and, iff_false]
      exact foldl_invariant (fun s : ScopeMap => s ≠ [])
        (fun (scope : ScopeMap) (it : Nat × Result) =>
          if it.2.String_ ≠ "" then
            ScopeMap.set scope ("domain-" ++ toString it.1) (it.2.String_ ++ " (domain)")
          else scope)
        (fun b a hb => by
          simp only
          split
          · exact ScopeMap.set_ne_nil _ _ _
          · exact hb) _ _ (ScopeMap.set_ne_nil _ _ _)

/-- The first two scope loops of `MonitorIntigriti` on the empty map, entry by
entry. -/
theorem intigriti_targets_entries (last : Result → String) (l : List Result) :
    l.enum.foldl
        (fun (scope : ScopeMap) (it : Nat × Result) =>
          MonitorIntigriti.target last scope it.1 it.2) [] =
      l.enum.map (fun it =>
        ("inscope-" ++ toString it.1,
          (if (it.2.Get "name").String_ ≠ "" then (it.2.Get "name").String_
            else if (it.2.Get "endpoint").String_ ≠ "" then (it.2.Get "endpoint").String_
            else last it.2) ++ " (" ++
          (if (it.2.Get "type").String_ = "" then "unknown" else (it.2.Get "type").String_)
            ++ ")")) := by
  have h := foldl_set_enumFrom "inscope-" (fun _ => true)
    (fun t =>
      (if (t.Get "name").String_ ≠ "" then (t.Get "name").String_
        else if (t.Get "endpoint").String_ ≠ "" then (t.Get "endpoint").String_
        else last t) ++ " (" ++
      (if (t.Get "type").String_ = "" then "unknown" else (t.Get "type").String_) ++ ")")
    l 0 [] (by simp [ScopeMap.keys])
  simp only [if_true, List.filter_true, List.nil_append] at h
  have hf : (fun (scope : ScopeMap) (it : Nat × Result) =>
      MonitorIntigriti.target last scope it.1 it.2) =
      (fun (scope : ScopeMap) (it : Nat × Result) =>
        ScopeMap.set scope ("inscope-" ++ toString it.1)
          ((if (it.2.Get "name").String_ ≠ "" then (it.2.Get "name").String_
            else if (it.2.Get "endpoint").String_ ≠ "" then (it.2.Get "endpoint").String_
            else last it.2) ++ " (" ++
          (if (it.2.Get "type").String_ = "" then "unknown" else (it.2.Get "type").String_)
            ++ ")")) := by
    funext scope it
    unfold MonitorIntigriti.target
    by_cases h1 : (it.2.Get "name").String_ = "" <;>
      by_cases h2 : (it.2.Get "endpoint").String_ = "" <;> simp [h1, h2]
  rw [hf]
  exact h

theorem MapIndex_first (raw key : String) (pre post : List (String × Result)) (v : Result)
    (h : ∀ m ∈ pre, m.1 ≠ key) :
    (Result.obj raw (pre ++ (key, v) :: post)).MapIndex key = some v := by
  have hpre : pre.find? (fun m => decide (m.1 = key)) = none := by
    rw [List.find?_eq_none]
    intro m hm
    simpa using h m hm
  simp [Result.MapIndex, List.find?_append, hpre]

theorem MapIndex_absent (r : Result) (key : String)
    (h : ∀ raw members, r = Result.obj raw members → ∀ m ∈ members, m.1 ≠ key) :
    r.MapIndex key = none := by
  cases r with
  | obj raw members =>
    have hnone : members.find? (fun m => decide (m.1 = key)) = none := by
      rw [List.find?_eq_none]
      intro m hm
      simpa using h raw members rfl m hm
    simp [Result.MapIndex, hnone]
  | _ => rfl

/-- The domain loop of `MonitorIntigriti` on the empty map, entry by entry. -/
theorem intigriti_domains_entries (l : List Result) :
    l.enum.foldl
        (fun (scope : ScopeMap) (it : Nat × Result) =>
          let domainStr := it.2.String_
          if domainStr ≠ "" then
            ScopeMap.set scope ("domain-" ++ toString it.1) (domainStr ++ " (domain)")
          else scope) [] =
      (l.enum.filter (fun it => decide (it.2.String_ ≠ ""))).map
        (fun it => ("domain-" ++ toString it.1, it.2.String_ ++ " (domain)")) := by
  have h := foldl_set_enumFrom "domain-" (fun t => decide (t.String_ ≠ ""))
    (fun t => t.String_ ++ " (domain)") l 0 [] (by simp [ScopeMap.keys])
  simp only [List.nil_append, decide_eq_true_eq] at h
  exact h

/-- C21: the scope map of the Intigriti canonicalizer is the result of the
first of its three strategies, in the order `targets["in_scope"]`, top-level
`in_scope`, `domains`, that yields an entry, and the (empty) result of the last
one when none does: it is the result of exactly one strategy, never a mixture.
The first strategy reads the first member `in_scope` of the object `targets`
and yields the entry `inscope-<i>` for each element `i` of it, described by its
name, else its endpoint, else its `target` member, and its type or `unknown`;
it yields nothing when `targets` is not an object or has no such member.  The
second strategy does the same on the top-level `in_scope`, with the text of the
element as the last resort for the name.  The third strategy yields the entry
`domain-<i>` for each element `i` of `domains` whose text is not empty.  A
record with a name and a URL is not skipped whatever its scope is, its locals
carry that scope, and the loop body runs on it without a failure: the key is
appended to `currentKeys`, and when the store has no row for it the Program is
handed to `SaveProgram` with the serialized scope.  On records that have all
three sources, a repeated member `in_scope`, a `null` under `targets.in_scope`,
an array under `targets`, only domains, or no source at all, the scope is the
one the first yielding strategy gives; the record without a source is saved
with the scope `{}`, its new-program alert has an empty `NewScope` and it is
counted as processed. -/
theorem C21_scope_fallthrough :
    ∀ program : Result,
      (MonitorIntigriti.scope program =
        if MonitorIntigriti.strategy1 program ≠ [] then MonitorIntigriti.strategy1 program
        else if MonitorIntigriti.strategy2 program ≠ [] then MonitorIntigriti.strategy2 program
        else MonitorIntigriti.strategy3 program) ∧
      (∀ (raw : String) (pre post : List (String × Result)) (v : Result),
        program.Get "targets" = .obj raw (pre ++ ("in_scope", v) :: post) →
        (∀ m ∈ pre, m.1 ≠ "in_scope") →
        MonitorIntigriti.strategy1 program =
          v.Array.enum.map (fun it =>
            ("inscope-" ++ toString it.1,
              (if (it.2.Get "name").String_ ≠ "" then (it.2.Get "name").String_
                else if (it.2.Get "endpoint").String_ ≠ "" then (it.2.Get "endpoint").String_
                else (it.2.Get "target").String_) ++ " (" ++
              (if (it.2.Get "type").String_ = "" then "unknown"
                else (it.2.Get "type").String_) ++ ")")) ∧
        (MonitorIntigriti.strategy1 program = [] ↔ v.Array = [])) ∧
      ((∀ raw members, program.Get "targets" = .obj raw members →
          ∀ m ∈ members, m.1 ≠ "in_scope") →
        MonitorIntigriti.strategy1 program = []) ∧
      MonitorIntigriti.strategy2 program =
        (program.Get "in_scope").Array.enum.map (fun it =>
          ("inscope-" ++ toString it.1,
            (if (it.2.Get "name").String_ ≠ "" then (it.2.Get "name").String_
              else if (it.2.Get "endpoint").String_ ≠ "" then (it.2.Get "endpoint").String_
              else it.2.String_) ++ " (" ++
            (if (it.2.Get "type").String_ = "" then "unknown"
              else (it.2.Get "type").String_) ++ ")")) ∧
      MonitorIntigriti.strategy3 program =
        ((program.Get "domains").Array.enum.filter
            (fun it => decide (it.2.String_ ≠ ""))).map
          (fun it => ("domain-" ++ toString it.1, it.2.String_ ++ " (domain)")) ∧
      (MonitorIntigriti.strategy2 program = [] ↔ (program.Get "in_scope").Array = []) ∧
      (MonitorIntigriti.strategy3 program = [] ↔
        ∀ d ∈ (program.Get "domains").Array, d.String_ = "") ∧
      (MonitorIntigriti.strategy1 program = [] → MonitorIntigriti.strategy2 program = [] →
        MonitorIntigriti.strategy3 program = [] → MonitorIntigriti.scope program = []) ∧
      ((program.Get "name").String_ ≠ "" → (program.Get "url").String_ ≠ "" →
        ∃ c, MonitorIntigriti.locals program = some c ∧
          c.scope = MonitorIntigriti.scope program ∧
          ∀ (env : Env) (platformConfig : Platform) (firstRun : Bool) (st : MonitorState),
            env.getErr st.world.db.ops = false →
            ∃ st2, processProgram env "intigriti" platformConfig firstRun st c = some st2 ∧
              st2.currentKeys = st.currentKeys ++ [c.key] ∧
              (c.key ∉ st.world.db.keys →
                st2.world.saved = st.world.saved ++ [newProgram env "intigriti" c] ∧
                (newProgram env "intigriti" c).Scope =
                  SerializeScope env (MonitorIntigriti.scope program))) ∧
      (MonitorIntigriti.scope Result.intigritiLayered =
          [("inscope-0", "app.example.com (url)"), ("inscope-1", "api.example.com (unknown)"),
           ("inscope-2", "cdn.example.com (cdn)"), ("inscope-3", " (unknown)")] ∧
        MonitorIntigriti.scope Result.intigritiRepeated =
          [("inscope-0", "first.example.com (url)")] ∧
        MonitorIntigriti.scope Result.intigritiTopLevel =
          [("inscope-0", "bare.example.com (unknown)"),
           ("inscope-1", "api.example.com (api)")] ∧
        MonitorIntigriti.scope Result.intigritiDomains =
          [("domain-1", "api.example.com (domain)")] ∧
        MonitorIntigriti.scope Result.intigritiArrayTargets =
          [("domain-0", "example.com (domain)")] ∧
        MonitorIntigriti.scope (Result.intigritiWith []) = [] ∧
        (MonitorIntigriti Env.ideal Config.demo World.empty false
            (.ok (Body.of (.arr "" [Result.intigritiWith []])))).map
          (fun r => (r.world.saved.map (fun p => (p.Name, p.Scope)),
            r.world.sent.map (fun a => (a.Program.Name, a.IsNew, a.NewScope)),
            r.programsCount, r.newPrograms))
          = some ([("Example", "\x7b\x7d")], [("Example", true, [])], 1, 1) ∧
        (MonitorIntigriti Env.ideal Config.demo World.empty false
            (.ok (Body.of (.arr "" [Result.intigritiRepeated])))).map
          (fun r => r.world.saved.map (fun p => (p.Name, p.Scope)))
          = some [("Example",
              "\x7b" ++ Env.quote "inscope-0" ++ ":" ++ Env.quote "first.example.com (url)" ++
                "\x7d")]) := by
  intro program
  have hscope : MonitorIntigriti.scope program =
      if MonitorIntigriti.strategy1 program ≠ [] then MonitorIntigriti.strategy1 program
      else if MonitorIntigriti.strategy2 program ≠ [] then MonitorIntigriti.strategy2 program
      else MonitorIntigriti.strategy3 program := by
    unfold MonitorIntigriti.scope
    simp only [← MonitorIntigriti.strategy1.eq_1, List.length_eq_zero]
    by_cases h1 : MonitorIntigriti.strategy1 program = []
    · simp only [h1, if_true, ne_eq, not_true_eq_false, if_false,
        ← MonitorIntigriti.strategy2.eq_1]
      by_cases h2 : MonitorIntigriti.strategy2 program = []
      · simp only [h2, if_true, ne_eq, not_true_eq_false, if_false]
        rfl
      · simp only [h2, if_false, ne_eq, not_false_eq_true, if_true]
    · simp only [h1, if_false, ne_eq, not_false_eq_true, if_true]
  have htarget : ∀ (last : Result → String) (b : ScopeMap) (a : Nat × Result),
      MonitorIntigriti.target last b a.1 a.2 ≠ [] := by
    intro last b a
    exact ScopeMap.set_ne_nil _ _ _
  refine ⟨hscope, ?_, ?_, ?_, ?_, ?_, ?_, ?_, ?_, ?_⟩
  · intro raw pre post v hobj hpre
    have h1 : MonitorIntigriti.strategy1 program = v.Array.enum.foldl
        (fun (scope : ScopeMap) (it : Nat × Result) =>
          MonitorIntigriti.target (fun t => (t.Get "target").String_) scope it.1 it.2) [] := by
      unfold MonitorIntigriti.strategy1
      rw [hobj, MapIndex_first raw "in_scope" pre post v hpre]
    refine ⟨?_, ?_⟩
    · rw [h1]
      exact intigriti_targets_entries _ _
    · rw [h1, foldl_set_eq_nil _ (htarget _), enum_eq_nil_iff]
  · intro habs
    unfold MonitorIntigriti.strategy1
    rw [MapIndex_absent _ _ habs]
  · unfold MonitorIntigriti.strategy2
    exact intigriti_targets_entries _ _
  · unfold MonitorIntigriti.strategy3
    exact intigriti_domains_entries _
  · unfold MonitorIntigriti.strategy2
    rw [foldl_set_eq_nil _ (htarget _), enum_eq_nil_iff]
  · exact domains_eq_nil _ 0
  · intro h1 h2 h3
    rw [hscope]
    simp [h1, h2, h3]
  · intro hn hu
    have hl : MonitorIntigriti.locals program =
        some ((MonitorIntigriti.locals program).getD Locals.acme) := by
      have := (locals_isSome program).2.2.2 ⟨hn, hu⟩
      cases h : MonitorIntigriti.locals program with
      | none => rw [h] at this; exact absurd this (by simp)
      | some c => rfl
    have hs : ((MonitorIntigriti.locals program).getD Locals.acme).scope =
        MonitorIntigriti.scope program := by
      unfold MonitorIntigriti.locals
      simp [hn, hu]
    refine ⟨_, hl, hs, ?_⟩
    intro env platformConfig firstRun st hget
    rcases GetProgram_cases env st.world.db _ hget with ⟨hmiss, hk⟩ | ⟨row, hrow, hmem, hkey⟩
    · rw [processProgram_new env "intigriti" platformConfig firstRun st _ hmiss]
      refine ⟨_, rfl, ?_, ?_⟩
      · split <;> rfl
      · intro _
        refine ⟨?_, ?_⟩
        · split
          · simp [World.saved, List.filterMap_append]
          · split <;> simp [World.saved, List.filterMap_append]
        · simp only [newProgram, hs]
    · rw [processProgram_found env "intigriti" platformConfig firstRun st _ row hrow]
      refine ⟨_, rfl, ?_, ?_⟩
      · split
        · split <;> rfl
        · rfl
      · intro hno
        exact absurd (hkey ▸ List.mem_map.2 ⟨row, hmem, rfl⟩) hno
  · exact ⟨by decide, by decide, by decide, by decide, by decide, by decide, by rfl, by rfl⟩

/-- Witness of C21: on the record with all three sources the object `targets`
has the member `in_scope` first, the first strategy yields four entries and
they are the scope; on the record with domains only the scope is the entry of
the third strategy. -/
theorem C21_scope_fallthrough_witness :
    MonitorIntigriti.strategy1 Result.intigritiLayered =
      [("inscope-0", "app.example.com (url)"), ("inscope-1", "api.example.com (unknown)"),
       ("inscope-2", "cdn.example.com (cdn)"), ("inscope-3", " (unknown)")] ∧
    MonitorIntigriti.scope Result.intigritiLayered =
      MonitorIntigriti.strategy1 Result.intigritiLayered ∧
    MonitorIntigriti.scope Result.intigritiDomains =
      [("domain-1", "api.example.com (domain)")] :=
  ⟨((C21_scope_fallthrough Result.intigritiLayered).2.1 "" []
      [] (.arr ""
        [.obj "" [("name", .str "app.example.com"), ("type", .str "url")],
         .obj "" [("endpoint", .str "api.example.com")],
         .obj "" [("target", .str "cdn.example.com"), ("type", .str "cdn")],
         .str "bare.example.com"]) rfl (by simp)).1.trans (by decide),
   ((C21_scope_fallthrough Result.intigritiLayered).1).trans (by decide),
   ((C21_scope_fallthrough Result.intigritiDomains).1).trans (by decide)⟩

/-! # Update notifications -/


/-- An update alert built with `hasChanged` set passes the policy outside a
first run, whatever the platform config is. -/
theorem updateAlert_notified (env : Env) (platform : String) (existingProgram : Program)
    (c : Locals) (hty : c.programType ≠ "")
    (h : (updateAlert env platform existingProgram c).2 = true) (cfg : Platform) :
    ((updateAlert env platform existingProgram c).1.NewType ≠ "" ∨
      (updateAlert env platform existingProgram c).1.NewScope ≠ [] ∨
      (updateAlert env platform existingProgram c).1.RemovedScope ≠ [] ∨
      (updateAlert env platform existingProgram c).1.Reward ≠ none) ∧
    (updateAlert env platform existingProgram c).1.IsRemoved = false ∧
    ShouldSendNotification false (updateAlert env platform existingProgram c).1 cfg false =
      true := by
  revert h
  unfold updateAlert
  rcases c with ⟨name, url, logo, key, programType, scope, reward⟩
  simp only at hty
  cases reward with
  | none =>
    simp only [List.length_pos, ne_eq]
    split_ifs <;> simp_all [baseAlert, ShouldSendNotification, List.length_pos]
  | some reward =>
    simp only [List.length_pos, ne_eq]
    split_ifs <;> simp_all [baseAlert, ShouldSendNotification, List.length_pos]

/-- Every canonicalizer classifies a record as `rdp` or `vdp`. -/
theorem locals_programType (m : PlatformMonitor) (hm : m ∈ platformMonitors) (program : Result)
    (c : Locals) (hc : m.locals program = some c) :
    c.programType = "rdp" ∨ c.programType = "vdp" := by
  simp only [platformMonitors, List.mem_cons, List.mem_singleton, List.not_mem_nil,
    or_false] at hm
  rcases hm with rfl | rfl | rfl
  · simp only [MonitorHackerOne.locals] at hc
    split_ifs at hc <;> (rw [← Option.some.inj hc]; simp)
  · simp only [MonitorBugcrowd.locals] at hc
    split_ifs at hc <;> (rw [← Option.some.inj hc]; simp)
  · simp only [MonitorIntigriti.locals] at hc
    split_ifs at hc <;> (rw [← Option.some.inj hc]; simp)

/-- One iteration of the loop body outside a first run, when the query of
`GetProgram` does not fail. -/
theorem processProgram_iteration (env : Env) (platform : String) (platformConfig : Platform)
    (st : MonitorState) (c : Locals) (hget : env.getErr st.world.db.ops = false)
    (hty : c.programType ≠ "") :
    ∃ st2 it, processProgram env platform platformConfig false st c = some st2 ∧
      st2.world.calls = st.world.calls ++ Iteration.calls it ∧
      Iteration.of env platform platformConfig c it ∧
      st2.updatedPrograms = st.updatedPrograms + (if it.isUpdate then 1 else 0) := by
  rcases GetProgram_cases env st.world.db c.key hget with ⟨hmiss, _⟩ | ⟨row, hrow, _, hkey⟩
  · rw [processProgram_new env platform platformConfig false st c hmiss]
    cases hs : (SaveProgram env (GetProgram env st.world.db c.key).1 (newProgram env platform c)).2
    · have hn : ShouldSendNotification true (newAlert env platform c) platformConfig false =
          platformConfig.Notifications.NewProgram := by
        simp [ShouldSendNotification, newAlert, baseAlert]
      have hp : (newAlert env platform c).Program = newProgram env platform c := rfl
      refine ⟨_, .created (newAlert env platform c) platformConfig.Notifications.NewProgram,
        rfl, ?_, ⟨rfl, rfl⟩, ?_⟩
      · simp [Iteration.calls, hn, hp]
      · simp [Iteration.isUpdate]
    · exact ⟨_, .failedWrite (newProgram env platform c), rfl, by simp [Iteration.calls], rfl,
        by simp [Iteration.isUpdate]⟩
  · rw [processProgram_found env platform platformConfig false st c row hrow]
    cases hc : (updateAlert env platform row c).2
    · exact ⟨_, .unchanged, rfl, by simp [Iteration.calls], ⟨row, hkey, hc⟩,
        by simp [Iteration.isUpdate]⟩
    · cases hs : (SaveProgram env (GetProgram env st.world.db c.key).1
          (newProgram env platform c)).2
      · have hn := (updateAlert_notified env platform row c hty hc platformConfig).2.2
        have hp := (updateAlert_fields env platform row c).1
        refine ⟨_, .updated (updateAlert env platform row c).1, rfl, ?_, ⟨row, hkey, hc, rfl⟩,
          ?_⟩
        · simp [Iteration.calls, hn, hp]
        · simp [Iteration.isUpdate, hn]
      · exact ⟨_, .failedWrite (newProgram env platform c), rfl, by simp [Iteration.calls],
          rfl, by simp [Iteration.isUpdate]⟩

/-- The loop body does not return when the query of `GetProgram` fails. -/
theorem processProgram_getErr (env : Env) (platform : String) (platformConfig : Platform)
    (firstRun : Bool) (st : MonitorState) (c : Locals)
    (hget : env.getErr st.world.db.ops = true) :
    processProgram env platform platformConfig firstRun st c = none := by
  unfold processProgram
  simp [GetProgram, hget]

/-- The loop of a monitor outside a first run, iteration by iteration. -/
theorem loop_iterations (env : Env) (platform : String) (platformConfig : Platform)
    (cs : List Locals) (hty : ∀ c ∈ cs, c.programType ≠ "") :
    ∀ st st2, cs.foldlM (processProgram env platform platformConfig false) st = some st2 →
      ∃ its : List Iteration,
        st2.world.calls = st.world.calls ++ its.flatMap Iteration.calls ∧
        List.Forall₂ (Iteration.of env platform platformConfig) cs its ∧
        st2.updatedPrograms = st.updatedPrograms + its.countP Iteration.isUpdate := by
  induction cs with
  | nil =>
    intro st st2 h
    have : st = st2 := by simpa using h
    subst this
    exact ⟨[], by simp, List.Forall₂.nil, by simp⟩
  | cons c cs ih =>
    intro st st2 h
    cases hg : env.getErr st.world.db.ops
    · obtain ⟨st1, it, h1, g1, g2, g3⟩ := processProgram_iteration env platform platformConfig
        st c hg (hty c (List.mem_cons_self _ _))
      simp only [List.foldlM_cons, h1] at h
      obtain ⟨its, i1, i2, i3⟩ := ih (fun c hc => hty c (List.mem_cons_of_mem _ hc)) st1 st2 h
      refine ⟨it :: its, ?_, List.Forall₂.cons g2 i2, ?_⟩
      · rw [i1, g1]; simp
      · rw [i3, g3, List.countP_cons]; omega
    · simp only [List.foldlM_cons,
        processProgram_getErr env platform platformConfig false st c hg] at h
      exact absurd h (by simp)

/-- A monitor does not return when the capacity of the fetched body is below
200. -/
theorem platformMonitors_short (m : PlatformMonitor) (hm : m ∈ platformMonitors) (env : Env)
    (config : Config) (w : World) (firstRun : Bool) (cap : Nat) (body : Result)
    (h : cap < 200) :
    m.run env config w firstRun (.ok { capacity := cap, json := body }) = none := by
  simp only [platformMonitors, List.mem_cons, List.mem_singleton, List.not_mem_nil,
    or_false] at hm
  rcases hm with rfl | rfl | rfl
  · simp [MonitorHackerOne, h]
  · simp [MonitorBugcrowd, h]
  · simp [MonitorIntigriti, h]

/-- One step of the removal check adds only calls of the removal check. -/
theorem removal_step_calls (env : Env) (currentKeys : List String) (platformConfig : Platform)
    (firstRun : Bool) (acc : Nat × World) (existingKey : String) :
    ∃ tail, (checkRemovedPrograms.step env currentKeys platformConfig firstRun acc
        existingKey).2.calls = acc.2.calls ++ tail ∧ ∀ x ∈ tail, Call.isRemoval x = true := by
  unfold checkRemovedPrograms.step
  by_cases hin : contains currentKeys existingKey = true
  · exact ⟨[], by simp [hin], by simp⟩
  · simp only [hin, not_false_eq_true, if_true]
    cases hres : (GetProgram env acc.2.db existingKey).2 with
    | error e => exact ⟨[], by simp, by simp⟩
    | ok removedProgram =>
      by_cases hn : ShouldSendNotification false (removalAlert removedProgram) platformConfig
          firstRun = true
      · exact ⟨[Call.ShouldSendNotification false (removalAlert removedProgram),
            Call.SendAlert (removalAlert removedProgram),
            Call.DeleteProgram existingKey
              (DeleteProgram env (GetProgram env acc.2.db existingKey).1 existingKey).2],
          by simp [hn], by simp [Call.isRemoval, removalAlert]⟩
      · exact ⟨[Call.ShouldSendNotification false (removalAlert removedProgram),
            Call.DeleteProgram existingKey
              (DeleteProgram env (GetProgram env acc.2.db existingKey).1 existingKey).2],
          by simp [hn], by simp [Call.isRemoval, removalAlert]⟩

/-- The removal check adds only calls of the removal check. -/
theorem checkRemovedPrograms_calls (env : Env) (platform : String) (currentKeys : List String)
    (w : World) (platformConfig : Platform) (firstRun : Bool) :
    ∃ tail, (checkRemovedPrograms env platform currentKeys w platformConfig firstRun).2.calls =
        w.calls ++ tail ∧ ∀ x ∈ tail, Call.isRemoval x = true := by
  have hfold : ∀ (keys : List String) (acc : Nat × World),
      ∃ tail, (keys.foldl (checkRemovedPrograms.step env currentKeys platformConfig firstRun)
          acc).2.calls = acc.2.calls ++ tail ∧ ∀ x ∈ tail, Call.isRemoval x = true := by
    intro keys
    induction keys with
    | nil => intro acc; exact ⟨[], by simp, by simp⟩
    | cons k keys ih =>
      intro acc
      obtain ⟨t1, e1, a1⟩ := removal_step_calls env currentKeys platformConfig firstRun acc k
      obtain ⟨t2, e2, a2⟩ := ih (checkRemovedPrograms.step env currentKeys platformConfig
        firstRun acc k)
      refine ⟨t1 ++ t2, ?_, ?_⟩
      · rw [List.foldl_cons, e2, e1, List.append_assoc]
      · intro x hx
        rcases List.mem_append.1 hx with h | h
        · exact a1 x h
        · exact a2 x h
  unfold checkRemovedPrograms
  cases hres : (GetAllProgramKeys env w.db platform).2 with
  | error e => exact ⟨[], by simp [hres], by simp⟩
  | ok existingKeys =>
    obtain ⟨t, e, a⟩ := hfold existingKeys
      (0, { w with db := (GetAllProgramKeys env w.db platform).1 })
    exact ⟨t, by simpa [hres] using e, a⟩

/-- C22: in each of the three monitors the canonicalizer classifies a record
as `rdp` or `vdp`, and an update alert built with `hasChanged` set has a
`NewType` other than the empty string, a non-empty `NewScope`, a non-empty
`RemovedScope` or a `Reward`; it is not a removal alert, and
`ShouldSendNotification(false, alert, cfg, false)` is true for every platform
config `cfg`.  Outside a first run, when the record is found in the store,
`hasChanged` is set and `SaveProgram` succeeds, the loop body adds to the call
log exactly the write, the consultation of the policy and the `SendAlert` of
that alert, and adds one to `updatedPrograms`.  Whenever a monitor returns
from a run outside a first run (reads, writes and deletes may fail), the calls
it added are the calls of one iteration per record that was not skipped, in
order, followed by calls of the removal check only, and `updatedPrograms` is
the number of iterations that are successful update writes, each of which has
its `SendAlert`.  The monitor does return when the fetched body has a capacity
of at least 200 and no `GetProgram` query fails. -/
theorem C22_update_always_notified (env : Env) (config : Config) (w : World) (cap : Nat)
    (body : Result) :
    ∀ m ∈ platformMonitors,
      (∀ (program : Result) (c : Locals) (existingProgram : Program) (cfg : Platform),
        m.locals program = some c →
        (c.programType = "rdp" ∨ c.programType = "vdp") ∧
        ((updateAlert env m.name existingProgram c).2 = true →
          ((updateAlert env m.name existingProgram c).1.NewType ≠ "" ∨
            (updateAlert env m.name existingProgram c).1.NewScope ≠ [] ∨
            (updateAlert env m.name existingProgram c).1.RemovedScope ≠ [] ∨
            (updateAlert env m.name existingProgram c).1.Reward ≠ none) ∧
          (updateAlert env m.name existingProgram c).1.IsRemoved = false ∧
          ShouldSendNotification false (updateAlert env m.name existingProgram c).1 cfg false =
            true)) ∧
      (∀ (program : Result) (c : Locals) (existingProgram : Program) (cfg : Platform)
          (st : MonitorState),
        m.locals program = some c →
        (GetProgram env st.world.db c.key).2 = .ok existingProgram →
        (updateAlert env m.name existingProgram c).2 = true →
        (SaveProgram env (GetProgram env st.world.db c.key).1 (newProgram env m.name c)).2 =
          false →
        ∃ st2, processProgram env m.name cfg false st c = some st2 ∧
          st2.world.calls = st.world.calls ++
            [Call.SaveProgram (newProgram env m.name c) false,
             Call.ShouldSendNotification false (updateAlert env m.name existingProgram c).1,
             Call.SendAlert (updateAlert env m.name existingProgram c).1] ∧
          st2.updatedPrograms = st.updatedPrograms + 1) ∧
      (∀ r, m.run env config w false (.ok { capacity := cap, json := body }) = some r →
        ∃ (its : List Iteration) (tail : List Call),
          r.world.calls = w.calls ++ its.flatMap Iteration.calls ++ tail ∧
          List.Forall₂ (Iteration.of env m.name (config.platform m.name)) (m.records body)
            its ∧
          (∀ x ∈ tail, Call.isRemoval x = true) ∧
          r.updatedPrograms = its.countP Iteration.isUpdate) ∧
      (200 ≤ cap → (∀ n, env.getErr n = false) →
        ∃ r, m.run env config w false (.ok { capacity := cap, json := body }) = some r) := by
  intro m hm
  have hty : ∀ program c, m.locals program = some c → c.programType ≠ "" := by
    intro program c hc
    rcases locals_programType m hm program c hc with h | h <;> rw [h] <;> decide
  obtain ⟨_, _, hrun⟩ := platformMonitors_run m hm env config w false
  refine ⟨?_, ?_, ?_, ?_⟩
  · intro program c existingProgram cfg hc
    exact ⟨locals_programType m hm program c hc, fun h =>
      updateAlert_notified env m.name existingProgram c (hty program c hc) h cfg⟩
  · intro program c existingProgram cfg st hc hfound hchanged hsave
    have hn := (updateAlert_notified env m.name existingProgram c (hty program c hc) hchanged
      cfg).2.2
    rw [processProgram_found env m.name cfg false st c existingProgram hfound]
    exact ⟨_, rfl, by simp [hchanged, hsave, hn], by simp [hchanged, hsave, hn]⟩
  · intro r hr
    by_cases hcap : 200 ≤ cap
    · have hrec : ∀ c ∈ m.records body, c.programType ≠ "" := by
        intro c hc
        obtain ⟨program, _, hp⟩ := List.mem_filterMap.1 hc
        exact hty program c hp
      rw [hrun cap body hcap] at hr
      unfold monitorCycle at hr
      rw [monitorLoop_eq] at hr
      cases hloop : List.foldlM (processProgram env m.name (config.platform m.name) false)
          (MonitorState.start w) (List.filterMap m.locals (m.programs body)) with
      | none => rw [hloop] at hr; exact absurd hr (by simp)
      | some st2 =>
        rw [hloop] at hr
        obtain ⟨its, g1, g2, g3⟩ := loop_iterations env m.name (config.platform m.name)
          (m.records body) hrec (MonitorState.start w) st2 hloop
        obtain ⟨tail, t1, t2⟩ := checkRemovedPrograms_calls env m.name st2.currentKeys
          st2.world (config.platform m.name) false
        have hr2 := Option.some.inj hr
        refine ⟨its, tail, ?_, g2, t2, ?_⟩
        · rw [← hr2]
          simp only
          rw [t1, g1]
          rfl
        · rw [← hr2]
          simp only
          rw [g3]
          simp [MonitorState.start]
    · rw [platformMonitors_short m hm env config w false cap body (Nat.lt_of_not_le hcap)] at hr
      exact absurd hr (by simp)
  · intro hcap hget
    rw [hrun cap body hcap]
    unfold monitorCycle
    rw [monitorLoop_eq]
    obtain ⟨st2, hloop, _⟩ := loop_local env m.name (config.platform m.name) false hget
      (List.filterMap m.locals (m.programs body)) (MonitorState.start w)
    rw [hloop]
    exact ⟨_, rfl⟩

/-- Witness of C22: every notification flag is off; the store holds a `vdp`
program without scope under the key of the HackerOne record `Acme`, which is
`rdp` and has one asset.  `hasChanged` is set, the alert passes the policy,
the loop body writes the update, sends the alert and adds one to the tally;
the whole run makes these three calls and returns the tally one. -/
theorem C22_update_always_notified_witness :
    MonitorHackerOne.locals (Result.hackeroneNamed "Acme" "acme") = some Locals.acme ∧
    (updateAlert Env.ideal "hackerone" (Program.stub "hackerone" Locals.acme.key)
      Locals.acme).2 = true ∧
    ShouldSendNotification false
      (updateAlert Env.ideal "hackerone" (Program.stub "hackerone" Locals.acme.key)
        Locals.acme).1 (Platform.flags false false) false = true ∧
    (∃ st2, processProgram Env.ideal "hackerone" (Platform.flags false false) false
        (MonitorState.start (World.stored [Program.stub "hackerone" Locals.acme.key]))
        Locals.acme = some st2 ∧
      st2.updatedPrograms = 1) ∧
    (MonitorHackerOne Env.ideal (Config.uniform (Platform.flags false false))
        (World.stored [Program.stub "hackerone" Locals.acme.key]) false
        (.ok (Body.of (.arr "" [Result.hackeroneNamed "Acme" "acme"])))).map
        (fun r => (r.world.calls.map
            (fun x => (x.isSave, x.isPolicy, x.isSend, decide (x.key = Locals.acme.key))),
          r.world.sent.map (fun a => (a.IsNew, a.IsRemoved, a.NewType, a.NewScope)),
          r.updatedPrograms))
      = some ([(true, false, false, true), (false, true, false, true),
          (false, false, true, true)],
          [(false, false, "rdp", ["api.acme.com (URL)"])], 1) ∧
    ∃ r, MonitorHackerOne Env.ideal (Config.uniform (Platform.flags false false))
        (World.stored [Program.stub "hackerone" Locals.acme.key]) false
        (.ok { capacity := 512, json := .arr "" [Result.hackeroneNamed "Acme" "acme"] }) =
          some r := by
  have h := C22_update_always_notified Env.ideal (Config.uniform (Platform.flags false false))
    (World.stored [Program.stub "hackerone" Locals.acme.key]) 512
    (.arr "" [Result.hackeroneNamed "Acme" "acme"])
    { run := MonitorHackerOne, name := "hackerone", programs := MonitorHackerOne.programs,
      locals := MonitorHackerOne.locals }
    (List.mem_cons_self _ _)
  have hlocals : MonitorHackerOne.locals (Result.hackeroneNamed "Acme" "acme") =
      some Locals.acme := by rfl
  have hchanged : (updateAlert Env.ideal "hackerone"
      (Program.stub "hackerone" Locals.acme.key) Locals.acme).2 = true := by rfl
  refine ⟨hlocals, hchanged, ?_, ?_, by rfl, h.2.2.2 (by decide) (fun _ => rfl)⟩
  · exact ((h.1 (Result.hackeroneNamed "Acme" "acme") Locals.acme
      (Program.stub "hackerone" Locals.acme.key) (Platform.flags false false) hlocals).2
      hchanged).2.2
  · obtain ⟨st2, h1, _, h3⟩ := h.2.1 (Result.hackeroneNamed "Acme" "acme") Locals.acme
      (Program.stub "hackerone" Locals.acme.key) (Platform.flags false false)
      (MonitorState.start (World.stored [Program.stub "hackerone" Locals.acme.key]))
      hlocals (by rfl) hchanged (by rfl)
    exact ⟨st2, h1, h3⟩

end PewPew
